import Mathlib

/-!
# ahttp: a shallow embedding of the HTTP request/response engine

The definitions below are translated from the C++ sources of the `ahttp` library
(`ahttplib/aconnect` and `ahttplib/ahttp`).  Conventions of the embedding:

* a `std::string` is the list of its bytes, each byte given by its value `0..255`
  (`Str`); `lit` gives the bytes of an ASCII literal;
* a `std::map<string, string>` is an association list kept sorted by key, so that
  iterating it visits the keys in the order of `std::string::operator<`;
* the client socket is the byte string delivered to it so far; `send` takes what it is
  offered until the connection has carried `Env.sendLimit` bytes and fails from there on;
* a C++ exception, a failed `assert` and a loop that never exits are recorded in the
  `err` field of a `Res`, next to the state that was reached when it happened;
* whether `assert` is compiled in (no `NDEBUG`) is the `asserts` field of `Env`.
-/

namespace ahttp

/-! ## Strings, errors, maps -/

/-- A `std::string`: the list of its byte values. -/
abbrev Str := List Nat

/-- The bytes of an ASCII string constant. -/
def lit (s : String) : Str := s.toList.map Char.toNat

/-- The ways a call can fail to return normally. -/
inductive Err where
  /-- The exception `std::runtime_error ("HTTP headers already sent")` -/
  | headers_already_sent
  /-- The exception `std::runtime_error ("Response already sent")` -/
  | response_already_sent
  /-- A failed `assert` (the process is aborted) -/
  | assert_failed
  /-- The exception `std::out_of_range` -/
  | out_of_range
  /-- The exception `boost::bad_lexical_cast` -/
  | bad_lexical_cast
  /-- The exception `aconnect::request_processing_error` -/
  | request_processing_error
  /-- The exception `aconnect::socket_error` -/
  | socket_error
  /-- Undefined behaviour: an element is read past the end of a vector or array -/
  | out_of_bounds
  /-- The call is stuck in a loop that never exits -/
  | no_return
  /-- The exception `std::bad_alloc` -/
  | bad_alloc
  deriving DecidableEq, Repr

/-- The outcome of a call on a state of type `σ`: the state reached, and the
exception (or abort) that ended the call, if any. -/
structure Res (σ : Type) where
  st : σ
  err : Option Err

/-- Continue with `f` when the call so far returned normally. -/
def Res.andThen {σ : Type} (r : Res σ) (f : σ → Res σ) : Res σ :=
  match r.err with
  | none => f r.st
  | some _ => r

/-- Build settings, the wall clock and the client connection, as far as the response
writer sees them. -/
structure Env where
  /-- Whether `assert` is compiled in (the build does not define `NDEBUG`) -/
  asserts : Bool
  /-- The value of `formatDate_RFC1123 (getDateTimeUtc ())` -/
  date : Str
  /-- The number of bytes the client connection carries before `send` fails on it; `none`
  when the connection never fails -/
  sendLimit : Option Nat

/-- The order `std::string::operator<`: lexicographic order on unsigned bytes. -/
def strLt : Str → Str → Bool
  | [], [] => false
  | [], _ :: _ => true
  | _ :: _, [] => false
  | a :: as, b :: bs => if a < b then true else if b < a then false else strLt as bs

/-- The type `aconnect::str2str_map`, that is `std::map <string, string>`. -/
abbrev str2str_map := List (Str × Str)

/-- Lookup `m.find (k)`, giving the mapped value when there is one. -/
def mapFind : str2str_map → Str → Option Str
  | [], _ => none
  | (k1, v1) :: rest, k => if k1 = k then some v1 else mapFind rest k

/-- Assignment `m [k] = v`. -/
def mapSet : str2str_map → Str → Str → str2str_map
  | [], k, v => [(k, v)]
  | (k1, v1) :: rest, k, v =>
    if k1 = k then (k, v) :: rest
    else if strLt k k1 then (k, v) :: (k1, v1) :: rest
    else (k1, v1) :: mapSet rest k v

/-- Function `util::min2`. -/
def min2 (n1 n2 : Nat) : Nat := if n1 < n2 then n1 else n2

/-! ## Number formatting -/

/-- The digit character of `d` in lowercase hexadecimal (also decimal for `d < 10`). -/
def digitChar (d : Nat) : Nat := if d < 10 then 48 + d else 87 + d

/-- Digits of `n` in base `b`, most significant first, pushed in front of `acc`. -/
def formatNatAux (b : Nat) : Nat → Nat → Str → Str
  | 0, _, acc => acc
  | fuel + 1, n, acc =>
    if n < b then digitChar n :: acc
    else formatNatAux b fuel (n / b) (digitChar (n % b) :: acc)

/-- An unsigned number printed in base `b` without leading zeros. -/
def formatNat (b n : Nat) : Str := formatNatAux b (n + 1) n []

/-- Conversion `boost::lexical_cast<string> (size_t)`. -/
def lexical_cast_string (n : Nat) : Str := formatNat 10 n

/-- Output `stream << int`. -/
def formatInt (i : Int) : Str :=
  if i < 0 then 45 :: formatNat 10 i.natAbs else formatNat 10 i.natAbs

/-! ## `http_support.hpp` -/

inductive HttpMethodType where
  | Unknown | Get | Post | Head
  deriving DecidableEq, Repr

namespace detail

def HeaderContentLength : Str := lit "Content-Length"
def HeaderTransferEncoding : Str := lit "Transfer-Encoding"
def HeaderContentType : Str := lit "Content-Type"
def HeaderServer : Str := lit "Server"
def HeaderDate : Str := lit "Date"
def ContentTypeTextHtml : Str := lit "text/html"
def TransferEncodingChunked : Str := lit "chunked"
def ChunkEndMark : Str := lit "\r\n"
def LastChunkFormat : Str := lit "0\r\n\r\n"
def HttpVersion : Str := lit "HTTP/1.1"
def HeadersDelimiter : Str := lit "\r\n"
def HeaderValueDelimiter : Str := lit ": "

/-- Value of `boost::format (ChunkHeaderFormat) % chunkSize` with `ChunkHeaderFormat = "%x\r\n"`. -/
def ChunkHeaderFormat (chunkSize : Nat) : Str := formatNat 16 chunkSize ++ lit "\r\n"

def httpStatusDesc (status : Int) : Str :=
  if status = 100 then lit "Continue"
  else if status = 101 then lit "Switching Protocols"
  else if status = 200 then lit "OK"
  else if status = 201 then lit "Created"
  else if status = 202 then lit "Accepted"
  else if status = 203 then lit "Non-Authoritative Information"
  else if status = 204 then lit "No Content"
  else if status = 205 then lit "Reset Content"
  else if status = 206 then lit "Partial Content"
  else if status = 300 then lit "Multiple Choices"
  else if status = 301 then lit "Moved Permanently"
  else if status = 302 then lit "Found"
  else if status = 303 then lit "See Other"
  else if status = 304 then lit "Not Modified"
  else if status = 305 then lit "Use Proxy"
  else if status = 306 then lit "(Unused)"
  else if status = 307 then lit "Temporary Redirect"
  else if status = 400 then lit "Bad Request"
  else if status = 401 then lit "Unauthorized"
  else if status = 402 then lit "Payment Required"
  else if status = 403 then lit "Forbidden"
  else if status = 404 then lit "Not Found"
  else if status = 405 then lit "Method Not Allowed"
  else if status = 406 then lit "Not Acceptable"
  else if status = 407 then lit "Proxy Authentication Required"
  else if status = 408 then lit "Request Timeout"
  else if status = 409 then lit "Conflict"
  else if status = 410 then lit "Gone"
  else if status = 411 then lit "Length Required"
  else if status = 412 then lit "Precondition Failed"
  else if status = 413 then lit "Request Entity Too Large"
  else if status = 414 then lit "Request-URI Too Long"
  else if status = 415 then lit "Unsupported Media Type"
  else if status = 416 then lit "Requested Range Not Satisfiable"
  else if status = 417 then lit "Expectation Failed"
  else if status = 500 then lit "Internal Server Error"
  else if status = 501 then lit "Not Implemented"
  else if status = 502 then lit "Bad Gateway"
  else if status = 503 then lit "Service Unavailable"
  else if status = 504 then lit "Gateway Timeout"
  else if status = 505 then lit "HTTP Version Not Supported"
  else lit "Undefined"

end detail

/-! ## `aconnect/util.cpp`: socket output -/

/-- The cast `(int) n` of a `size_t`: the low 32 bits as a signed number. -/
def toInt32 (n : Nat) : Int :=
  if n % 2 ^ 32 < 2 ^ 31 then ((n % 2 ^ 32 : Nat) : Int) else ((n % 2 ^ 32 : Nat) : Int) - 2 ^ 32

/-- The call `send (s, curPos, bytesCount, 0)` on the blocking client socket, of which
`sock` is what it has carried so far: the number of bytes taken, `none` for `SOCKET_ERROR`.
`send` takes all it is offered as long as the connection carries it. -/
def send (env : Env) (sock : Str) (bytesCount : Int) : Option Int :=
  match env.sendLimit with
  | none => some bytesCount
  | some limit =>
    if sock.length < limit then
      some (if bytesCount < ((limit - sock.length : Nat) : Int) then bytesCount
        else ((limit - sock.length : Nat) : Int))
    else none

/-- The `do ... while (bytesCount > 0)` loop of `writeToSocket (s, buff, buffLen)`;
`curPos` is the string from the pointer `curPos` on. -/
def writeToSocketLoop (env : Env) : Nat → Str → Str → Int → Res Str
  | 0, sock, _, _ => ⟨sock, some Err.no_return⟩
  | fuel + 1, sock, curPos, bytesCount =>
    match send env sock bytesCount with
    | none => ⟨sock, some Err.socket_error⟩
    | some written =>
      let bytesCount1 := bytesCount - written
      let sock1 := sock ++ curPos.take written.toNat
      if 0 < bytesCount1 then writeToSocketLoop env fuel sock1 (curPos.drop written.toNat) bytesCount1
      else ⟨sock1, none⟩

/-- Function `util::writeToSocket (s, buff, buffLen)`; `buff` is the string from the pointer
`buff` on.  With a negative `buffLen` (which `send` takes as a `size_t`) or one that exceeds
what is left of the string, `send` is told to read past the end of the string.  Each `send`
takes at least one byte, so `buffLen` rounds are all the loop can make. -/
def writeToSocketBuff (env : Env) (s : Str) (buff : Str) (buffLen : Int) : Res Str :=
  if buffLen = 0 then ⟨s, none⟩
  else if buffLen < 0 ∨ (buff.length : Int) < buffLen then ⟨s, some Err.out_of_bounds⟩
  else writeToSocketLoop env buffLen.toNat s buff buffLen

/-- Function `util::writeToSocket (s, data)`: the socket after the call, and the exception
that ended it, if any. -/
def writeToSocket (env : Env) (s : Str) (data : Str) : Res Str :=
  if data.length = 0 then ⟨s, none⟩
  else writeToSocketBuff env s data (toInt32 data.length)

/-! ## `http_response_header.{hpp,cpp}` -/

structure HttpResponseHeader where
  Headers : str2str_map
  Status : Int

namespace HttpResponseHeader

def UnknownStatus : Int := -1

def getResponseStatusString (status : Int) : Str :=
  detail.HttpVersion ++ lit " " ++ formatInt status ++ lit " " ++ detail.httpStatusDesc status
    ++ detail.HeadersDelimiter

/-- The loop of `getContent` over the header map. -/
def headerLines : str2str_map → Str
  | [] => []
  | (name, value) :: rest =>
    name ++ detail.HeaderValueDelimiter ++ value ++ detail.HeadersDelimiter ++ headerLines rest

def getContent (h : HttpResponseHeader) : Str :=
  getResponseStatusString h.Status ++ headerLines h.Headers ++ detail.HeadersDelimiter

def setContentLength (h : HttpResponseHeader) (length : Nat) : HttpResponseHeader :=
  { h with Headers := mapSet h.Headers detail.HeaderContentLength (lexical_cast_string length) }

/-- Method `setContentType (contentType, charset)`; the default `charset` is empty. -/
def setContentType (h : HttpResponseHeader) (contentType : Str) (charset : Str) :
    HttpResponseHeader :=
  if charset.isEmpty then
    { h with Headers := mapSet h.Headers detail.HeaderContentType contentType }
  else
    { h with
      Headers :=
        mapSet h.Headers detail.HeaderContentType (contentType ++ lit "; charset=" ++ charset) }

def hasHeader (h : HttpResponseHeader) (headerName : Str) : Bool :=
  (mapFind h.Headers headerName).isSome

end HttpResponseHeader

/-! ## `http_response.{hpp,cpp}`: `HttpResponseStream` -/

structure HttpResponseStream where
  maxBuffSize_ : Nat
  maxChunkSize_ : Nat
  buffer_ : Str
  /-- The client socket: every byte sent on it so far -/
  socket_ : Str
  chunked_ : Bool
  sendContent_ : Bool

namespace HttpResponseStream

def clear (s : HttpResponseStream) : HttpResponseStream :=
  { s with buffer_ := [], chunked_ := false }

def willBeFlushed (s : HttpResponseStream) (contentSize : Nat) : Bool :=
  decide (s.maxBuffSize_ ≤ s.buffer_.length + contentSize)

def getBufferContentSize (s : HttpResponseStream) : Nat := s.buffer_.length

def setChunkedMode (s : HttpResponseStream) : HttpResponseStream := { s with chunked_ := true }

def setSendContent (s : HttpResponseStream) (sendContent : Bool) : HttpResponseStream :=
  { s with sendContent_ := sendContent }

/-- The stream after a call of `writeToSocket` on its socket. -/
def onSocket (s : HttpResponseStream) (x : Res Str) : Res HttpResponseStream :=
  ⟨{ s with socket_ := x.st }, x.err⟩

/-- Method `writeDirectly (content)`. -/
def writeDirectly (env : Env) (content : Str) (s : HttpResponseStream) : Res HttpResponseStream :=
  if env.asserts && s.chunked_ then ⟨s, some Err.assert_failed⟩
  else if s.sendContent_ then onSocket s (writeToSocket env s.socket_ content)
  else ⟨s, none⟩

/-- The `do ... while (curPos < bufferLen)` loop of `flush`, entered with the given
`curPos` and `chunkSize`: the socket when the loop exits or an exception ends it;
`Err.no_return` when it has not exited after `fuel` rounds. -/
def flushChunks (env : Env) (maxChunkSize_ : Nat) (buffer_ : Str) :
    Nat → Nat → Nat → Str → Res Str
  | 0, _, _, sock => ⟨sock, some Err.no_return⟩
  | fuel + 1, curPos, chunkSize, sock =>
    (writeToSocket env sock (detail.ChunkHeaderFormat chunkSize)).andThen fun sock1 =>
      (writeToSocketBuff env sock1 (buffer_.drop curPos) (toInt32 chunkSize)).andThen fun sock2 =>
        (writeToSocket env sock2 detail.ChunkEndMark).andThen fun sock3 =>
          let curPos1 := curPos + chunkSize
          let chunkSize1 := min2 maxChunkSize_ (buffer_.length - curPos1)
          if curPos1 < buffer_.length then
            flushChunks env maxChunkSize_ buffer_ fuel curPos1 chunkSize1 sock3
          else ⟨sock3, none⟩

/-- Method `flush ()`.  The chunk loop is run for at most `buffer_.size ()` rounds, which is
every round it can make when `maxChunkSize_` is positive; with `maxChunkSize_ = 0` the
loop of the source never exits. -/
def flush (env : Env) (s : HttpResponseStream) : Res HttpResponseStream :=
  if s.buffer_.isEmpty then ⟨s, none⟩
  else if !s.sendContent_ then ⟨s, none⟩
  else if s.chunked_ then
    let bufferLen := s.buffer_.length
    let chunkSize := if s.maxChunkSize_ < bufferLen then s.maxChunkSize_ else bufferLen
    (onSocket s (flushChunks env s.maxChunkSize_ s.buffer_ bufferLen 0 chunkSize s.socket_)).andThen
      fun s1 => ⟨{ s1 with buffer_ := [] }, none⟩
  else
    (onSocket s (writeToSocket env s.socket_ s.buffer_)).andThen
      fun s1 => ⟨{ s1 with buffer_ := [] }, none⟩

/-- Method `write (buff, dataSize)`, and `write (content)`. -/
def write (env : Env) (content : Str) (s : HttpResponseStream) : Res HttpResponseStream :=
  let s1 := { s with buffer_ := s.buffer_ ++ content }
  if s1.maxBuffSize_ ≤ s1.buffer_.length then flush env s1 else ⟨s1, none⟩

/-- Method `end ()`. -/
def «end» (env : Env) (s : HttpResponseStream) : Res HttpResponseStream :=
  if s.chunked_ && s.sendContent_ then
    onSocket s (writeToSocket env s.socket_ detail.LastChunkFormat)
  else ⟨s, none⟩

end HttpResponseStream

/-! ## `http_response.{hpp,cpp}`: `HttpResponse` -/

structure HttpResponse where
  Header : HttpResponseHeader
  Stream : HttpResponseStream
  headersSent_ : Bool
  finished_ : Bool
  serverName_ : Str
  httpMethod_ : HttpMethodType

namespace HttpResponse

/-- Lift a call on the stream to the response that owns it. -/
def onStream (r : HttpResponse) (x : Res HttpResponseStream) : Res HttpResponse :=
  ⟨{ r with Stream := x.st }, x.err⟩

/-- The constructor `HttpResponse (buffSize, chunkSize)`, followed by `init` on a
socket on which nothing has been sent yet. -/
def create (buffSize chunkSize : Nat) : HttpResponse :=
  { Header := { Headers := [], Status := HttpResponseHeader.UnknownStatus }
    Stream := { maxBuffSize_ := buffSize, maxChunkSize_ := chunkSize, buffer_ := [],
                socket_ := [], chunked_ := false, sendContent_ := true }
    headersSent_ := false
    finished_ := false
    serverName_ := []
    httpMethod_ := HttpMethodType.Unknown }

def isFinished (r : HttpResponse) : Bool := r.finished_

def isHeadersSent (r : HttpResponse) : Bool := r.headersSent_

def canSendContent (r : HttpResponse) : Bool := decide (r.httpMethod_ ≠ HttpMethodType.Head)

def setServerName (serverName : Str) (r : HttpResponse) : HttpResponse :=
  { r with serverName_ := serverName }

def setHttpMethod (httpMethod : HttpMethodType) (r : HttpResponse) : HttpResponse :=
  let r1 := { r with httpMethod_ := httpMethod }
  { r1 with Stream := r1.Stream.setSendContent r1.canSendContent }

def fillCommonResponseHeaders (env : Env) (r : HttpResponse) : HttpResponse :=
  let h1 := if r.serverName_.isEmpty then r.Header.Headers
            else mapSet r.Header.Headers detail.HeaderServer r.serverName_
  { r with Header := { r.Header with Headers := mapSet h1 detail.HeaderDate env.date } }

def applyContentEncoding (r : HttpResponse) : HttpResponse :=
  if !r.Header.hasHeader detail.HeaderContentLength then
    { r with
      Stream := r.Stream.setChunkedMode
      Header := { r.Header with
        Headers := mapSet r.Header.Headers detail.HeaderTransferEncoding
          detail.TransferEncodingChunked } }
  else r

def sentHeaders (env : Env) (r : HttpResponse) : Res HttpResponse :=
  if env.asserts && r.headersSent_ then ⟨r, some Err.assert_failed⟩
  else if env.asserts && decide (r.httpMethod_ = HttpMethodType.Unknown) then
    ⟨r, some Err.assert_failed⟩
  else if r.headersSent_ then ⟨r, some Err.headers_already_sent⟩
  else
    let r1 := fillCommonResponseHeaders env (applyContentEncoding r)
    (onStream r1
        (r1.Stream.onSocket (writeToSocket env r1.Stream.socket_ r1.Header.getContent))).andThen
      fun r2 => ⟨{ r2 with headersSent_ := true }, none⟩

def writeCompleteResponse (env : Env) (response : Str) (r : HttpResponse) : Res HttpResponse :=
  if env.asserts && r.finished_ then ⟨r, some Err.assert_failed⟩
  else if env.asserts && r.headersSent_ then ⟨r, some Err.assert_failed⟩
  else if r.headersSent_ then ⟨r, some Err.headers_already_sent⟩
  else if r.finished_ then ⟨r, some Err.response_already_sent⟩
  else
    let r1 := { r with Header := r.Header.setContentLength response.length }
    (sentHeaders env r1).andThen fun r2 =>
      let r3 := { r2 with Stream := r2.Stream.clear }
      (onStream r3 (r3.Stream.writeDirectly env response)).andThen fun r4 =>
        ⟨{ r4 with finished_ := true }, none⟩

def writeCompleteHtmlResponse (env : Env) (response : Str) (r : HttpResponse) :
    Res HttpResponse :=
  writeCompleteResponse env response
    { r with Header := r.Header.setContentType detail.ContentTypeTextHtml [] }

/-- Method `write (buff, dataSize)`, and `write (content)`. -/
def write (env : Env) (content : Str) (r : HttpResponse) : Res HttpResponse :=
  if r.finished_ then ⟨r, some Err.response_already_sent⟩
  else
    let r1 : Res HttpResponse :=
      if !r.headersSent_ && r.Stream.willBeFlushed content.length then sentHeaders env r
      else ⟨r, none⟩
    r1.andThen fun r2 => onStream r2 (r2.Stream.write env content)

def flush (env : Env) (r : HttpResponse) : Res HttpResponse :=
  let r1 : Res HttpResponse := if !r.headersSent_ then sentHeaders env r else ⟨r, none⟩
  r1.andThen fun r2 => onStream r2 (r2.Stream.flush env)

def «end» (env : Env) (r : HttpResponse) : Res HttpResponse :=
  let r1 := if !r.headersSent_ then
      { r with Header := r.Header.setContentLength r.Stream.getBufferContentSize }
    else r
  (flush env r1).andThen fun r2 =>
    (onStream r2 (r2.Stream.end env)).andThen fun r3 =>
      (onStream r3 (r3.Stream.writeDirectly env [])).andThen fun r4 =>
        ⟨{ r4 with finished_ := true }, none⟩

end HttpResponse

/-- A call made by a handler on the response. -/
inductive Call where
  | write (content : Str)
  | flush
  | finish
  | writeCompleteResponse (response : Str)

/-- Make one call (`Call.finish` is the call of `end ()`). -/
def HttpResponse.call (env : Env) : Call → HttpResponse → Res HttpResponse
  | Call.write content, r => r.write env content
  | Call.flush, r => r.flush env
  | Call.finish, r => r.end env
  | Call.writeCompleteResponse response, r => r.writeCompleteResponse env response

/-- Make the calls in order; an exception ends the sequence. -/
def HttpResponse.run (env : Env) : List Call → HttpResponse → Res HttpResponse
  | [], r => ⟨r, none⟩
  | c :: cs, r => (HttpResponse.call env c r).andThen (HttpResponse.run env cs)

/-! ## `aconnect/util.{hpp,cpp}`: string translation -/

namespace util

/-- Function `parseHexSymbol`. -/
def parseHexSymbol (symbol : Nat) : Except Err Nat :=
  if symbol = 65 ∨ symbol = 97 then .ok 10
  else if symbol = 66 ∨ symbol = 98 then .ok 11
  else if symbol = 67 ∨ symbol = 99 then .ok 12
  else if symbol = 68 ∨ symbol = 100 then .ok 13
  else if symbol = 69 ∨ symbol = 101 then .ok 14
  else if symbol = 70 ∨ symbol = 102 then .ok 15
  else if 48 ≤ symbol ∧ symbol ≤ 57 then .ok (symbol - 48)
  else .error Err.out_of_range

/-- The table `validChars` of `isSafeForUrlPart`, entry by entry. -/
def validChars : List Bool := [
    false, false, false, false, false, false, false, false, false, false,
    false, false, false, false, false, false, false, false, false, false,
    false, false, false, false, false, false, false, false, false, false,
    false, false, false, false, false, false, false, false, false, true,
    false, false, false, false, false, true, true, false, true, true,
    true, true, true, true, true, true, true, true, false, false,
    false, false, false, false, false, true, true, true, true, true,
    true, true, true, true, true, true, true, true, true, true,
    true, true, true, true, true, true, true, true, true, true,
    true, false, false, false, false, true, false, true, true, true,
    true, true, true, true, true, true, true, true, true, true,
    true, true, true, true, true, true, true, true, true, true,
    true, true, true, false, false, false, false, false, false, false,
    false, false, false, false, false, false, false, false, false, false,
    false, false, false, false, false, false, false, false, false, false,
    false, false, false, false, false, false, false, false, false, false,
    false, false, false, false, false, false, false, false, false, false,
    false, false, false, false, false, false, false, false, false, false,
    false, false, false, false, false, false, false, false, false, false,
    false, false, false, false, false, false, false, false, false, false,
    false, false, false, false, false, false, false, false, false, false,
    false, false, false, false, false, false, false, false, false, false,
    false, false, false, false, false, false, false, false, false, false,
    false, false, false, false, false, false, false, false, false, false,
    false, false, false, false, false, false, false, false, false, false,
    false, false, false, false, false]

/-- Function `isSafeForUrlPart`: the entry `validChars [(unsigned char) ch]`.  The table
has the indices 0 to 254, so the byte 255 reads past its end. -/
def isSafeForUrlPart (ch : Nat) : Except Err Bool :=
  match validChars[ch]? with
  | some safe => .ok safe
  | none => .error Err.out_of_bounds

/-- A `char` as the `int` it is promoted to (`char` is signed). -/
def charToInt (ch : Nat) : Int := if ch < 128 then (ch : Int) else (ch : Int) - 256

/-- The constant `hex` of `encodeUrlPart`. -/
def hex : Str := lit "0123456789ABCDEF"

/-- The index `(c >> 4) & 0xF`: the arithmetic shift is the floor of the division by 16,
and the mask keeps the value modulo 16. -/
def highNibble (c : Int) : Nat := Int.toNat (Int.emod (Int.fdiv c 16) 16)

/-- The index `c & 0xF`. -/
def lowNibble (c : Int) : Nat := Int.toNat (Int.emod c 16)

/-- The bytes `'%' << hex [(c >> 4) & 0xF] << hex [c & 0xF]` that `encodeUrlPart` writes
for a character that is not safe. -/
def percentEscape (ch : Nat) : Str :=
  [37, hex.getD (highNibble (charToInt ch)) 0, hex.getD (lowNibble (charToInt ch)) 0]

/-- The bytes `encodeUrlPart` writes for one character. -/
def encodeUrlChar (ch : Nat) : Except Err Str :=
  match isSafeForUrlPart ch with
  | .error e => .error e
  | .ok true => .ok [ch]
  | .ok false => .ok (percentEscape ch)

/-- Function `encodeUrlPart`: what the loop writes for the characters one after the
other. -/
def encodeUrlPart : Str → Except Err Str
  | [] => .ok []
  | ch :: rest =>
    match encodeUrlChar ch with
    | .error e => .error e
    | .ok written =>
      match encodeUrlPart rest with
      | .error e => .error e
      | .ok more => .ok (written ++ more)

/-- Search `s.find (ch, start)` counted from `i`, the position of the head of the list. -/
def findIn : Str → Nat → Nat → Option Nat
  | [], _, _ => none
  | x :: xs, ch, i => if x = ch then some i else findIn xs ch (i + 1)

/-- Search `s.find (ch, start)`; `none` is `string::npos`. -/
def find (s : Str) (ch : Nat) (start : Nat) : Option Nat := findIn (s.drop start) ch start

/-- Character `s [i]` of a string: the terminating NUL at `i = s.size ()` (and, in the
model, past it). -/
def charAt (s : Str) (i : Nat) : Nat := s.getD i 0

/-- Function `replace_all_copy (s, "+", " ")`. -/
def replacePlus : Str → Str
  | [] => []
  | c :: cs => (if c = 43 then 32 else c) :: replacePlus cs

/-- The `do ... while (true)` loop of `decodeUrl`, entered with `prevPos`, `pos` and the
stream `res`; `fuel` bounds the rounds. -/
def decodeUrlLoop (url : Str) : Nat → Nat → Option Nat → Str → Except Err Str
  | 0, _, _, _ => .error Err.no_return
  | fuel + 1, prevPos, pos, res =>
    if url.length < prevPos then .error Err.out_of_range
    else
      match pos with
      | none => .ok (res ++ replacePlus (url.drop prevPos))
      | some p =>
        match parseHexSymbol (charAt url (p + 1)) with
        | .error e => .error e
        | .ok hi =>
          match parseHexSymbol (charAt url (p + 2)) with
          | .error e => .error e
          | .ok lo =>
            decodeUrlLoop url fuel (p + 3) (find url 37 (p + 3))
              (res ++ replacePlus ((url.drop prevPos).take (p - prevPos)) ++
                [(hi * 16 + lo) % 256])

/-- Function `decodeUrl`.  Every round but the last passes a `%`, so `url.size () + 1`
rounds are all the loop can make. -/
def decodeUrl (url : Str) : Except Err Str :=
  decodeUrlLoop url (url.length + 1) 0 (find url 37 0) []

/-- The C string `s.c_str ()` as the C library reads it: up to the first NUL. -/
def c_str (s : Str) : Str := s.takeWhile fun c => c ≠ 0

/-- Function `tolower` in the "C" locale. -/
def tolower (c : Nat) : Nat := if 65 ≤ c ∧ c ≤ 90 then c + 32 else c

/-- Function `equals (str1, str2)` with `ignoreCase = true`: `_stricmp` gives 0. -/
def equals (str1 str2 : Str) : Bool :=
  decide ((c_str str1).map tolower = (c_str str2).map tolower)

end util

/-! ## Boost string algorithms and `lexical_cast` -/

namespace algo

/-- Predicate `is_space ()` in the classic locale. -/
def is_space (c : Nat) : Bool := decide (c = 32 ∨ (9 ≤ c ∧ c ≤ 13))

/-- The scan of `split` with `token_compress_on`: `cur` is the token being read, reversed;
`inRun` tells that the previous character was a delimiter. -/
def splitGo (isDelim : Nat → Bool) : Str → Str → Bool → List Str
  | [], cur, _ => [cur.reverse]
  | c :: cs, cur, inRun =>
    if isDelim c then
      (if inRun then splitGo isDelim cs cur true else cur.reverse :: splitGo isDelim cs [] true)
    else splitGo isDelim cs (c :: cur) false

/-- Function `split (result, input, isDelim, token_compress_on)`: the tokens between the
maximal runs of delimiters; a delimiter at either end leaves an empty token there. -/
def split (isDelim : Nat → Bool) (input : Str) : List Str := splitGo isDelim input [] false

/-- Function `trim_left_copy`. -/
def trim_left_copy (s : Str) : Str := s.dropWhile is_space

/-- Function `trim_copy`. -/
def trim_copy (s : Str) : Str := (trim_left_copy (trim_left_copy s).reverse).reverse

end algo

/-- The value of a string of decimal digits, `none` when a character is not a digit. -/
def digitsValue : Str → Nat → Option Nat
  | [], acc => some acc
  | c :: cs, acc => if 48 ≤ c ∧ c ≤ 57 then digitsValue cs (acc * 10 + (c - 48)) else none

/-- Conversion `boost::lexical_cast<int> (s)`: an optional sign and at least one digit, the
value in the range of a 32-bit `int`. -/
def lexical_cast_int (s : Str) : Except Err Int :=
  match s with
  | [] => .error Err.bad_lexical_cast
  | c :: cs =>
    let neg := decide (c = 45)
    let ds := if c = 45 ∨ c = 43 then cs else c :: cs
    match ds, digitsValue ds 0 with
    | [], _ => .error Err.bad_lexical_cast
    | _, none => .error Err.bad_lexical_cast
    | _, some v =>
      if neg then (if v ≤ 2147483648 then .ok (-(v : Int)) else .error Err.bad_lexical_cast)
      else (if v ≤ 2147483647 then .ok (v : Int) else .error Err.bad_lexical_cast)

/-- Conversion `boost::lexical_cast<size_t> (s)` for a 64-bit `size_t`: an optional sign
and at least one digit, the digits in range; a minus sign negates modulo `2^64`. -/
def lexical_cast_size_t (s : Str) : Except Err Nat :=
  match s with
  | [] => .error Err.bad_lexical_cast
  | c :: cs =>
    let neg := decide (c = 45)
    let ds := if c = 45 ∨ c = 43 then cs else c :: cs
    match ds, digitsValue ds 0 with
    | [], _ => .error Err.bad_lexical_cast
    | _, none => .error Err.bad_lexical_cast
    | _, some v =>
      if 18446744073709551615 < v then .error Err.bad_lexical_cast
      else if neg then .ok ((18446744073709551616 - v) % 18446744073709551616)
      else .ok v

/-! ## `http_request.{hpp,cpp}`: `HttpRequestHeader` -/

structure HttpRequestHeader where
  Headers : str2str_map
  VersionHigh : Int
  VersionLow : Int
  ContentLength : Nat
  Method : Str
  Path : Str

namespace HttpRequestHeader

/-- The constructor `HttpRequestHeader ()`. -/
def create : HttpRequestHeader :=
  { Headers := [], VersionHigh := 0, VersionLow := 0, ContentLength := 0, Method := [],
    Path := [] }

def hasHeader (h : HttpRequestHeader) (headerName : Str) : Bool :=
  (mapFind h.Headers headerName).isSome

def getHeader (h : HttpRequestHeader) (headerName : Str) : Str :=
  match mapFind h.Headers headerName with
  | none => []
  | some v => v

def loadHeader (name value : Str) (h : HttpRequestHeader) : Res HttpRequestHeader :=
  if util.equals name detail.HeaderContentLength then
    match lexical_cast_size_t value with
    | .ok n => ⟨{ h with ContentLength := n }, none⟩
    | .error e => ⟨h, some e⟩
  else ⟨{ h with Headers := mapSet h.Headers name value }, none⟩

/-- The `for` loop of `load` over the lines after the request line. -/
def loadLines : List Str → HttpRequestHeader → Res HttpRequestHeader
  | [], h => ⟨h, none⟩
  | line :: rest, h =>
    match util.find line 58 0 with
    | none => ⟨h, some Err.request_processing_error⟩
    | some pos =>
      (loadHeader (line.take pos) (algo.trim_copy (line.drop (pos + 1))) h).andThen
        (loadLines rest)

/-- The parsing of the HTTP version in `load`, from the third part of the request line. -/
def loadVersion (part : Str) (h : HttpRequestHeader) : Res HttpRequestHeader :=
  match util.find part 46 5 with
  | some pos =>
    match lexical_cast_int ((part.drop 5).take (pos - 5)) with
    | .error e => ⟨h, some e⟩
    | .ok hi =>
      match lexical_cast_int (part.drop (pos + 1)) with
      | .error e => ⟨{ h with VersionHigh := hi }, some e⟩
      | .ok lo => ⟨{ h with VersionHigh := hi, VersionLow := lo }, none⟩
  | none =>
    if part.length < 5 then ⟨h, some Err.out_of_range⟩
    else
      match lexical_cast_int (part.drop 5) with
      | .error e => ⟨h, some e⟩
      | .ok hi => ⟨{ h with VersionHigh := hi, VersionLow := 0 }, none⟩

/-- Method `load (headerBody)`; `asserts` tells whether `assert` is compiled in. -/
def load (asserts : Bool) (headerBody : Str) (h : HttpRequestHeader) : Res HttpRequestHeader :=
  if asserts && headerBody.isEmpty then ⟨h, some Err.assert_failed⟩
  else
    match algo.split (fun c => decide (c = 13 ∨ c = 10)) headerBody with
    | [] => ⟨h, some Err.out_of_bounds⟩
    | line0 :: lines =>
      match algo.split algo.is_space line0 with
      | method :: path :: version :: _ =>
        (loadVersion version { h with Method := method, Path := path }).andThen fun h1 =>
          loadLines lines h1
      | [method, path] => ⟨{ h with Method := method, Path := path }, some Err.out_of_bounds⟩
      | [method] => ⟨{ h with Method := method }, some Err.out_of_bounds⟩
      | [] => ⟨h, some Err.out_of_bounds⟩

end HttpRequestHeader

/-! ## `http_request.{hpp,cpp}`: `HttpRequestStream` -/

structure HttpRequestStream where
  ContentLength : Int
  requestBodyBegin_ : Str
  loadedContentLength_ : Int

namespace HttpRequestStream

/-- The constructor `HttpRequestStream ()`. -/
def create : HttpRequestStream :=
  { ContentLength := 0, requestBodyBegin_ := [], loadedContentLength_ := 0 }

/-- Method `init (requestBodyBegin, contentLength, sock)`. -/
def init (requestBodyBegin : Str) (contentLength : Int) (s : HttpRequestStream) :
    HttpRequestStream :=
  { ContentLength := contentLength
    loadedContentLength_ := 0
    requestBodyBegin_ := if contentLength > 0 then requestBodyBegin else s.requestBodyBegin_ }

def clear (s : HttpRequestStream) : HttpRequestStream :=
  { s with ContentLength := 0, requestBodyBegin_ := [] }

def hasBufferedContent (s : HttpRequestStream) : Bool := !s.requestBodyBegin_.isEmpty

def isRead (s : HttpRequestStream) : Bool := decide (s.loadedContentLength_ = s.ContentLength)

/-- What a call of `read` gives back: the `int` it returns and the bytes it put in `buff`. -/
structure ReadResult where
  returned : Int
  bytes : Str

/-- Method `read (buff, buffSize)`.  `incoming` is what `recv` does if it is called: `none`
for `SOCKET_ERROR`, else the bytes that arrive, of which `recv` takes at most the size it
is given (a negative size is taken to fail). -/
def read (buffSize : Int) (incoming : Option Str) (s : HttpRequestStream) :
    Except Err ReadResult × HttpRequestStream :=
  if s.ContentLength = 0 then (.ok ⟨0, []⟩, s)
  else if !s.requestBodyBegin_.isEmpty then
    let n : Int := if buffSize < (s.requestBodyBegin_.length : Int) then buffSize
      else (s.requestBodyBegin_.length : Int)
    let copied : Nat := if n < 0 then s.requestBodyBegin_.length else n.toNat
    (.ok ⟨copied, s.requestBodyBegin_.take copied⟩,
      { s with
        requestBodyBegin_ := s.requestBodyBegin_.drop copied
        loadedContentLength_ := s.loadedContentLength_ + copied })
  else if s.loadedContentLength_ = s.ContentLength then (.ok ⟨0, []⟩, s)
  else
    let size : Int := if buffSize > s.ContentLength - s.loadedContentLength_ then
        s.ContentLength - s.loadedContentLength_
      else buffSize
    match incoming with
    | none => (.error Err.socket_error, s)
    | some data =>
      if size < 0 then (.error Err.socket_error, s)
      else
        (.ok ⟨(data.take size.toNat).length, data.take size.toNat⟩,
          { s with loadedContentLength_ := s.loadedContentLength_ + (data.take size.toNat).length })

/-- One call of `read`: the buffer size and what `recv` would deliver. -/
structure ReadCall where
  buffSize : Int
  incoming : Option Str

/-- Successive calls of `read`, up to the first that throws: the total of the values
returned, and the stream reached. -/
def readAll : List ReadCall → HttpRequestStream → Int × HttpRequestStream
  | [], s => (0, s)
  | c :: cs, s =>
    match read c.buffSize c.incoming s with
    | (.ok r, s1) => ((readAll cs s1).1 + r.returned, (readAll cs s1).2)
    | (.error _, s1) => (0, s1)

end HttpRequestStream

/-! ## `http_server.cpp`: `HttpContext::parseQueryStringParams` -/

namespace HttpContext

/-- The body of the `for` loop of `parseQueryStringParams` for one piece: the key is
decoded, then the value, then the entry is assigned. -/
def setQueryParam (piece : Str) (params : str2str_map) : Res str2str_map :=
  match util.find piece 61 0 with
  | none =>
    match util.decodeUrl piece with
    | .ok k => ⟨mapSet params k [], none⟩
    | .error e => ⟨params, some e⟩
  | some pos =>
    match util.decodeUrl (piece.take pos) with
    | .error e => ⟨params, some e⟩
    | .ok k =>
      match util.decodeUrl (piece.drop (pos + 1)) with
      | .error e => ⟨params, some e⟩
      | .ok v => ⟨mapSet params k v, none⟩

/-- The `for` loop of `parseQueryStringParams`. -/
def setQueryParams : List Str → str2str_map → Res str2str_map
  | [], params => ⟨params, none⟩
  | piece :: rest, params => (setQueryParam piece params).andThen (setQueryParams rest)

/-- Method `parseQueryStringParams ()`, as a function of `RequestHeader.Path` and of
`GetParameters`. -/
def parseQueryStringParams (path : Str) (GetParameters : str2str_map) : Res str2str_map :=
  match util.find path 63 0 with
  | none => ⟨GetParameters, none⟩
  | some pos =>
    if pos + 1 = path.length then ⟨GetParameters, none⟩
    else setQueryParams (algo.split (fun c => decide (c = 38)) (path.drop (pos + 1))) GetParameters

end HttpContext

/-! ## Vocabulary of the statements -/

/-- The bytes a call hands to the response for its body. -/
def Call.payload : Call → Str
  | Call.write content => content
  | Call.writeCompleteResponse response => response
  | _ => []

/-- The header as `sentHeaders` finds it when the call `c` is what sends the header
block: `end ()` stores the buffered size as the content length first. -/
def headerAtSend (c : Call) (r : HttpResponse) : HttpResponseHeader :=
  match c with
  | Call.finish => r.Header.setContentLength r.Stream.getBufferContentSize
  | Call.writeCompleteResponse response => r.Header.setContentLength response.length
  | _ => r.Header

/-- The response `r` once `sentHeaders` has sent the header block with the header map `H`:
the stream is chunked when `r` had no `Content-Length` entry. -/
def sentState (r : HttpResponse) (H : str2str_map) : HttpResponse :=
  { r with
    Header := { r.Header with Headers := H }
    Stream := { r.Stream with
      chunked_ := r.Stream.chunked_ || !r.Header.hasHeader detail.HeaderContentLength
      socket_ := r.Stream.socket_ ++ HttpResponseHeader.getContent { r.Header with Headers := H } }
    headersSent_ := true }

/-- Whether the call `c`, made on a response whose headers are unsent, gets as far as
`sentHeaders`. -/
def sendsHeaders (c : Call) (r : HttpResponse) : Bool :=
  match c with
  | Call.write content => !r.finished_ && r.Stream.willBeFlushed content.length
  | Call.flush => true
  | Call.finish => true
  | Call.writeCompleteResponse _ => !r.finished_

/-! ## HTTP/1.1 chunked transfer coding, as the receiving side reads it -/

namespace Http11

/-- A size printed in lowercase hexadecimal, without leading zeros. -/
def hexLower (n : Nat) : Str := (Nat.toDigits 16 n).map Char.toNat

/-- One chunk: its size in lowercase hexadecimal, CRLF, its bytes, CRLF. -/
def chunk (data : Str) : Str := hexLower data.length ++ [13, 10] ++ data ++ [13, 10]

/-- The chunks one after the other. -/
def chunks : List Str → Str
  | [] => []
  | c :: cs => chunk c ++ chunks cs

/-- The last chunk `0 CRLF`, followed by the CRLF that ends a body without trailers. -/
def lastChunk : Str := [48, 13, 10, 13, 10]

/-- A chunked body: the chunks, then the last chunk. -/
def chunkedBody (cs : List Str) : Str := chunks cs ++ lastChunk

/-- The value of a hexadecimal digit. -/
def hexVal (c : Nat) : Option Nat :=
  if 48 ≤ c ∧ c ≤ 57 then some (c - 48)
  else if 97 ≤ c ∧ c ≤ 102 then some (c - 87)
  else if 65 ≤ c ∧ c ≤ 70 then some (c - 55)
  else none

/-- Read the hexadecimal digits in front of a string: their value after `acc`, and what
follows them. -/
def readHex : Str → Nat → Nat × Str
  | [], acc => (acc, [])
  | c :: cs, acc =>
    match hexVal c with
    | some d => readHex cs (acc * 16 + d)
    | none => (acc, c :: cs)

/-- Decode a chunked body in at most `fuel` chunks: a chunk size of at least one
hexadecimal digit, CRLF, that many bytes, CRLF, and so on up to the chunk of size zero,
after which only the final CRLF may stand. -/
def decodeChunkedAux : Nat → Str → Option Str
  | 0, _ => none
  | fuel + 1, s =>
    if (s.head?.bind hexVal).isNone then none
    else
      match readHex s 0 with
      | (n, 13 :: 10 :: rest) =>
        if n = 0 then (if rest = [13, 10] then some [] else none)
        else if rest.length < n then none
        else
          match rest.drop n with
          | 13 :: 10 :: rest2 => (decodeChunkedAux fuel rest2).map fun d => rest.take n ++ d
          | _ => none
      | _ => none

/-- Decode a chunked body; `none` when it is not well formed. -/
def decodeChunked (s : Str) : Option Str := decodeChunkedAux (s.length + 1) s

end Http11

/-- The state of a chunked response in the middle of its body: the headers are sent, the
socket holds `sent` (everything up to and including the header block) followed by whole
chunks of 1 to `m` bytes, and those chunks together with the buffer are `data`. -/
def ChunkedSoFar (sent : Str) (m : Nat) (data : Str) (r : HttpResponse) : Prop :=
  r.headersSent_ = true ∧ r.finished_ = false ∧ r.Stream.chunked_ = true ∧
  r.Stream.sendContent_ = true ∧ r.Stream.maxChunkSize_ = m ∧
  ∃ cs : List Str, (∀ c ∈ cs, 1 ≤ c.length ∧ c.length ≤ m) ∧
    r.Stream.socket_ = sent ++ Http11.chunks cs ∧ cs.flatten ++ r.Stream.buffer_ = data

/-- The header map that `sentHeaders` serialises, from the header and the server name it
finds: `applyContentEncoding`, then `fillCommonResponseHeaders`. -/
def sentHeaderMap (env : Env) (hdr : HttpResponseHeader) (serverName : Str) : str2str_map :=
  mapSet
    (if serverName.isEmpty then
      (if hdr.hasHeader detail.HeaderContentLength then hdr.Headers
        else mapSet hdr.Headers detail.HeaderTransferEncoding detail.TransferEncodingChunked)
     else
      mapSet
        (if hdr.hasHeader detail.HeaderContentLength then hdr.Headers
          else mapSet hdr.Headers detail.HeaderTransferEncoding detail.TransferEncodingChunked)
        detail.HeaderServer serverName)
    detail.HeaderDate env.date

/-- The bytes a HEAD response may have on its socket: what was there before (`sock0`), and
the header block once it is sent. -/
def headSocket (sock0 : Str) (h : HttpResponse) : Str :=
  sock0 ++ (if h.headersSent_ then h.Header.getContent else [])

/-- A HEAD response `h` and a GET response `g` that have been driven by the same calls,
both still running. -/
def HeadGetSim (sock0 : Str) (h g : HttpResponse) : Prop :=
  h.Header = g.Header ∧ h.headersSent_ = g.headersSent_ ∧ h.finished_ = g.finished_ ∧
  h.serverName_ = g.serverName_ ∧
  h.httpMethod_ = HttpMethodType.Head ∧ g.httpMethod_ = HttpMethodType.Get ∧
  h.Stream.chunked_ = g.Stream.chunked_ ∧ h.Stream.maxBuffSize_ = g.Stream.maxBuffSize_ ∧
  h.Stream.sendContent_ = false ∧
  (h.headersSent_ = false →
    h.Stream.buffer_ = g.Stream.buffer_ ∧ g.Stream.socket_ = h.Stream.socket_) ∧
  h.Stream.socket_ = headSocket sock0 h ∧ h.Stream.socket_ <+: g.Stream.socket_

/-- What is claimed of a HEAD response `h` and the GET response `g` driven by the same
calls: same header, same decision to send it, only the header block on the socket of `h`,
and the same bytes first on the socket of `g`. -/
def HeadGetFin (sock0 : Str) (h g : HttpResponse) : Prop :=
  h.Header = g.Header ∧ h.headersSent_ = g.headersSent_ ∧
  h.Stream.socket_ = headSocket sock0 h ∧ h.Stream.socket_ <+: g.Stream.socket_

/-- How the same call ends on the HEAD response (`x`) and on the GET response (`y`): both
return normally and stay in step, or the call on the GET response fails, with the headers
already sent if the call on the HEAD response returned. -/
def HeadGetOutcome (sock0 : Str) (x y : Res HttpResponse) : Prop :=
  (x.err = none ∧ y.err = none ∧ HeadGetSim sock0 x.st y.st) ∨
  (y.err ≠ none ∧ HeadGetFin sock0 x.st y.st ∧
    (x.err = none → x.st.headersSent_ = true ∧ x.st.Stream.sendContent_ = false))

/-- A build, a clock and a connection that does not fail, to run examples with. -/
def sampleEnv (asserts : Bool) : Env := ⟨asserts, lit "Sun, 06 Nov 1994 08:49:37 GMT", none⟩

/-- A GET response with a buffer of 4 bytes and chunks of at most 2 bytes. -/
def sampleResponse : HttpResponse :=
  (HttpResponse.create 4 2).setHttpMethod HttpMethodType.Get

/-- The outcome of a call as a value: the state when it returned, else the exception. -/
def Res.toExcept {σ : Type} (r : Res σ) : Except Err σ :=
  match r.err with
  | none => .ok r.st
  | some e => .error e

/-! ## The query string, as the specification words it -/

namespace Spec

/-- The text after the first `d`, when there is a `d`. -/
def afterFirst (d : Nat) : Str → Option Str
  | [] => none
  | c :: cs => if c = d then some cs else afterFirst d cs

/-- The text before the first `d` (all of it when there is no `d`). -/
def beforeFirst (d : Nat) : Str → Str
  | [] => []
  | c :: cs => if c = d then [] else c :: beforeFirst d cs

/-- The pieces of a text split at every `d`: one piece more than there are `d`. -/
def splitAll (d : Nat) : Str → List Str
  | [] => [[]]
  | c :: cs =>
    if c = d then [] :: splitAll d cs
    else
      match splitAll d cs with
      | [] => [[c]]
      | p :: ps => (c :: p) :: ps

/-- No two `d` stand next to each other. -/
def noAdjacent (d : Nat) : Str → Bool
  | [] => true
  | [_] => true
  | a :: b :: rest => !(decide (a = d) && decide (b = d)) && noAdjacent d (b :: rest)

/-- The substring of a request path after its first `?` (empty when there is none). -/
def queryString (path : Str) : Str := (afterFirst 63 path).getD []

/-- A piece `key=value` split at its first `=`, both sides percent-decoded; a piece
without `=` gives its decoded text and the empty string. -/
def queryPair (piece : Str) : Except Err (Str × Str) :=
  match afterFirst 61 piece with
  | none =>
    match util.decodeUrl piece with
    | .ok k => .ok (k, [])
    | .error e => .error e
  | some value =>
    match util.decodeUrl (beforeFirst 61 piece) with
    | .error e => .error e
    | .ok k =>
      match util.decodeUrl value with
      | .error e => .error e
      | .ok v => .ok (k, v)

/-- The pieces entered into a map in order, a later key overwriting an earlier one. -/
def queryFold : List Str → str2str_map → Except Err str2str_map
  | [], m => .ok m
  | piece :: rest, m =>
    match queryPair piece with
    | .error e => .error e
    | .ok kv => queryFold rest (mapSet m kv.1 kv.2)

/-- The map of the query parameters of a request path: empty when the path has no `?` or
nothing after it, else the pieces of the query string between the `&`. -/
def queryMap (path : Str) : Except Err str2str_map :=
  match afterFirst 63 path with
  | none => .ok []
  | some [] => .ok []
  | some (c :: q) => queryFold (splitAll 38 (c :: q)) []

end Spec


/-! ## `http_server.cpp`: `HttpContext::parseCookies` -/

namespace detail

def HeaderCookie : Str := lit "Cookie"
def HeaderContentDisposition : Str := lit "Content-Disposition"
def HeaderAllow : Str := lit "Allow"
def ContentDispositionFormData : Str := lit "form-data"
def HeadersEndMark : Str := lit "\r\n\r\n"
def MultipartBoundaryPrefix : Str := lit "--"
def Slash : Str := lit "/"
def MethodGet : Str := lit "GET"
def MethodPost : Str := lit "POST"
def MethodHead : Str := lit "HEAD"

end detail

namespace HttpContext

/-- Method `parseCookies ()`, as a function of `RequestHeader` and of `Cookies`.  The body
of its `for` loop is the text of the loop of `parseQueryStringParams` with `Cookies` for
`GetParameters`, so it is `setQueryParams`; the pieces of the split are used as they are. -/
def parseCookies (RequestHeader : HttpRequestHeader) (Cookies : str2str_map) :
    Res str2str_map :=
  if !RequestHeader.hasHeader detail.HeaderCookie then ⟨Cookies, none⟩
  else
    setQueryParams
      (algo.split (fun c => decide (c = 59)) (RequestHeader.getHeader detail.HeaderCookie))
      Cookies

end HttpContext

/-! ## `aconnect/util.cpp`: `parseKeyValuePairs` -/

/-- The number of values of `size_t` (64 bits). -/
def sizeMod : Nat := 2 ^ 64

/-- The constant `string::npos`, that is `(size_t) -1`. -/
def npos : Nat := sizeMod - 1

namespace util

/-- Search for the string `pat` in a string whose head is at position `i`. -/
def findStrIn : Str → Str → Nat → Option Nat
  | [], pat, i => if pat.isEmpty then some i else none
  | x :: xs, pat, i => if pat.isPrefixOf (x :: xs) then some i else findStrIn xs pat (i + 1)

/-- Search `s.find (pat)` for a string `pat`; `none` is `string::npos`. -/
def findStr (s pat : Str) : Option Nat := findStrIn s pat 0

/-- The value of type `size_t` that a search returns. -/
def posValue : Option Nat → Nat
  | some p => p
  | none => npos

/-- Function `trim_copy_if (s, is_any_of (symbols))`. -/
def trim_copy_if (symbols : Str) (s : Str) : Str :=
  ((s.dropWhile fun c => symbols.contains c).reverse.dropWhile fun c =>
    symbols.contains c).reverse

/-- The `do ... while (pos != string::npos)` loop of `parseKeyValuePairs`, entered with
`str`, `pos` and `pairs`; `fuel` bounds the rounds.  Positions are values of `size_t`:
`pos + delimLength` wraps around, `substr` and `erase` take what the string has. -/
def parseKeyValuePairsLoop (delimiter valueTrimSymbols : Str) :
    Nat → Str → Nat → str2str_map → Except Err str2str_map
  | 0, _, _, _ => .error Err.no_return
  | fuel + 1, str, pos, pairs =>
    let valuePos := posValue (find str 61 0)
    let pairs1 :=
      if valuePos < pos then
        mapSet pairs (str.take valuePos)
          (trim_copy_if valueTrimSymbols ((str.drop (valuePos + 1)).take (pos - valuePos - 1)))
      else mapSet pairs (str.take pos) []
    let str1 := algo.trim_left_copy (str.drop ((pos + delimiter.length) % sizeMod))
    let pos1 := posValue (findStr str1 delimiter)
    let pos2 := if pos1 = npos ∧ ¬ str1.isEmpty then str1.length - 1 else pos1
    if pos2 ≠ npos then parseKeyValuePairsLoop delimiter valueTrimSymbols fuel str1 pos2 pairs1
    else .ok pairs1

/-- Function `parseKeyValuePairs (str, pairs, delimiter, valueTrimSymbols)`: the value of
`pairs` on return.  The C strings `delimiter` and `valueTrimSymbols` end at their first
NUL.  A round with `pos != npos` erases at least one character unless `delimiter` is
empty, and the first round is the only one that can have `pos == npos`. -/
def parseKeyValuePairs (str : Str) (delimiter : Str) (valueTrimSymbols : Str) :
    Except Err str2str_map :=
  parseKeyValuePairsLoop (c_str delimiter) (c_str valueTrimSymbols) (str.length + 2) str
    (posValue (findStr str (c_str delimiter))) []

end util

/-! ## `http_server.cpp`: the upload name search of `loadMultipartFormData` -/

namespace HttpContext

/-- The string of `n` characters `$`. -/
def dollars (n : Nat) : Str := List.replicate n 36

/-- The loop `do { uploadPath = UploadsDirPath / (fileNamePrefix + fileName);
fileNamePrefix += '$'; } while (fs::exists (uploadPath));` entered with a prefix of `n`
characters `$`: the number of `$` in `fileNamePrefix` on exit.  File names are relative to
the uploads directory, `existing` lists the files in it; `fuel` bounds the rounds. -/
def uploadNameSearch (existing : List Str) (fileName : Str) : Nat → Nat → Option Nat
  | 0, _ => none
  | fuel + 1, n =>
    if existing.contains (dollars n ++ fileName) then uploadNameSearch existing fileName fuel (n + 1)
    else some (n + 1)

/-- The upload name search and the opening of the spill file: the name that
`currentFile.open` is called with, which is also what `uploadInfo.uploadPath` records.
The second loop runs once, because a failed `open` sets `failbit` and `bad ()` tests
`badbit` only.  At most `existing.length + 1` names are probed. -/
def uploadFileName (existing : List Str) (fileName : Str) : Except Err Str :=
  match uploadNameSearch existing fileName (existing.length + 1) 0 with
  | none => .error Err.no_return
  | some n => .ok (dollars n ++ fileName)

end HttpContext

/-! ## `http_server.cpp`: `HttpContext::parsePostParams` -/

/-- A `std::stringstream` as `parsePostParams` uses it: the characters written and not yet
read, and the state bits. -/
structure str_stream where
  content : Str
  eofbit : Bool
  failbit : Bool

namespace str_stream

/-- The constructor `str_stream ()`. -/
def create : str_stream := { content := [], eofbit := false, failbit := false }

def good (s : str_stream) : Bool := !s.eofbit && !s.failbit

def eof (s : str_stream) : Bool := s.eofbit

/-- Method `write (buff, n)`: the output sentry fails when the stream is not `good ()`, and
then nothing is written and `failbit` is set. -/
def write (data : Str) (s : str_stream) : str_stream :=
  if s.good then { s with content := s.content ++ data } else { s with failbit := true }

/-- Method `get (ch)`: the character read, if any.  The input sentry fails when the stream
is not `good ()`; at the end of the content `eofbit` and `failbit` are set. -/
def get (s : str_stream) : Option Nat × str_stream :=
  if !s.good then (none, { s with failbit := true })
  else
    match s.content with
    | [] => (none, { s with eofbit := true, failbit := true })
    | ch :: rest => (some ch, { s with content := rest })

end str_stream

namespace HttpContext

/-- The local variables of `parsePostParams` together with `PostParameters`. -/
structure PostScan where
  record : str_stream
  key : Str
  val : Str
  keyLoaded : Bool
  PostParameters : str2str_map

/-- The statement `PostParameters [util::decodeUrl (key)] = util::decodeUrl (val);`. -/
def setPostParam (s : PostScan) : Res PostScan :=
  match util.decodeUrl s.key with
  | .error e => ⟨s, some e⟩
  | .ok k =>
    match util.decodeUrl s.val with
    | .error e => ⟨s, some e⟩
    | .ok v => ⟨{ s with PostParameters := mapSet s.PostParameters k v }, none⟩

/-- The body of the loop `while (record.get (ch))` for the character `ch`. -/
def scanChar (ch : Nat) (s : PostScan) : Res PostScan :=
  if ch = 38 ∧ ¬ s.key.isEmpty then
    (setPostParam s).andThen fun s1 =>
      ⟨{ s1 with key := [], val := [], keyLoaded := false }, none⟩
  else if ch = 61 then ⟨{ s with keyLoaded := true }, none⟩
  else if s.keyLoaded then ⟨{ s with val := s.val ++ [ch] }, none⟩
  else ⟨{ s with key := s.key ++ [ch] }, none⟩

/-- The loop `while (record.get (ch))`: at most `fuel` characters are read before the
`get` that fails. -/
def scanRecord : Nat → PostScan → Res PostScan
  | 0, s => ⟨s, some Err.no_return⟩
  | fuel + 1, s =>
    match s.record.get with
    | (none, rec1) => ⟨{ s with record := rec1 }, none⟩
    | (some ch, rec1) => (scanChar ch { s with record := rec1 }).andThen (scanRecord fuel)

/-- The outcome of `parsePostParams`: the scan state and the request stream reached. -/
structure PostState where
  scan : PostScan
  RequestStream : HttpRequestStream

/-- The `do ... while (readBytes > 0)` loop of `parsePostParams`.  `incoming` lists what the
successive calls of `recv` deliver (`none` for `SOCKET_ERROR`); after the last of them the
peer has closed the connection and `recv` gives 0 bytes.  A call of `read` reaches `recv`
when the request has a body, the prefix is drained and the body is not loaded yet. -/
def parsePostLoop (buffSize : Int) : Nat → List (Option Str) → PostState → Res PostState
  | 0, _, st => ⟨st, some Err.no_return⟩
  | fuel + 1, incoming, st =>
    let callsRecv : Bool := decide (st.RequestStream.ContentLength ≠ 0) &&
      st.RequestStream.requestBodyBegin_.isEmpty &&
      decide (st.RequestStream.loadedContentLength_ ≠ st.RequestStream.ContentLength)
    match HttpRequestStream.read buffSize (incoming.headD (some [])) st.RequestStream with
    | (.error e, rs) => ⟨{ st with RequestStream := rs }, some e⟩
    | (.ok r, rs) =>
      if r.returned > 0 then
        let s1 := { st.scan with record := st.scan.record.write r.bytes }
        let x := scanRecord (s1.record.content.length + 1) s1
        match x.err with
        | some e => ⟨⟨x.st, rs⟩, some e⟩
        | none => parsePostLoop buffSize fuel (if callsRecv then incoming.tail else incoming)
            ⟨x.st, rs⟩
      else if ¬ st.scan.key.isEmpty then
        let x := setPostParam st.scan
        ⟨⟨x.st, rs⟩, x.err⟩
      else ⟨⟨st.scan, rs⟩, none⟩

/-- Method `parsePostParams ()` for a request that is not `multipart/form-data`:
`PostParameters` and the request stream on return.  `bufferSize` is
`Response.Stream.getBufferSize ()`, `ContentLength` is `RequestHeader.ContentLength`.
Every round of the loop but the last takes bytes from the prefix or a delivery of `recv`,
so the fuel given is never used up. -/
def parsePostParams (asserts : Bool) (bufferSize ContentLength : Nat)
    (incoming : List (Option Str)) (RequestStream : HttpRequestStream)
    (PostParameters : str2str_map) : Res (str2str_map × HttpRequestStream) :=
  if ContentLength = 0 then ⟨(PostParameters, RequestStream), none⟩
  else if toInt32 (min2 bufferSize ContentLength) < 0 then
    ⟨(PostParameters, RequestStream), some Err.bad_alloc⟩
  else
    let x := parsePostLoop (toInt32 (min2 bufferSize ContentLength))
      (RequestStream.requestBodyBegin_.length + incoming.length + 2) incoming
      ⟨⟨str_stream.create, [], [], false, PostParameters⟩, RequestStream⟩
    match x.err with
    | some e => ⟨(x.st.scan.PostParameters, x.st.RequestStream), some e⟩
    | none =>
      if asserts && !x.st.scan.record.eof then
        ⟨(x.st.scan.PostParameters, x.st.RequestStream), some Err.assert_failed⟩
      else ⟨(x.st.scan.PostParameters, x.st.RequestStream), none⟩

end HttpContext

/-! ## `http_server.cpp`: `HttpServer::findTarget` -/

namespace algo

/-- The scan of `replace_all`: `skip` characters of a match are still to be passed over. -/
def replaceGo (search format : Str) : Nat → Str → Str
  | _, [] => []
  | skip + 1, _ :: cs => replaceGo search format skip cs
  | 0, c :: cs =>
    if search.isPrefixOf (c :: cs) then format ++ replaceGo search format (search.length - 1) cs
    else c :: replaceGo search format 0 cs

/-- Function `replace_all (input, search, format)` for a non-empty `search`: the matches
are found from left to right in `input`, and what replaces one is not searched again. -/
def replace_all (input search format : Str) : Str :=
  if search.isEmpty then input else replaceGo search format 0 input

end algo

namespace HttpServer

/-- Lookup `directories.find (key)` in a `directories_map`, a `std::map` from the virtual
path to the settings of the directory (of type `δ`). -/
def dirFind {δ : Type} : List (Str × δ) → Str → Option δ
  | [], _ => none
  | (k, d) :: rest, key => if k = key then some d else dirFind rest key

/-- The loop `while ((slashPos = VirtualPath.find ("/", slashPos + 1)) != npos)` of
`findTarget`, entered with `slashPos` and `parentDirSettings`; `fuel` bounds the rounds. -/
def findDirLoop {δ : Type} (directories : List (Str × δ)) (VirtualPath : Str) :
    Nat → Nat → δ → Except Err δ
  | 0, _, _ => .error Err.no_return
  | fuel + 1, slashPos, parentDirSettings =>
    match util.find VirtualPath 47 (slashPos + 1) with
    | none => .ok parentDirSettings
    | some pos =>
      match dirFind directories (VirtualPath.take (pos + 1)) with
      | some d => findDirLoop directories VirtualPath fuel pos d
      | none => .ok parentDirSettings

/-- The search of `findTarget` for the registered directory: the value of
`parentDirSettings` when the mappings are applied, `none` when the root directory is not
registered (the request gets the answer 404).  Every round moves `slashPos` forward, so
`VirtualPath.size () + 1` rounds are all the loop can make. -/
def findRegisteredDirectory {δ : Type} (directories : List (Str × δ)) (VirtualPath : Str) :
    Except Err (Option δ) :=
  match dirFind directories detail.Slash with
  | none => .ok none
  | some root =>
    if !util.equals VirtualPath detail.Slash then
      match findDirLoop directories VirtualPath (VirtualPath.length + 1) 0 root with
      | .ok d => .ok (some d)
      | .error e => .error e
    else .ok (some root)

/-- The loop `for (int ndx = 1; ndx < (int) matches.size (); ++ndx)` of `findTarget`, entered
with `ndx = n + 1`: `subs` are the sub-matches from `ndx` on, `none` for one that did not
take part in the match. -/
def substituteMatches : Nat → List (Option Str) → Str → Str
  | _, [], target => target
  | n, m :: subs, target =>
    substituteMatches (n + 1) subs
      (algo.replace_all target (lit "\x7b" ++ formatNat 10 n ++ lit "\x7d") (m.getD []))

/-- What the request carries through the mappings: `RequestHeader.Path` and
`MappedVirtualPath`. -/
structure MappedPath where
  Path : Str
  MappedVirtualPath : Str
  deriving DecidableEq, Repr

/-- The body of the loop of `findTarget` over the mappings, for the rule `rule`.
`regex_match re s` stands for `boost::regex_match (s, matches, re)`: `none` when `s` does
not match, else the sub-matches 1, 2, ... of the match. -/
def applyMapping {ρ : Type} (regex_match : ρ → Str → Option (List (Option Str)))
    (parentVirtualPath virtualPath : Str) (st : MappedPath) (rule : ρ × Str) : MappedPath :=
  match regex_match rule.1 virtualPath with
  | none => st
  | some subs =>
    let Path := parentVirtualPath ++ substituteMatches 0 subs rule.2
    { Path := Path, MappedVirtualPath := Path.take (util.posValue (util.find Path 63 0)) }

/-- The part "apply mappings" of `findTarget`: `RequestHeader.Path` and
`MappedVirtualPath` after it.  `parentVirtualPath` and `mappings` are the members of
`parentDirSettings`. -/
def applyMappings {ρ : Type} (regex_match : ρ → Str → Option (List (Option Str)))
    (parentVirtualPath : Str) (mappings : List (ρ × Str)) (VirtualPath : Str)
    (st : MappedPath) : Except Err MappedPath :=
  if mappings.isEmpty then .ok st
  else if VirtualPath.length < parentVirtualPath.length then .error Err.out_of_range
  else
    .ok (mappings.foldl
      (applyMapping regex_match parentVirtualPath (VirtualPath.drop parentVirtualPath.length))
      st)

/-! ## Handlers: `directory_handlers_map` and `HttpServer::runHandlers` -/

/-- The constant `SettingsTags::AllExtensionsMark`. -/
def AllExtensionsMark : Str := lit "*"

/-- Method `insert` of `directory_handlers_map`, a `std::multimap <string, void*>` kept as
the list of its elements in iteration order: the new element goes after the elements whose
key is not greater than its key. -/
def multimapInsert {η : Type} : List (Str × η) → Str × η → List (Str × η)
  | [], x => [x]
  | y :: rest, x => if strLt x.1 y.1 then x :: y :: rest else y :: multimapInsert rest x

/-- The loop of `loadDirectoryHandlers`: the handlers `registered` on a directory, in
the order of their `<register>` elements, are inserted into `dirInfo.handlers`. -/
def loadDirectoryHandlers {η : Type} (registered : List (Str × η)) (handlers : List (Str × η)) :
    List (Str × η) :=
  registered.foldl multimapInsert handlers

/-- The test of `runHandlers` on the key of a handler. -/
def handlerApplies (extension : Str) (key : Str) : Bool :=
  util.equals key extension || util.equals key AllExtensionsMark

/-- Method `runHandlers (context, dirSettings)`.  A handler is a function on the context (of
type `σ`) that returns a `bool`; `extension` is `fs::extension (context.FileSystemPath)`
and `handlers` is `dirSettings.handlers`. -/
def runHandlers {σ : Type} (extension : Str) : List (Str × (σ → Bool × σ)) → σ → Bool × σ
  | [], context => (false, context)
  | (key, handler) :: rest, context =>
    if handlerApplies extension key then
      match handler context with
      | (true, context1) => (true, context1)
      | (false, context1) => runHandlers extension rest context1
    else runHandlers extension rest context

end HttpServer

/-! ## `aconnect/util.cpp`: `escapeHtml`; `http_messages.hpp`; error responses -/

namespace util

/-- Function `escapeHtml (str)`. -/
def escapeHtml (str : Str) : Str :=
  algo.replace_all
    (algo.replace_all (algo.replace_all str (lit "&") (lit "&amp;")) (lit "<") (lit "&lt;"))
    (lit ">") (lit "&gt;")

/-- Function `vsprintf (buff, format, args)` for the directives this program uses: `%s`
takes the next argument, a C string, and `%%` gives a `%`.  Any other directive, and a
`%s` without an argument left, is undefined behaviour. -/
def vsprintf : Str → List Str → Except Err Str
  | [], _ => .ok []
  | [c], _ => if c = 37 then .error Err.out_of_bounds else .ok [c]
  | c :: d :: rest, args =>
    if c = 37 then
      if d = 115 then
        match args with
        | [] => .error Err.out_of_bounds
        | arg :: args1 =>
          match vsprintf rest args1 with
          | .ok out => .ok (c_str arg ++ out)
          | .error e => .error e
      else if d = 37 then
        match vsprintf rest args with
        | .ok out => .ok (37 :: out)
        | .error e => .error e
      else .error Err.out_of_bounds
    else
      match vsprintf (d :: rest) args with
      | .ok out => .ok (c :: out)
      | .error e => .error e

/-- The macro `FORMAT_VA_MESSAGE (format, message)` where `vsprintf_s` is `vsprintf` (GCC):
the value of `message`.  The text and its NUL are written to a buffer of 0x1000
characters; a longer text overruns it. -/
def FORMAT_VA_MESSAGE (format : Str) (args : List Str) : Except Err Str :=
  match vsprintf (c_str format) args with
  | .error e => .error e
  | .ok out => if out.length + 1 > 0x1000 then .error Err.out_of_bounds else .ok out

end util

namespace messages

def ErrorUndefined : Str := lit "Detailed error description is not available."
def Error404 : Str := lit "The requested page cannot be found: \"%s\""
def Error500 : Str := lit "Internal server error.<hr />%s"
def Error501_MethodNotImplemented : Str :=
  lit "Requested method (%s) is not implemented, try GET/POST/HEAD."

/-- The value of `boost::format (MessageFormat) % title % header % description`: the three
`%s` of `MessageFormat` are filled in order and its `%%` gives `%`. -/
def MessageFormat (title header description : Str) : Str :=
  lit "<html><head><title>" ++ title ++ lit "</title> " ++
  lit "\t\t<style> BODY \x7b padding: 10px; margin: 10px; font: 10pt Tahoma, Arial; color: #000;\x7d" ++
  lit "\t\tH1 \x7bcolor: #cc0000; font: 14pt Tahoma, Arial; font-weight: bold; \x7d " ++
  lit "\t\tHR \x7bheight:1px; border: 1px solid #333; color: #333;\x7d " ++
  lit "\t\tTABLE \x7bfont-size: 100%;\x7d</style> " ++
  lit "\t\t</head><body><h1>" ++ header ++ lit "</h1>" ++ description ++ lit "</body></html>"

end messages

namespace HttpResponse

/-- Function `getErrorResponse (status, messageFormat, ...)`; `messageFormat` is `none` for a
null pointer, `args` are the C strings passed after it. -/
def getErrorResponse (status : Int) (messageFormat : Option Str) (args : List Str) :
    Except Err Str :=
  match messageFormat with
  | none =>
    .ok (messages.MessageFormat (detail.httpStatusDesc status) (detail.httpStatusDesc status)
      messages.ErrorUndefined)
  | some format =>
    match util.FORMAT_VA_MESSAGE format args with
    | .error e => .error e
    | .ok message =>
      .ok (messages.MessageFormat (detail.httpStatusDesc status) (detail.httpStatusDesc status)
        message)

end HttpResponse

/-- The members of `HttpContext` that the request processing of `HttpServer` uses. -/
structure HttpContext where
  RequestHeader : HttpRequestHeader
  Response : HttpResponse
  Method : HttpMethodType
  VirtualPath : Str
  MappedVirtualPath : Str := []
  RequestStream : HttpRequestStream := HttpRequestStream.create

namespace HttpServer

/-- Give the context the response reached by a call on `context.Response`. -/
def onResponse (context : HttpContext) (x : Res HttpResponse) : Res HttpContext :=
  ⟨{ context with Response := x.st }, x.err⟩

/-- Function `processError404 (context)`. -/
def processError404 (env : Env) (context : HttpContext) : Res HttpContext :=
  let c1 := { context with
    Response := { context.Response with Header := { context.Response.Header with Status := 404 } } }
  match HttpResponse.getErrorResponse 404 (some messages.Error404) [c1.VirtualPath] with
  | .error e => ⟨c1, some e⟩
  | .ok errorResponse => onResponse c1 (c1.Response.writeCompleteHtmlResponse env errorResponse)

/-- Function `processServerError (context, status, message)`; `message` is a C string, empty
for a null pointer. -/
def processServerError (env : Env) (status : Int) (message : Str) (context : HttpContext) :
    Res HttpContext :=
  if !context.Response.isHeadersSent && !context.Response.isFinished then
    match HttpResponse.getErrorResponse status (some messages.Error500) [message] with
    | .error e => ⟨context, some e⟩
    | .ok errorResponse =>
      let c1 := { context with
        Response := { context.Response with
          Header := { context.Response.Header with Status := status } } }
      onResponse c1 (c1.Response.writeCompleteHtmlResponse env errorResponse)
  else
    (onResponse context (context.Response.write env
      (lit "<hr /><b style=\"color:#cc0000;\">" ++ detail.httpStatusDesc status ++
        lit "</b><br/>" ++ util.c_str message))).andThen fun c1 =>
      onResponse c1 (c1.Response.end env)

/-- What `isMethodImplemented` gives back: the value returned and the context reached. -/
structure MethodCheck where
  returned : Bool
  context : HttpContext

/-- Function `isMethodImplemented (context)`.  When it returns `false`, `processRequest`
returns at once. -/
def isMethodImplemented (env : Env) (context : HttpContext) : Res MethodCheck :=
  let method := context.RequestHeader.Method
  if method.isEmpty then ⟨⟨false, context⟩, none⟩
  else if util.equals method detail.MethodGet then
    ⟨⟨true, { context with Method := HttpMethodType.Get }⟩, none⟩
  else if util.equals method detail.MethodPost then
    ⟨⟨true, { context with Method := HttpMethodType.Post }⟩, none⟩
  else if util.equals method detail.MethodHead then
    ⟨⟨true, { context with Method := HttpMethodType.Head }⟩, none⟩
  else
    let c1 := { context with
      Response := { context.Response with Header := { context.Response.Header with Status := 501 } } }
    match HttpResponse.getErrorResponse 501 (some messages.Error501_MethodNotImplemented)
        [method] with
    | .error e => ⟨⟨false, c1⟩, some e⟩
    | .ok errorResponse =>
      let c2 := { c1 with
        Response := { c1.Response with
          Header := c1.Response.Header.setContentType detail.ContentTypeTextHtml [] } }
      let x := c2.Response.writeCompleteResponse env errorResponse
      ⟨⟨false, { c2 with Response := x.st }⟩, x.err⟩

end HttpServer

/-! ## Vocabulary of the statements about mappings, handlers and error pages -/

namespace Spec

/-- The mappings applied cumulatively, as the specification words it: every rule is tried in
order, and a rule after a successful match is matched against the relative path as the
preceding match has rewritten it.  `rel` is the relative path the next rule sees. -/
def applyMappingsCumulative {ρ : Type} (regex_match : ρ → Str → Option (List (Option Str)))
    (parentVirtualPath : Str) : List (ρ × Str) → Str → HttpServer.MappedPath → HttpServer.MappedPath
  | [], _, st => st
  | rule :: rules, rel, st =>
    match regex_match rule.1 rel with
    | none => applyMappingsCumulative regex_match parentVirtualPath rules rel st
    | some subs =>
      applyMappingsCumulative regex_match parentVirtualPath rules
        (HttpServer.substituteMatches 0 subs rule.2)
        (HttpServer.applyMapping regex_match parentVirtualPath rel st rule)

/-- Handlers invoked one after the other in the order of the list, up to the first that
returns `true`. -/
def runInOrder {σ : Type} : List (σ → Bool × σ) → σ → Bool × σ
  | [], context => (false, context)
  | handler :: rest, context =>
    match handler context with
    | (true, context1) => (true, context1)
    | (false, context1) => runInOrder rest context1

end Spec

/-- Function `boost::regex_match` on regular expressions without special characters: such an
expression matches its own text and nothing else, and has no sub-matches. -/
def plainRegexMatch (re : Str) (s : Str) : Option (List (Option Str)) :=
  if re = s then some [] else none

/-- A handler that records its number in the context, a list of numbers, and returns
`ret`. -/
def loggingHandler (n : Nat) (ret : Bool) (context : List Nat) : Bool × List Nat :=
  (ret, context ++ [n])

/-- A context at the start of `processRequest`: the request header has the method `method`,
nothing has been written to the response, `VirtualPath` is still empty. -/
def sampleContext (method : Str) : HttpContext :=
  { RequestHeader := { HttpRequestHeader.create with Method := method, Path := lit "/" }
    Response := (HttpResponse.create 2097152 65535).setServerName (lit "ahttp")
    Method := HttpMethodType.Unknown
    VirtualPath := [] }

/-! ## `http_server.cpp`: `UploadFileInfo` and `HttpContext::loadMultipartFormData` -/

namespace util

/-- The inner `for` loop of `findSequence`: whether the input and the sequence agree until
one of them ends. -/
def matchesToEnd : Str → Str → Bool
  | [], _ => true
  | _ :: _, [] => true
  | a :: as, b :: bs => if a = b then matchesToEnd as bs else false

/-- The `do ... while` loop of `findSequence` for the first character `c0` and the rest
`seqTail` of the sequence, on an input whose head is at position `i`. -/
def findSequenceIn (c0 : Nat) (seqTail : Str) : Str → Nat → Option Nat
  | [], _ => none
  | c :: cs, i =>
    if c = c0 ∧ matchesToEnd cs seqTail = true then some i
    else findSequenceIn c0 seqTail cs (i + 1)

/-- Function `findSequence (input, seq)`; `none` is `string::npos`.  It gives the first
position where `seq` begins, also when the input ends before `seq` does.  An empty `seq`
fails the assertion; without it the iterator `seq.begin () + 1` is past the end. -/
def findSequence (asserts : Bool) (input seq : Str) : Except Err (Option Nat) :=
  match seq with
  | [] => if asserts then .error Err.assert_failed else .error Err.out_of_bounds
  | c0 :: seqTail => .ok (findSequenceIn c0 seqTail input 0)

end util

structure UploadFileInfo where
  name : Str
  fileName : Str
  contentType : Str
  isFileData : Bool
  fileSize : Nat
  uploadPath : Str
  deriving DecidableEq, Repr

namespace UploadFileInfo

/-- Method `reset ()`, which the constructor calls. -/
def reset : UploadFileInfo :=
  { name := [], fileName := [], contentType := [], isFileData := false, fileSize := 0,
    uploadPath := [] }

/-- The body of the `for` loop of `loadHeader` for one line. -/
def loadHeaderLine (line : Str) (u : UploadFileInfo) : Res UploadFileInfo :=
  if line.isEmpty then ⟨u, none⟩
  else
    match util.find line 58 0 with
    | none => ⟨u, some Err.request_processing_error⟩
    | some pos =>
      if util.equals (line.take pos) detail.HeaderContentDisposition then
        if !detail.ContentDispositionFormData.isPrefixOf (algo.trim_copy (line.drop (pos + 1))) then
          ⟨u, some Err.request_processing_error⟩
        else
          match util.parseKeyValuePairs (algo.trim_copy (line.drop (pos + 1))) (lit ";")
              (lit "\"") with
          | .error e => ⟨u, some e⟩
          | .ok pairs =>
            match mapFind pairs (lit "name") with
            | none => ⟨u, some Err.request_processing_error⟩
            | some name =>
              match mapFind pairs (lit "filename") with
              | some fileName =>
                ⟨{ u with name := name, isFileData := true, fileName := fileName }, none⟩
              | none => ⟨{ u with name := name }, none⟩
      else if util.equals (line.take pos) detail.HeaderContentType then
        ⟨{ u with contentType := algo.trim_copy (line.drop (pos + 1)) }, none⟩
      else ⟨u, none⟩

/-- The `for` loop of `loadHeader`. -/
def loadHeaderLines : List Str → UploadFileInfo → Res UploadFileInfo
  | [], u => ⟨u, none⟩
  | line :: rest, u => (loadHeaderLine line u).andThen (loadHeaderLines rest)

/-- Method `loadHeader (header)`. -/
def loadHeader (header : Str) : Res UploadFileInfo :=
  loadHeaderLines (algo.split (fun c => decide (c = 13 ∨ c = 10)) header) reset

end UploadFileInfo

namespace HttpContext

/-- Assignment `UploadedFiles [k] = v` on a `std::map <string, UploadFileInfo>`. -/
def uploadedSet : List (Str × UploadFileInfo) → Str → UploadFileInfo →
    List (Str × UploadFileInfo)
  | [], k, v => [(k, v)]
  | (k1, v1) :: rest, k, v =>
    if k1 = k then (k, v) :: rest
    else if strLt k k1 then (k, v) :: (k1, v1) :: rest
    else (k1, v1) :: uploadedSet rest k v

/-- The local variables of `loadMultipartFormData` and the members of the context it works
on.  `files` is the uploads directory, a map from the name of a file to its content, and
`currentFile` is the name of the file that is open, if one is; `incoming` lists what the
calls of `recv` still to come deliver. -/
structure Multipart where
  record : Str
  fieldName : Str
  boundaryPos : Nat
  readBytes : Int
  uploadInfo : UploadFileInfo
  currentFile : Option Str
  files : str2str_map
  PostParameters : str2str_map
  UploadedFiles : List (Str × UploadFileInfo)
  RequestStream : HttpRequestStream
  incoming : List (Option Str)

/-- Whether a call of `RequestStream.read` reaches `recv`: the request has a body, the prefix
is drained and the body is not loaded yet. -/
def callsRecv (rs : HttpRequestStream) : Bool :=
  decide (rs.ContentLength ≠ 0) && rs.requestBodyBegin_.isEmpty &&
    decide (rs.loadedContentLength_ ≠ rs.ContentLength)

/-- The statement `readBytes = RequestStream.read (buff.get (), buffSize);`.  After the last
delivery of `incoming` the peer has closed the connection and `recv` gives 0 bytes. -/
def multipartRead (buffSize : Int) (m : Multipart) : Res Multipart :=
  match HttpRequestStream.read buffSize (m.incoming.headD (some [])) m.RequestStream with
  | (.error e, rs) => ⟨{ m with RequestStream := rs }, some e⟩
  | (.ok r, rs) =>
    ⟨{ m with
        RequestStream := rs
        readBytes := r.returned
        record := m.record ++ r.bytes
        incoming := if callsRecv m.RequestStream then m.incoming.tail else m.incoming }, none⟩

/-- The statement `currentFile << data;`: nothing is stored when no file is open. -/
def writeCurrentFile (data : Str) (m : Multipart) : Multipart :=
  match m.currentFile with
  | none => m
  | some path => { m with files := mapSet m.files path ((mapFind m.files path).getD [] ++ data) }

/-- The statement `PostParameters [fieldName] += data;`. -/
def appendPostParameter (data : Str) (m : Multipart) : Multipart :=
  { m with
    PostParameters :=
      mapSet m.PostParameters m.fieldName ((mapFind m.PostParameters m.fieldName).getD [] ++ data) }

/-- The branch "start reading" of the loop `while (record.length ())`, for the position
`endPos` of the end mark of the part header.  Opening the spill file creates it or empties
it. -/
def partStart (asserts : Bool) (boundary : Str) (endPos : Nat) (m : Multipart) : Res Multipart :=
  let boundOffset := (detail.MultipartBoundaryPrefix ++ boundary ++ detail.HeadersDelimiter).length
  let m1 := { m with currentFile := none }
  if m1.record.length < boundOffset then ⟨m1, some Err.out_of_range⟩
  else
    let x := UploadFileInfo.loadHeader
      ((m1.record.drop boundOffset).take ((endPos + sizeMod - boundOffset) % sizeMod))
    match x.err with
    | some e => ⟨{ m1 with uploadInfo := x.st }, some e⟩
    | none =>
      match util.decodeUrl x.st.name with
      | .error e => ⟨{ m1 with uploadInfo := x.st }, some e⟩
      | .ok fieldName =>
        let record1 := m1.record.drop (endPos + detail.HeadersEndMark.length)
        match util.findSequence asserts record1
            (detail.HeadersDelimiter ++ detail.MultipartBoundaryPrefix ++ boundary) with
        | .error e =>
          ⟨{ m1 with uploadInfo := x.st, fieldName := fieldName, record := record1 }, some e⟩
        | .ok found =>
          let m2 := { m1 with
            uploadInfo := x.st, fieldName := fieldName, record := record1,
            boundaryPos := util.posValue found }
          if !m2.uploadInfo.isFileData then
            let m3 := appendPostParameter (m2.record.take m2.boundaryPos) m2
            ⟨{ m3 with record := m3.record.drop m3.boundaryPos, boundaryPos := 0 }, none⟩
          else if !m2.uploadInfo.fileName.isEmpty then
            match uploadFileName (m2.files.map Prod.fst) m2.uploadInfo.fileName with
            | .error e => ⟨m2, some e⟩
            | .ok uploadPath =>
              let m3 := { m2 with
                currentFile := some uploadPath
                files := mapSet m2.files uploadPath []
                uploadInfo := { m2.uploadInfo with uploadPath := uploadPath } }
              let m4 := if m3.record.isEmpty then m3
                else writeCurrentFile (m3.record.take m3.boundaryPos) m3
              ⟨{ m4 with
                  UploadedFiles := uploadedSet m4.UploadedFiles m4.fieldName m4.uploadInfo
                  record := m4.record.drop m4.boundaryPos, boundaryPos := 0 }, none⟩
          else
            ⟨{ m2 with
                UploadedFiles := uploadedSet m2.UploadedFiles m2.fieldName m2.uploadInfo
                record := m2.record.drop m2.boundaryPos, boundaryPos := 0 }, none⟩

/-- The loop `while (!RequestStream.isRead () && readBytes > 0)` that eats the request. -/
def eatRequest (buffSize : Int) : Nat → Multipart → Res Multipart
  | 0, m => ⟨m, some Err.no_return⟩
  | fuel + 1, m =>
    if !m.RequestStream.isRead && decide (m.readBytes > 0) then
      match HttpRequestStream.read buffSize (m.incoming.headD (some [])) m.RequestStream with
      | (.error e, rs) => ⟨{ m with RequestStream := rs }, some e⟩
      | (.ok r, rs) =>
        eatRequest buffSize fuel
          { m with
            RequestStream := rs
            readBytes := r.returned
            incoming := if callsRecv m.RequestStream then m.incoming.tail else m.incoming }
    else ⟨m, none⟩

/-- The loop `while (record.length ())` of `loadMultipartFormData`; `fuel` bounds the
rounds. -/
def multipartParts (asserts : Bool) (boundary : Str) (buffSize : Int) :
    Nat → Multipart → Res Multipart
  | 0, m => ⟨m, some Err.no_return⟩
  | fuel + 1, m =>
    if m.record.isEmpty then ⟨m, none⟩
    else
      let boundaryBegin := detail.MultipartBoundaryPrefix ++ boundary
      let headerEndMarkLen := detail.HeadersDelimiter.length
      let step : Res Multipart × Bool :=
        match (if m.boundaryPos = 0 then util.findStr m.record detail.HeadersEndMark else none) with
        | some endPos => (partStart asserts boundary endPos m, false)
        | none =>
          if ¬ m.fieldName.isEmpty ∧ m.boundaryPos ≠ 0 ∧ m.boundaryPos ≠ npos then
            let data := m.record.take ((m.boundaryPos + sizeMod - headerEndMarkLen) % sizeMod)
            let m1 := if !m.uploadInfo.isFileData then appendPostParameter data m
              else writeCurrentFile data m
            (⟨{ m1 with record := m1.record.drop m1.boundaryPos, boundaryPos := 0 }, none⟩, false)
          else if m.uploadInfo.isFileData && m.currentFile.isSome then
            match util.findSequence asserts m.record
                (detail.HeadersDelimiter ++ boundaryBegin) with
            | .error e => (⟨m, some e⟩, true)
            | .ok (some _) => (⟨m, none⟩, true)
            | .ok none =>
              match util.findSequence asserts m.record boundaryBegin with
              | .error e => (⟨m, some e⟩, true)
              | .ok (some _) => (⟨m, none⟩, true)
              | .ok none => (⟨{ writeCurrentFile m.record m with record := [] }, none⟩, false)
          else (⟨m, none⟩, true)
      match step with
      | (⟨m1, some e⟩, _) => ⟨m1, some e⟩
      | (⟨m1, none⟩, true) => ⟨m1, none⟩
      | (⟨m1, none⟩, false) =>
        if util.findStr m1.record (boundaryBegin ++ detail.MultipartBoundaryPrefix) = some 0 then
          (eatRequest buffSize (m1.incoming.length + m1.RequestStream.requestBodyBegin_.length + 2)
            m1).andThen fun m2 => ⟨{ m2 with readBytes := 0 }, none⟩
        else multipartParts asserts boundary buffSize fuel m1

/-- The `do ... while (readBytes > 0)` loop of `loadMultipartFormData`.  A round of the inner
loop that does not leave it shortens `record`, so `record.length () + 1` rounds are all it
can make. -/
def multipartLoop (asserts : Bool) (boundary : Str) (buffSize : Int) :
    Nat → Multipart → Res Multipart
  | 0, m => ⟨m, some Err.no_return⟩
  | fuel + 1, m =>
    (multipartRead buffSize m).andThen fun m1 =>
      let m2 := { m1 with
        boundaryPos := util.posValue (util.findStr m1.record
          (detail.MultipartBoundaryPrefix ++ boundary)) }
      (multipartParts asserts boundary buffSize (m2.record.length + 1) m2).andThen fun m3 =>
        if m3.readBytes > 0 then multipartLoop asserts boundary buffSize fuel m3
        else ⟨m3, none⟩

/-- The loop "read files info" of `loadMultipartFormData`: the size of every spill file is
stored with its entry. -/
def readFilesInfo (files : str2str_map) :
    List (Str × UploadFileInfo) → List (Str × UploadFileInfo)
  | [] => []
  | (k, u) :: rest =>
    (if u.uploadPath.isEmpty then (k, u)
     else
      match mapFind files u.uploadPath with
      | some content => (k, { u with fileSize := content.length })
      | none => (k, u)) :: readFilesInfo files rest

/-- Method `loadMultipartFormData (boundary)`.  `bufferSize` is
`Response.Stream.getBufferSize ()`, `ContentLength` is `RequestHeader.ContentLength`, `files`
is the uploads directory.  Every round of the outer loop but the last takes bytes from the
prefix or a delivery of `recv`. -/
def loadMultipartFormData (asserts : Bool) (boundary : Str) (bufferSize ContentLength : Nat)
    (incoming : List (Option Str)) (files : str2str_map) (RequestStream : HttpRequestStream)
    (PostParameters : str2str_map) (UploadedFiles : List (Str × UploadFileInfo)) :
    Res Multipart :=
  let m0 : Multipart :=
    { record := [], fieldName := [], boundaryPos := 0, readBytes := 0
      uploadInfo := UploadFileInfo.reset, currentFile := none, files := files
      PostParameters := PostParameters, UploadedFiles := UploadedFiles
      RequestStream := RequestStream, incoming := incoming }
  if toInt32 (min2 bufferSize ContentLength) < 0 then ⟨m0, some Err.bad_alloc⟩
  else
    (multipartLoop asserts boundary (toInt32 (min2 bufferSize ContentLength))
      (RequestStream.requestBodyBegin_.length + incoming.length + 2) m0).andThen fun m1 =>
      ⟨{ m1 with currentFile := none, UploadedFiles := readFilesInfo m1.files m1.UploadedFiles },
        none⟩

end HttpContext

/-! ## Vocabulary of the statement about `multipart/form-data` -/

namespace Spec

/-- The header of a part of a `multipart/form-data` body that is not a file: one
`Content-Disposition` line with the field name `n` in double quotes. -/
def partHeader (n : Str) : Str :=
  lit "Content-Disposition: form-data; name=\"" ++ n ++ lit "\""

/-- A `multipart/form-data` body with the boundary `B` that holds one part, the field `n`
with the value `v`. -/
def singlePartBody (B n v : Str) : Str :=
  lit "--" ++ B ++ lit "\r\n" ++ partHeader n ++ lit "\r\n\r\n" ++ v ++ lit "\r\n--" ++ B ++
    lit "--\r\n"

/-- One part of a `multipart/form-data` body with the boundary `B` that is not a file: the
field `n` with the value `v`. -/
def formPart (B n v : Str) : Str :=
  lit "--" ++ B ++ lit "\r\n" ++ partHeader n ++ lit "\r\n\r\n" ++ v ++ lit "\r\n"

/-- A `multipart/form-data` body with the boundary `B` that holds the fields `parts` in
order, each a name and a value, and the closing boundary after them. -/
def formBody (B : Str) : List (Str × Str) → Str
  | [] => lit "--" ++ B ++ lit "--\r\n"
  | p :: rest => formPart B p.1 p.2 ++ formBody B rest

/-- The field name of a part as `decodeUrl` gives it, empty when `decodeUrl` throws. -/
def decodedName (n : Str) : Str :=
  match util.decodeUrl n with
  | .ok k => k
  | .error _ => []

/-- The statement `m [k] += v` on a `str2str_map`. -/
def appendField (m : str2str_map) (k v : Str) : str2str_map :=
  mapSet m k ((mapFind m k).getD [] ++ v)

/-- The map that `m [decodeUrl (n)] += v` for the parts `(n, v)` in order makes of `m`. -/
def formFields : List (Str × Str) → str2str_map → str2str_map
  | [], m => m
  | p :: rest, m => formFields rest (appendField m (decodedName p.1) p.2)

end Spec

/-! ## The loops of `loadMultipartFormData`: what they keep -/

namespace HttpContext

end HttpContext

/-! ## `http_server.cpp`: `HttpServer::findTarget` and `HttpServer::processRequest` -/

namespace messages

def Error500_RequestNotLoaded : Str := lit "HTTP request was not loaded correctly"

end messages

/-- The members of `DirectorySettings` that `findTarget` reads before it runs the handlers;
`ρ` is the type of a compiled regular expression. -/
structure DirectorySettings (ρ : Type) where
  virtualPath : Str
  realPath : Str
  mappings : List (ρ × Str)

namespace HttpServer

/-- What `findTarget` and `processRequest` give back: the value returned and the context
reached. -/
structure Outcome where
  returned : Bool
  context : HttpContext

/-- Function `findTarget (context)` as far as the computation of `context.FileSystemPath`.
What follows it (the path of boost::filesystem, `runHandlers`, the directory and file
tests) is `serve`, which gets `parentDirSettings`, the context and the decoded path relative
to the directory: `none` when `MappedVirtualPath` is the virtual path of the directory
itself.  `regex_match` stands for `boost::regex_match`. -/
def findTarget {ρ : Type} (env : Env) (regex_match : ρ → Str → Option (List (Option Str)))
    (directories : List (Str × DirectorySettings ρ))
    (serve : DirectorySettings ρ → Option Str → HttpContext → Res Outcome)
    (context : HttpContext) : Res Outcome :=
  match findRegisteredDirectory directories context.VirtualPath with
  | .error e => ⟨⟨false, context⟩, some e⟩
  | .ok none => ⟨⟨false, (processError404 env context).st⟩, (processError404 env context).err⟩
  | .ok (some parentDirSettings) =>
    match applyMappings regex_match parentDirSettings.virtualPath parentDirSettings.mappings
        context.VirtualPath ⟨context.RequestHeader.Path, context.MappedVirtualPath⟩ with
    | .error e => ⟨⟨false, context⟩, some e⟩
    | .ok mapped =>
      let c1 := { context with
        RequestHeader := { context.RequestHeader with Path := mapped.Path }
        MappedVirtualPath := mapped.MappedVirtualPath }
      if c1.MappedVirtualPath = parentDirSettings.virtualPath then serve parentDirSettings none c1
      else if c1.MappedVirtualPath.length < parentDirSettings.virtualPath.length then
        ⟨⟨false, c1⟩, some Err.out_of_range⟩
      else
        match util.decodeUrl (c1.MappedVirtualPath.drop parentDirSettings.virtualPath.length) with
        | .error e => ⟨⟨false, c1⟩, some e⟩
        | .ok path => serve parentDirSettings (some path) c1

/-- The statement `if (findTarget (context)) processDirectFileRequest (context);` of
`processRequest`. -/
def findAndProcess (findTarget : HttpContext → Res Outcome)
    (processDirectFileRequest : HttpContext → Res HttpContext) (context : HttpContext) :
    Res HttpContext :=
  match (findTarget context).err with
  | some e => ⟨(findTarget context).st.context, some e⟩
  | none =>
    if (findTarget context).st.returned then
      processDirectFileRequest (findTarget context).st.context
    else ⟨(findTarget context).st.context, none⟩

/-- The `try` block of `processRequest` with its handler, which catches
`request_processing_error` and nothing else; `what` is the text `ex.what ()` of the
exception caught. -/
def tryFindAndProcess (env : Env) (findTarget : HttpContext → Res Outcome)
    (processDirectFileRequest : HttpContext → Res HttpContext) (what : Str)
    (context : HttpContext) : Res HttpContext :=
  match (findAndProcess findTarget processDirectFileRequest context).err with
  | some Err.request_processing_error =>
    processServerError env 500 what
      (findAndProcess findTarget processDirectFileRequest context).st
  | _ => findAndProcess findTarget processDirectFileRequest context

/-- Function `processRequest (context)`; `findTarget` and `processDirectFileRequest` stand for
the functions of these names. -/
def processRequest (env : Env) (findTarget : HttpContext → Res Outcome)
    (processDirectFileRequest : HttpContext → Res HttpContext) (what : Str)
    (context : HttpContext) : Res Outcome :=
  match (isMethodImplemented env context).err with
  | some e => ⟨⟨false, (isMethodImplemented env context).st.context⟩, some e⟩
  | none =>
    if !(isMethodImplemented env context).st.returned then
      ⟨⟨true, (isMethodImplemented env context).st.context⟩, none⟩
    else
      let c0 := (isMethodImplemented env context).st.context
      let c1 := { c0 with Response := c0.Response.setHttpMethod c0.Method }
      let c2 := { c1 with
        VirtualPath := c1.RequestHeader.Path.take (util.posValue (util.find c1.RequestHeader.Path 63 0))
        MappedVirtualPath :=
          c1.RequestHeader.Path.take (util.posValue (util.find c1.RequestHeader.Path 63 0)) }
      match (tryFindAndProcess env findTarget processDirectFileRequest what c2).err with
      | some e =>
        ⟨⟨false, (tryFindAndProcess env findTarget processDirectFileRequest what c2).st⟩, some e⟩
      | none =>
        let c3 := (tryFindAndProcess env findTarget processDirectFileRequest what c2).st
        if !c3.RequestStream.isRead then
          ⟨⟨true, (processServerError env 500 messages.Error500_RequestNotLoaded c3).st⟩,
            (processServerError env 500 messages.Error500_RequestNotLoaded c3).err⟩
        else if !c3.Response.isFinished then
          if c3.Response.Header.Status = HttpResponseHeader.UnknownStatus then
            ⟨⟨false, (processError404 env c3).st⟩, (processError404 env c3).err⟩
          else
            ⟨⟨false, (onResponse c3 (c3.Response.end env)).st⟩,
              (onResponse c3 (c3.Response.end env)).err⟩
        else ⟨⟨false, c3⟩, none⟩

end HttpServer

/-! ## `aconnect/server_settings.hpp`, `aconnect/aconnect.{hpp,cpp}`: the server and its workers -/

/-- The constant `SOMAXCONN` (Linux). -/
def SOMAXCONN : Int := 128

/-- The constant `AF_INET`. -/
def AF_INET : Int := 2

/-- The constant `INVALID_SOCKET`, that is `~0`. -/
def INVALID_SOCKET : Int := -1

structure ServerSettings where
  backlog : Int
  domain : Int
  reuseAddr : Bool
  enablePooling : Bool
  workersCount : Int
  workerLifeTime : Int
  socketReadTimeout : Int
  socketWriteTimeout : Int
  deriving DecidableEq, Repr

/-- The constructor `ServerSettings ()`: the default settings. -/
def ServerSettings.create : ServerSettings :=
  { backlog := SOMAXCONN, domain := AF_INET, reuseAddr := true, enablePooling := true,
    workersCount := 500, workerLifeTime := 300, socketReadTimeout := 60,
    socketWriteTimeout := 60 }

structure ClientInfo where
  port : Nat
  ip : List Nat
  socket : Int
  deriving DecidableEq, Repr

/-- The members of `Server` that the acceptor and the workers share. -/
structure Server where
  settings_ : ServerSettings
  workersCount_ : Int
  pendingWorkersCount_ : Int
  isStopped_ : Bool
  requests_ : List ClientInfo
  deriving DecidableEq, Repr

namespace Server

/-- The state of a server that `init` has given the settings, before any connection. -/
def create (settings : ServerSettings) : Server :=
  { settings_ := settings, workersCount_ := 0, pendingWorkersCount_ := 0, isStopped_ := false,
    requests_ := [] }

def addWorker (s : Server) : Server := { s with workersCount_ := s.workersCount_ + 1 }

def currentWorkersCount (s : Server) : Int := s.workersCount_

def currentPendingWorkersCount (s : Server) : Int := s.pendingWorkersCount_

/-- Method `removeWorker ()`, which the guard of a worker thread calls when the thread
ends. -/
def removeWorker (asserts : Bool) (s : Server) : Res Server :=
  if asserts && decide (s.workersCount_ - 1 < 0) then
    ⟨{ s with workersCount_ := s.workersCount_ - 1 }, some Err.assert_failed⟩
  else ⟨{ s with workersCount_ := s.workersCount_ - 1 }, none⟩

/-- Function `runWorkerThread (server, clientInfo)`: the worker is counted, then its thread is
started. -/
def runWorkerThread (s : Server) : Server := if s.isStopped_ then s else s.addWorker

/-- What the acceptor does with an accepted connection. -/
inductive Dispatch where
  /-- The connection is put on the queue for an idle worker -/
  | handedOver
  /-- A worker thread is started for the connection -/
  | started
  /-- The acceptor waits on `finishCondition ()` -/
  | waiting
  deriving DecidableEq, Repr

/-- The statements of `run` for an accepted connection `clientInfo`, from the test of the
pending workers to the point where the acceptor goes back to `accept` or blocks in
`finishCondition ().wait (lock)`; no other thread runs in between. -/
def dispatch (clientInfo : ClientInfo) (s : Server) : Dispatch × Server :=
  if s.settings_.enablePooling && decide (s.currentPendingWorkersCount > 0) then
    (Dispatch.handedOver, { s with requests_ := s.requests_ ++ [clientInfo] })
  else if s.currentWorkersCount < s.settings_.workersCount then
    (Dispatch.started, s.runWorkerThread)
  else (Dispatch.waiting, s)

/-- The statement of `run` that follows `finishCondition ().wait (lock)`, run when the wait
returns. -/
def afterFinishWait (s : Server) : Server := s.runWorkerThread

/-- The statements of `waitRequest` before `timed_wait`. -/
def waitRequestEnter (asserts : Bool) (s : Server) : Res Server :=
  if asserts && decide (s.workersCount_ < s.pendingWorkersCount_ + 1) then
    ⟨{ s with pendingWorkersCount_ := s.pendingWorkersCount_ + 1 }, some Err.assert_failed⟩
  else ⟨{ s with pendingWorkersCount_ := s.pendingWorkersCount_ + 1 }, none⟩

/-- What `waitRequest` gives back: the value returned, the server and `client`. -/
structure Waited where
  returned : Bool
  server : Server
  client : ClientInfo
  deriving DecidableEq, Repr

/-- The statements of `waitRequest` after `timed_wait`, which has returned `waitResult`:
`false` when the time is over, `true` otherwise. -/
def waitRequestLeave (asserts : Bool) (waitResult : Bool) (client : ClientInfo) (s : Server) :
    Res Waited :=
  let s1 := { s with pendingWorkersCount_ := s.pendingWorkersCount_ - 1 }
  if asserts && decide (s1.pendingWorkersCount_ < 0) then ⟨⟨waitResult, s1, client⟩, some Err.assert_failed⟩
  else
    match s1.requests_ with
    | front :: rest =>
      if waitResult then
        if asserts && decide (front.socket = INVALID_SOCKET) then
          ⟨⟨waitResult, { s1 with requests_ := rest }, front⟩, some Err.assert_failed⟩
        else ⟨⟨waitResult, { s1 with requests_ := rest }, front⟩, none⟩
      else ⟨⟨waitResult, s1, client⟩, none⟩
    | [] => ⟨⟨waitResult, s1, client⟩, none⟩

end Server

/-! ## `http_server_settings.cpp`: `HttpServerSettings::loadServerSettings` -/

/-- An element of the configuration file, as far as the attribute queries of TinyXML show it. -/
structure TiXmlElement where
  /-- Method `QueryIntAttribute (name, &n)`: the number given to `n` when the call returns
  `TIXML_SUCCESS` -/
  QueryIntAttribute : Str → Option Int
  /-- Method `QueryValueAttribute (name, &s)`: the text given to `s` when the call returns
  `TIXML_SUCCESS` -/
  QueryValueAttribute : Str → Option Str

namespace SettingsTags

def WorkersCountAttr : Str := lit "workers-count"
def PoolingEnabledAttr : Str := lit "pooling-enabled"
def WorkerLifeTimeAttr : Str := lit "worker-life-time"
def BooleanTrue : Str := lit "true"

end SettingsTags

namespace HttpServerSettings

/-- Function `loadIntAttribute (elem, attr, value)`: the value of `value` on return. -/
def loadIntAttribute (elem : TiXmlElement) (attr : Str) (value : Int) : Int :=
  match elem.QueryIntAttribute attr with
  | some n => n
  | none => value

/-- Function `loadBoolAttribute (elem, attr, value)`: the value of `value` on return. -/
def loadBoolAttribute (elem : TiXmlElement) (attr : Str) (value : Bool) : Bool :=
  match elem.QueryValueAttribute attr with
  | some s => util.equals s SettingsTags.BooleanTrue
  | none => value

/-- The three statements of `loadServerSettings` under the comments "workers count",
"pooling" and "worker life time": the value of `settings_` after them. -/
def loadWorkerSettings (serverElem : TiXmlElement) (settings_ : ServerSettings) : ServerSettings :=
  let s1 := { settings_ with
    workerLifeTime := loadIntAttribute serverElem SettingsTags.WorkersCountAttr
      settings_.workerLifeTime }
  let s2 := { s1 with
    enablePooling := loadBoolAttribute serverElem SettingsTags.PoolingEnabledAttr s1.enablePooling }
  { s2 with
    workerLifeTime := loadIntAttribute serverElem SettingsTags.WorkerLifeTimeAttr
      s2.workerLifeTime }

end HttpServerSettings

/-! ## `aconnect/util.cpp`: `readIpAddress`, `formatIpAddr` -/

namespace util

/-- The cast `(byte_type) n`. -/
def toByte (n : Nat) : Nat := n % 256

/-- Function `readIpAddress (ip, addr)` where `WIN32` is not defined: the four elements of
`ip` for the 32-bit word `s_addr` of the address. -/
def readIpAddress (s_addr : Nat) : List Nat :=
  [toByte (s_addr % 2 ^ 32 / 2 ^ 24),
   toByte (toByte (s_addr % 2 ^ 32 / 2 ^ 16) % 255),
   toByte (toByte (s_addr % 2 ^ 32 / 2 ^ 8) % 255),
   toByte (toByte (s_addr % 2 ^ 32) % 255)]

/-- Function `formatIpAddr (ip)` for an array of four bytes: the text has at most 15
characters, so it fits the buffer. -/
def formatIpAddr (ip : List Nat) : Str :=
  formatNat 10 (toByte (ip.getD 0 0)) ++ [46] ++ formatNat 10 (toByte (ip.getD 1 0)) ++ [46] ++
    formatNat 10 (toByte (ip.getD 2 0)) ++ [46] ++ formatNat 10 (toByte (ip.getD 3 0))

end util

/-! ## `http_server.cpp`: the loop of `processDirectFileRequest` that sends the file -/

/-- A `std::ifstream` open on a file: the characters not read yet and the state bits. -/
structure ifstream where
  content : Str
  eofbit : Bool
  failbit : Bool

namespace ifstream

/-- The stream `std::ifstream file (path, std::ios::binary)` on a file that can be read. -/
def «open» (fileContent : Str) : ifstream :=
  { content := fileContent, eofbit := false, failbit := false }

def good (f : ifstream) : Bool := !f.eofbit && !f.failbit

/-- Method `read (buff, n)`: the characters stored in `buff` (their number is `gcount ()`)
and the stream after the call.  When the stream is not `good ()` nothing is read and
`failbit` is set; when fewer than `n` characters are left `eofbit` and `failbit` are
set. -/
def read (n : Nat) (f : ifstream) : Str × ifstream :=
  if !f.good then ([], { f with failbit := true })
  else if (f.content.take n).length ≠ n then
    (f.content.take n, { content := f.content.drop n, eofbit := true, failbit := true })
  else (f.content.take n, { f with content := f.content.drop n })

end ifstream

namespace HttpServer

/-- The loop `do { file.read (buff.get (), buffSize); context.Response.write (buff.get (),
file.gcount ()); } while (file.good ());` of `processDirectFileRequest`; `fuel` bounds the
rounds. -/
def sendFileLoop (env : Env) (buffSize : Nat) : Nat → ifstream → HttpResponse → Res HttpResponse
  | 0, _, Response => ⟨Response, some Err.no_return⟩
  | fuel + 1, file, Response =>
    (Response.write env (file.read buffSize).1).andThen fun r1 =>
      if (file.read buffSize).2.good then sendFileLoop env buffSize fuel (file.read buffSize).2 r1
      else ⟨r1, none⟩

/-- The part "send file" of `processDirectFileRequest` for a file with the content
`fileContent`, run for at most `fuel` rounds of its loop: `buffSize` is the smaller of the
size of the file and the size of the response buffer. -/
def sendFile (env : Env) (fuel : Nat) (fileContent : Str) (Response : HttpResponse) :
    Res HttpResponse :=
  sendFileLoop env (min2 fileContent.length Response.Stream.maxBuffSize_) fuel
    (ifstream.open fileContent) Response

end HttpServer

/-! ## Sample inputs of the statements about request processing and the server -/

/-- A directories map that holds the root directory alone, without mappings. -/
def rootOnly : List (Str × DirectorySettings Str) :=
  [(lit "/", { virtualPath := lit "/", realPath := lit "/srv/www", mappings := [] })]

/-- A context at the start of `processRequest` for the request line `method path HTTP/1.1`
without a body: nothing has been written to the response. -/
def requestContext (method path : Str) : HttpContext :=
  { RequestHeader :=
      { HttpRequestHeader.create with
        Method := method, Path := path, VersionHigh := 1, VersionLow := 1 }
    Response := (HttpResponse.create 2097152 65535).setServerName (lit "ahttp")
    Method := HttpMethodType.Unknown
    VirtualPath := [] }

/-- A `server` element that has the attribute `workers-count="8"` and no other attribute
of the worker pool. -/
def workersCountOnly : TiXmlElement :=
  { QueryIntAttribute := fun name => if name = SettingsTags.WorkersCountAttr then some 8 else none
    QueryValueAttribute := fun name =>
      if name = SettingsTags.WorkersCountAttr then some (lit "8") else none }

/-- What the statement on a malformed escape says of a request path: `processRequest` ends
with `std::out_of_range`, no byte has been sent and the headers are not sent.  `serve`
is the rest of `findTarget`, `what` the text of a `request_processing_error`. -/
def EscapesUnanswered (asserts : Bool)
    (serve : DirectorySettings Str → Option Str → HttpContext → Res HttpServer.Outcome)
    (processDirectFileRequest : HttpContext → Res HttpContext) (what : Str) (path : Str) : Prop :=
  (HttpServer.processRequest (sampleEnv asserts)
      (HttpServer.findTarget (sampleEnv asserts) plainRegexMatch rootOnly serve)
      processDirectFileRequest what (requestContext (lit "GET") path)).err =
      some Err.out_of_range ∧
    (HttpServer.processRequest (sampleEnv asserts)
      (HttpServer.findTarget (sampleEnv asserts) plainRegexMatch rootOnly serve)
      processDirectFileRequest what
      (requestContext (lit "GET") path)).st.context.Response.Stream.socket_ = [] ∧
    (HttpServer.processRequest (sampleEnv asserts)
      (HttpServer.findTarget (sampleEnv asserts) plainRegexMatch rootOnly serve)
      processDirectFileRequest what
      (requestContext (lit "GET") path)).st.context.Response.isHeadersSent = false

/-- The characters that the comment in `isSafeForUrlPart` gives as safe: the digits, the
ASCII letters and `.`, `-`, `_`, `'`. -/
def safeByComment (ch : Nat) : Bool :=
  decide ((48 ≤ ch ∧ ch ≤ 57) ∨ (65 ≤ ch ∧ ch ≤ 90) ∨ (97 ≤ ch ∧ ch ≤ 122)) ||
    decide (ch = 46 ∨ ch = 45 ∨ ch = 95 ∨ ch = 39)

/-! ## Facts about maps and header serialisation -/

theorem mapFind_mapSet (m : str2str_map) (k v k2 : Str) :
    mapFind (mapSet m k v) k2 = if k = k2 then some v else mapFind m k2 := by
  induction m with
  | nil => simp [mapSet, mapFind]
  | cons kv rest ih =>
    obtain ⟨k1, v1⟩ := kv
    by_cases h1 : k1 = k
    · subst h1
      by_cases h3 : k1 = k2 <;> simp [mapSet, mapFind, h3]
    · by_cases h2 : strLt k k1 = true
      · simp [mapSet, mapFind, h1, h2]
      · by_cases h3 : k1 = k2
        · subst h3
          have : ¬ k = k1 := fun h => h1 h.symm
          simp [mapSet, mapFind, h1, h2, this]
        · simp [mapSet, mapFind, h1, h2, h3, ih]

theorem headerLines_infix (m : str2str_map) (k v : Str) (h : mapFind m k = some v) :
    (k ++ detail.HeaderValueDelimiter ++ v ++ detail.HeadersDelimiter) <:+:
      HttpResponseHeader.headerLines m := by
  induction m with
  | nil => simp [mapFind] at h
  | cons kv rest ih =>
    obtain ⟨k1, v1⟩ := kv
    by_cases h1 : k1 = k
    · subst h1
      simp [mapFind] at h
      subst h
      exact ⟨[], HttpResponseHeader.headerLines rest, by simp [HttpResponseHeader.headerLines]⟩
    · simp [mapFind, h1] at h
      obtain ⟨a, b, hab⟩ := ih h
      refine ⟨k1 ++ detail.HeaderValueDelimiter ++ v1 ++ detail.HeadersDelimiter ++ a, b, ?_⟩
      simp only [HttpResponseHeader.headerLines, ← hab, List.append_assoc]

theorem getContent_infix (h : HttpResponseHeader) (k v : Str) (hk : mapFind h.Headers k = some v) :
    (k ++ detail.HeaderValueDelimiter ++ v ++ detail.HeadersDelimiter) <:+: h.getContent := by
  obtain ⟨a, b, hab⟩ := headerLines_infix h.Headers k v hk
  refine ⟨HttpResponseHeader.getResponseStatusString h.Status ++ a, b ++ detail.HeadersDelimiter, ?_⟩
  simp only [HttpResponseHeader.getContent, ← hab, List.append_assoc]

/-! ## Sending on the socket -/

theorem toInt32_small (n : Nat) (h : n < 2 ^ 31) : toInt32 n = (n : Int) := by
  have h1 : n % 2 ^ 32 = n := Nat.mod_eq_of_lt (by omega)
  unfold toInt32
  rw [h1, if_pos h]

theorem writeToSocketLoop_ok (env : Env) (hsend : env.sendLimit = none) (fuel : Nat)
    (s buff : Str) (n : Nat) :
    writeToSocketLoop env (fuel + 1) s buff (n : Int) = ⟨s ++ buff.take n, none⟩ := by
  simp [writeToSocketLoop, send, hsend]

/-- On a connection that does not fail, `writeToSocket (s, buff, (int) n)` delivers the
first `n` bytes of the string when `n` fits an `int` and the string is that long. -/
theorem writeToSocketBuff_ok (env : Env) (hsend : env.sendLimit = none) (s buff : Str) (n : Nat)
    (h1 : n < 2 ^ 31) (h2 : n ≤ buff.length) :
    writeToSocketBuff env s buff (toInt32 n) = ⟨s ++ buff.take n, none⟩ := by
  rw [toInt32_small n h1]
  cases n with
  | zero => simp [writeToSocketBuff]
  | succ k =>
    have e1 : ¬ ((k + 1 : Nat) : Int) = 0 := by omega
    have e2 : ¬ (((k + 1 : Nat) : Int) < 0 ∨ (buff.length : Int) < ((k + 1 : Nat) : Int)) := by
      omega
    rw [writeToSocketBuff, if_neg e1, if_neg e2, Int.toNat_ofNat, writeToSocketLoop_ok env hsend]

/-- On a connection that does not fail, `writeToSocket (s, data)` delivers a string whose
length fits an `int`. -/
theorem writeToSocket_ok (env : Env) (hsend : env.sendLimit = none) (s data : Str)
    (h : data.length < 2 ^ 31) : writeToSocket env s data = ⟨s ++ data, none⟩ := by
  by_cases h0 : data.length = 0
  · have : data = [] := List.length_eq_zero.1 h0
    subst this
    simp [writeToSocket]
  · rw [writeToSocket, if_neg h0, writeToSocketBuff_ok env hsend s data _ h (Nat.le_refl _),
      List.take_length]

theorem writeToSocketLoop_extends (env : Env) :
    ∀ (fuel : Nat) (s buff : Str) (n : Int), s <+: (writeToSocketLoop env fuel s buff n).st := by
  intro fuel
  induction fuel with
  | zero => intro s buff n; exact List.prefix_refl _
  | succ k ih =>
    intro s buff n
    simp only [writeToSocketLoop]
    cases send env s n with
    | none => exact List.prefix_refl _
    | some written =>
      simp only
      split
      · exact (List.prefix_append _ _).trans (ih _ _ _)
      · exact List.prefix_append _ _

theorem writeToSocketBuff_extends (env : Env) (s buff : Str) (n : Int) :
    s <+: (writeToSocketBuff env s buff n).st := by
  unfold writeToSocketBuff
  split
  · exact List.prefix_refl _
  · split
    · exact List.prefix_refl _
    · exact writeToSocketLoop_extends env _ _ _ _

theorem writeToSocket_extends (env : Env) (s data : Str) :
    s <+: (writeToSocket env s data).st := by
  unfold writeToSocket
  split
  · exact List.prefix_refl _
  · exact writeToSocketBuff_extends env _ _ _

theorem writeToSocket_nil (env : Env) (s : Str) : writeToSocket env s [] = ⟨s, none⟩ := by
  simp [writeToSocket]

theorem andThen_ok {σ : Type} (st : σ) (f : σ → Res σ) :
    (⟨st, none⟩ : Res σ).andThen f = f st := rfl

theorem andThen_err {σ : Type} (st : σ) (e : Err) (f : σ → Res σ) :
    (⟨st, some e⟩ : Res σ).andThen f = ⟨st, some e⟩ := rfl

/-! ## Sending the header block -/

/-- What `sentHeaders` does to a response whose headers have not been sent, in terms of what
`writeToSocket` makes of the header block: the header map and the chunked mode are set
before the block is sent, the flag `headersSent_` after it. -/
theorem sentHeaders_eq (env : Env) (r : HttpResponse) (hs : r.headersSent_ = false)
    (hm : env.asserts = true → r.httpMethod_ ≠ HttpMethodType.Unknown) :
    r.sentHeaders env =
      ⟨{ sentState r (sentHeaderMap env r.Header r.serverName_) with
          Stream := { (sentState r (sentHeaderMap env r.Header r.serverName_)).Stream with
            socket_ := (writeToSocket env r.Stream.socket_
              (HttpResponseHeader.getContent
                { r.Header with Headers := sentHeaderMap env r.Header r.serverName_ })).st }
          headersSent_ := (writeToSocket env r.Stream.socket_
              (HttpResponseHeader.getContent
                { r.Header with Headers := sentHeaderMap env r.Header r.serverName_ })).err.isNone },
        (writeToSocket env r.Stream.socket_
          (HttpResponseHeader.getContent
            { r.Header with Headers := sentHeaderMap env r.Header r.serverName_ })).err⟩ := by
  have e : (HttpResponse.fillCommonResponseHeaders env r.applyContentEncoding).Header =
      { r.Header with Headers := sentHeaderMap env r.Header r.serverName_ } := by
    cases hcl : r.Header.hasHeader detail.HeaderContentLength <;>
      cases hsn : r.serverName_.isEmpty <;>
      simp [HttpResponse.fillCommonResponseHeaders, HttpResponse.applyContentEncoding, hcl, hsn,
        sentHeaderMap]
  have e2 : (HttpResponse.fillCommonResponseHeaders env r.applyContentEncoding).Stream.socket_ =
      r.Stream.socket_ := by
    cases hcl : r.Header.hasHeader detail.HeaderContentLength <;>
      simp [HttpResponse.fillCommonResponseHeaders, HttpResponse.applyContentEncoding, hcl,
        HttpResponseStream.setChunkedMode]
  have c1 : ¬ ((env.asserts && r.headersSent_) = true) := by simp [hs]
  have c2 : ¬ ((env.asserts && decide (r.httpMethod_ = HttpMethodType.Unknown)) = true) := by
    cases ha : env.asserts
    · simp
    · simpa using hm ha
  have c3 : ¬ (r.headersSent_ = true) := by simp [hs]
  rw [HttpResponse.sentHeaders, if_neg c1, if_neg c2, if_neg c3]
  simp only [e, e2]
  cases hx : writeToSocket env r.Stream.socket_
      (HttpResponseHeader.getContent
        { r.Header with Headers := sentHeaderMap env r.Header r.serverName_ }) with
  | mk sock err =>
    cases err <;> cases hcl : r.Header.hasHeader detail.HeaderContentLength <;>
      cases hsn : r.serverName_.isEmpty <;>
      simp [Res.andThen, HttpResponse.onStream, HttpResponseStream.onSocket, sentState,
        HttpResponse.fillCommonResponseHeaders, HttpResponse.applyContentEncoding, hcl, hs, hsn,
        HttpResponseStream.setChunkedMode, sentHeaderMap]

/-- On a connection that does not fail, `sentHeaders` sends a header block that fits an
`int` whole. -/
theorem sentHeaders_ok (env : Env) (hsend : env.sendLimit = none) (r : HttpResponse)
    (hs : r.headersSent_ = false)
    (hm : env.asserts = true → r.httpMethod_ ≠ HttpMethodType.Unknown)
    (hfit : (HttpResponseHeader.getContent
      { r.Header with Headers := sentHeaderMap env r.Header r.serverName_ }).length < 2 ^ 31) :
    r.sentHeaders env = ⟨sentState r (sentHeaderMap env r.Header r.serverName_), none⟩ := by
  rw [sentHeaders_eq env r hs hm, writeToSocket_ok env hsend _ _ hfit]
  rfl

theorem sentHeaderMap_contentLength (env : Env) (hdr : HttpResponseHeader) (sn : Str) :
    mapFind (sentHeaderMap env hdr sn) detail.HeaderContentLength =
      mapFind hdr.Headers detail.HeaderContentLength := by
  have e1 : ¬ detail.HeaderDate = detail.HeaderContentLength := by decide
  have e2 : ¬ detail.HeaderServer = detail.HeaderContentLength := by decide
  have e3 : ¬ detail.HeaderTransferEncoding = detail.HeaderContentLength := by decide
  cases hcl : hdr.hasHeader detail.HeaderContentLength <;> cases hsn : sn.isEmpty <;>
    simp [sentHeaderMap, hcl, hsn, mapFind_mapSet, e1, e2, e3]

theorem sentHeaderMap_transferEncoding (env : Env) (hdr : HttpResponseHeader) (sn : Str) :
    mapFind (sentHeaderMap env hdr sn) detail.HeaderTransferEncoding =
      (if hdr.hasHeader detail.HeaderContentLength then
        mapFind hdr.Headers detail.HeaderTransferEncoding
      else some detail.TransferEncodingChunked) := by
  have e1 : ¬ detail.HeaderDate = detail.HeaderTransferEncoding := by decide
  have e2 : ¬ detail.HeaderServer = detail.HeaderTransferEncoding := by decide
  cases hcl : hdr.hasHeader detail.HeaderContentLength <;> cases hsn : sn.isEmpty <;>
    simp [sentHeaderMap, hcl, hsn, mapFind_mapSet, e1, e2]

/-! ## The stream: what every call keeps, whatever the sends do -/

theorem andThen_prefix (s : Str) (x : Res Str) (f : Str → Res Str) (h1 : s <+: x.st)
    (h2 : x.st <+: (f x.st).st) : s <+: (x.andThen f).st := by
  obtain ⟨st, err⟩ := x
  cases err with
  | none => exact h1.trans h2
  | some e => exact h1

theorem flushChunks_extends (env : Env) (m : Nat) (b : Str) :
    ∀ (fuel curPos chunkSize : Nat) (sock : Str),
      sock <+: (HttpResponseStream.flushChunks env m b fuel curPos chunkSize sock).st := by
  intro fuel
  induction fuel with
  | zero => intro curPos chunkSize sock; exact List.prefix_refl _
  | succ n ih =>
    intro curPos chunkSize sock
    simp only [HttpResponseStream.flushChunks]
    refine andThen_prefix _ _ _ (writeToSocket_extends env _ _) ?_
    refine andThen_prefix _ _ _ (writeToSocketBuff_extends env _ _ _) ?_
    refine andThen_prefix _ _ _ (writeToSocket_extends env _ _) ?_
    split
    · exact ih _ _ _
    · exact List.prefix_refl _

theorem onSocket_andThen_frame (s : HttpResponseStream) (x : Res Str) (h : s.socket_ <+: x.st) :
    ((s.onSocket x).andThen fun s1 => ⟨{ s1 with buffer_ := [] }, none⟩).st.chunked_ = s.chunked_ ∧
    ((s.onSocket x).andThen fun s1 => ⟨{ s1 with buffer_ := [] }, none⟩).st.sendContent_ =
      s.sendContent_ ∧
    ((s.onSocket x).andThen fun s1 => ⟨{ s1 with buffer_ := [] }, none⟩).st.maxBuffSize_ =
      s.maxBuffSize_ ∧
    ((s.onSocket x).andThen fun s1 => ⟨{ s1 with buffer_ := [] }, none⟩).st.maxChunkSize_ =
      s.maxChunkSize_ ∧
    s.socket_ <+:
      ((s.onSocket x).andThen fun s1 => ⟨{ s1 with buffer_ := [] }, none⟩).st.socket_ := by
  obtain ⟨st, err⟩ := x
  cases err <;> simp [HttpResponseStream.onSocket, Res.andThen] <;> exact h

theorem stream_flush_frame (env : Env) (s : HttpResponseStream) :
    (s.flush env).st.chunked_ = s.chunked_ ∧ (s.flush env).st.sendContent_ = s.sendContent_ ∧
    (s.flush env).st.maxBuffSize_ = s.maxBuffSize_ ∧
    (s.flush env).st.maxChunkSize_ = s.maxChunkSize_ ∧
    s.socket_ <+: (s.flush env).st.socket_ := by
  cases hb : s.buffer_.isEmpty
  · cases hsc : s.sendContent_
    · simp [HttpResponseStream.flush, hb, hsc]
    · cases hc : s.chunked_
      · have := onSocket_andThen_frame s _ (writeToSocket_extends env s.socket_ s.buffer_)
        simpa [HttpResponseStream.flush, hb, hsc, hc] using this
      · have := onSocket_andThen_frame s _ (flushChunks_extends env s.maxChunkSize_ s.buffer_
          s.buffer_.length 0
          (if s.maxChunkSize_ < s.buffer_.length then s.maxChunkSize_ else s.buffer_.length)
          s.socket_)
        simpa [HttpResponseStream.flush, hb, hsc, hc] using this
  · simp [HttpResponseStream.flush, hb]

theorem stream_write_frame (env : Env) (s : HttpResponseStream) (content : Str) :
    (s.write env content).st.chunked_ = s.chunked_ ∧
    (s.write env content).st.sendContent_ = s.sendContent_ ∧
    (s.write env content).st.maxBuffSize_ = s.maxBuffSize_ ∧
    (s.write env content).st.maxChunkSize_ = s.maxChunkSize_ ∧
    s.socket_ <+: (s.write env content).st.socket_ := by
  unfold HttpResponseStream.write
  simp only
  split
  · exact stream_flush_frame env _
  · simp

theorem stream_end_frame (env : Env) (s : HttpResponseStream) :
    (s.end env).st.chunked_ = s.chunked_ ∧ (s.end env).st.sendContent_ = s.sendContent_ ∧
    (s.end env).st.maxBuffSize_ = s.maxBuffSize_ ∧
    (s.end env).st.maxChunkSize_ = s.maxChunkSize_ ∧
    (s.end env).st.buffer_ = s.buffer_ ∧
    s.socket_ <+: (s.end env).st.socket_ := by
  unfold HttpResponseStream.end
  split
  · simp [HttpResponseStream.onSocket, writeToSocket_extends]
  · simp

theorem stream_writeDirectly_frame (env : Env) (content : Str) (s : HttpResponseStream) :
    (s.writeDirectly env content).st.chunked_ = s.chunked_ ∧
    (s.writeDirectly env content).st.sendContent_ = s.sendContent_ ∧
    (s.writeDirectly env content).st.maxBuffSize_ = s.maxBuffSize_ ∧
    (s.writeDirectly env content).st.maxChunkSize_ = s.maxChunkSize_ ∧
    (s.writeDirectly env content).st.buffer_ = s.buffer_ ∧
    s.socket_ <+: (s.writeDirectly env content).st.socket_ := by
  unfold HttpResponseStream.writeDirectly
  split
  · simp
  · split
    · simp [HttpResponseStream.onSocket, writeToSocket_extends]
    · simp

/-- With an empty string `writeDirectly` sends nothing. -/
theorem stream_writeDirectly_nil (env : Env) (s : HttpResponseStream) :
    s.writeDirectly env [] =
      if env.asserts && s.chunked_ then ⟨s, some Err.assert_failed⟩ else ⟨s, none⟩ := by
  unfold HttpResponseStream.writeDirectly
  split
  · rfl
  · split
    · simp [HttpResponseStream.onSocket, writeToSocket_nil]
    · rfl

/-! ## The stream on a connection that does not fail -/

theorem stream_flush_plain (env : Env) (hsend : env.sendLimit = none) (s : HttpResponseStream)
    (hc : s.chunked_ = false) (hfit : s.buffer_.length < 2 ^ 31) :
    s.flush env = ⟨{ s with
        socket_ := s.socket_ ++ (if s.sendContent_ then s.buffer_ else [])
        buffer_ := if s.sendContent_ then [] else s.buffer_ }, none⟩ := by
  cases hb : s.buffer_ with
  | nil =>
    cases hsc : s.sendContent_ <;> simp [HttpResponseStream.flush, hb, hsc]
    all_goals (cases s; simp_all)
  | cons a t =>
    cases hsc : s.sendContent_
    · simp [HttpResponseStream.flush, hb, hsc]
      cases s; simp_all
    · have hne : s.buffer_.isEmpty = false := by rw [hb]; rfl
      simp only [HttpResponseStream.flush, hne, hsc, hc, writeToSocket_ok env hsend _ _ hfit,
        HttpResponseStream.onSocket, Res.andThen]
      simp [hb]

theorem stream_end_ok (env : Env) (hsend : env.sendLimit = none) (s : HttpResponseStream) :
    s.end env = ⟨{ s with socket_ := s.socket_ ++
      (if s.chunked_ && s.sendContent_ then detail.LastChunkFormat else []) }, none⟩ := by
  unfold HttpResponseStream.end
  split
  · rw [writeToSocket_ok env hsend _ _ (by decide)]
    rfl
  · simp

/-! ## What a call keeps once the header block is sent -/

theorem andThen_inv {σ : Type} (P : σ → Prop) (x : Res σ) (f : σ → Res σ) (hx : P x.st)
    (hf : ∀ y, P y → P (f y).st) : P (x.andThen f).st := by
  obtain ⟨st, err⟩ := x
  cases err with
  | none => exact hf st hx
  | some e => exact hx

theorem andThen_assoc {σ : Type} (x : Res σ) (f g : σ → Res σ) :
    (x.andThen f).andThen g = x.andThen fun y => (f y).andThen g := by
  obtain ⟨st, err⟩ := x
  cases err <;> rfl

theorem end_eq (env : Env) (r : HttpResponse) :
    r.end env =
      (HttpResponse.flush env
        (if !r.headersSent_ then
          { r with Header := r.Header.setContentLength r.Stream.getBufferContentSize }
        else r)).andThen fun r2 =>
          (HttpResponse.onStream r2 (r2.Stream.end env)).andThen fun r3 =>
            (HttpResponse.onStream r3 (r3.Stream.writeDirectly env [])).andThen fun r4 =>
              ⟨{ r4 with finished_ := true }, none⟩ := rfl

/-- The part of `end ()` that follows `flush ()` keeps the header and the flag
`headersSent_`. -/
theorem end_tail_inv (env : Env) (P : HttpResponse → Prop)
    (hP : ∀ (y : HttpResponse) (s : HttpResponseStream) (f : Bool),
      P y → P { y with Stream := s, finished_ := f })
    (x : Res HttpResponse) (hx : P x.st) :
    P (x.andThen fun r2 =>
      (HttpResponse.onStream r2 (r2.Stream.end env)).andThen fun r3 =>
        (HttpResponse.onStream r3 (r3.Stream.writeDirectly env [])).andThen fun r4 =>
          ⟨{ r4 with finished_ := true }, none⟩).st := by
  refine andThen_inv P _ _ hx fun y hy => ?_
  refine andThen_inv P _ _ (hP y _ y.finished_ hy) fun y2 hy2 => ?_
  refine andThen_inv P _ _ (hP y2 _ y2.finished_ hy2) fun y3 hy3 => ?_
  exact hP y3 y3.Stream true hy3

theorem call_keeps_sent (env : Env) (c : Call) (r : HttpResponse) (P : HttpResponse → Prop)
    (hP : ∀ (y : HttpResponse) (s : HttpResponseStream) (f : Bool),
      P y → P { y with Stream := s, finished_ := f })
    (h : r.headersSent_ = true) (hr : P r) : P (r.call env c).st := by
  cases c with
  | write content =>
    cases hf : r.finished_
    · simp only [HttpResponse.call, HttpResponse.write, hf, h, Res.andThen, HttpResponse.onStream]
      exact hP r _ r.finished_ hr
    · simpa [HttpResponse.call, HttpResponse.write, hf] using hr
  | flush =>
    simp only [HttpResponse.call, HttpResponse.flush, h, Res.andThen, HttpResponse.onStream]
    exact hP r _ r.finished_ hr
  | finish =>
    have c1 : ¬ (!r.headersSent_) = true := by rw [h]; simp
    rw [HttpResponse.call, end_eq, if_neg c1]
    refine end_tail_inv env P hP _ ?_
    simp only [HttpResponse.flush, h, Res.andThen, HttpResponse.onStream]
    exact hP r _ r.finished_ hr
  | writeCompleteResponse response =>
    cases ha : env.asserts <;> cases hf : r.finished_ <;>
      simpa [HttpResponse.call, HttpResponse.writeCompleteResponse, ha, hf, h] using hr

theorem call_keeps_headersSent (env : Env) (c : Call) (r : HttpResponse)
    (h : r.headersSent_ = true) : (r.call env c).st.headersSent_ = true :=
  call_keeps_sent env c r (fun y => y.headersSent_ = true) (fun _ _ _ hy => hy) h h

theorem call_keeps_header (env : Env) (c : Call) (r : HttpResponse)
    (h : r.headersSent_ = true) : (r.call env c).st.Header = r.Header :=
  call_keeps_sent env c r (fun y => y.Header = r.Header) (fun _ _ _ hy => hy) h rfl

theorem run_cons (env : Env) (c : Call) (cs : List Call) (r : HttpResponse) :
    r.run env (c :: cs) = (r.call env c).andThen (HttpResponse.run env cs) := rfl

theorem run_keeps_headersSent (env : Env) (cs : List Call) :
    ∀ r : HttpResponse, r.headersSent_ = true → (r.run env cs).st.headersSent_ = true := by
  induction cs with
  | nil => intro r h; simpa [HttpResponse.run] using h
  | cons c cs ih =>
    intro r h
    rw [run_cons]
    exact andThen_inv (fun y => y.headersSent_ = true) _ _ (call_keeps_headersSent env c r h)
      fun y hy => ih y hy

theorem run_keeps_header (env : Env) (cs : List Call) :
    ∀ r : HttpResponse, r.headersSent_ = true → (r.run env cs).st.Header = r.Header := by
  induction cs with
  | nil => intro r _; rfl
  | cons c cs ih =>
    intro r h
    rw [run_cons]
    have h1 := call_keeps_headersSent env c r h
    have h2 := call_keeps_header env c r h
    cases he : (r.call env c).err with
    | none =>
      have : (r.call env c).andThen (HttpResponse.run env cs) =
          HttpResponse.run env cs (r.call env c).st := by
        simp only [Res.andThen, he]
      rw [this, ih _ h1, h2]
    | some e =>
      have : (r.call env c).andThen (HttpResponse.run env cs) = r.call env c := by
        simp only [Res.andThen, he]
      rw [this, h2]

/-! ## The call that sends the header block -/

theorem end_unsent_eq (env : Env) (r : HttpResponse) (hs : r.headersSent_ = false) :
    r.end env =
      (HttpResponse.sentHeaders env
        { r with Header := r.Header.setContentLength r.Stream.getBufferContentSize }).andThen
        fun r1 => (HttpResponse.onStream r1 (r1.Stream.flush env)).andThen fun r2 =>
          (HttpResponse.onStream r2 (r2.Stream.end env)).andThen fun r3 =>
            (HttpResponse.onStream r3 (r3.Stream.writeDirectly env [])).andThen fun r4 =>
              ⟨{ r4 with finished_ := true }, none⟩ := by
  have c1 : (!r.headersSent_) = true := by rw [hs]; rfl
  rw [end_eq, if_pos c1]
  simp only [HttpResponse.flush, hs, Bool.not_false, if_true]
  rw [andThen_assoc]

/-- A call that gets as far as `sentHeaders` leaves the header map that `sentHeaders` has
filled in, and the headers sent unless the call failed. -/
theorem call_sends (env : Env) (c : Call) (r : HttpResponse) (hs : r.headersSent_ = false)
    (hm : env.asserts = true → r.httpMethod_ ≠ HttpMethodType.Unknown)
    (ht : sendsHeaders c r = true) :
    (r.call env c).st.Header =
      { (headerAtSend c r) with
        Headers := sentHeaderMap env (headerAtSend c r) r.serverName_ } ∧
    ((r.call env c).err ≠ none ∨ (r.call env c).st.headersSent_ = true) := by
  have key : ∀ (r1 : HttpResponse), r1.headersSent_ = false → r1.httpMethod_ = r.httpMethod_ →
      r1.serverName_ = r.serverName_ →
      ∀ F : HttpResponse → Res HttpResponse,
      (∀ y, (F y).st.Header = y.Header ∧ (F y).st.headersSent_ = y.headersSent_) →
      ((r1.sentHeaders env).andThen F).st.Header =
        { r1.Header with Headers := sentHeaderMap env r1.Header r.serverName_ } ∧
      (((r1.sentHeaders env).andThen F).err ≠ none ∨
        ((r1.sentHeaders env).andThen F).st.headersSent_ = true) := by
    intro r1 h1 h2 h3 F hF
    rw [sentHeaders_eq env r1 h1 (h2 ▸ hm), h3]
    cases hx : writeToSocket env r1.Stream.socket_
        (HttpResponseHeader.getContent
          { r1.Header with Headers := sentHeaderMap env r1.Header r.serverName_ }) with
    | mk sock err =>
      cases err with
      | none =>
        simp only [Res.andThen, Option.isNone_none]
        refine ⟨(hF _).1.trans rfl, Or.inr ((hF _).2.trans rfl)⟩
      | some e =>
        simp only [Res.andThen]
        exact ⟨rfl, Or.inl (fun hx => Option.noConfusion hx)⟩
  cases c with
  | write content =>
    simp only [sendsHeaders, Bool.and_eq_true, Bool.not_eq_true'] at ht
    have e : r.call env (Call.write content) =
        (r.sentHeaders env).andThen fun r2 =>
          HttpResponse.onStream r2 (r2.Stream.write env content) := by
      simp [HttpResponse.call, HttpResponse.write, ht.1, ht.2, hs]
    rw [e]
    exact key r hs rfl rfl
      (fun r2 => HttpResponse.onStream r2 (r2.Stream.write env content)) (fun y => ⟨rfl, rfl⟩)
  | flush =>
    have e : r.call env Call.flush =
        (r.sentHeaders env).andThen fun r2 => HttpResponse.onStream r2 (r2.Stream.flush env) := by
      simp [HttpResponse.call, HttpResponse.flush, hs]
    rw [e]
    exact key r hs rfl rfl
      (fun r2 => HttpResponse.onStream r2 (r2.Stream.flush env)) (fun y => ⟨rfl, rfl⟩)
  | finish =>
    rw [HttpResponse.call, end_unsent_eq env r hs]
    exact key { r with Header := r.Header.setContentLength r.Stream.getBufferContentSize } hs rfl rfl
      (fun r1 => (HttpResponse.onStream r1 (r1.Stream.flush env)).andThen fun r2 =>
        (HttpResponse.onStream r2 (r2.Stream.end env)).andThen fun r3 =>
          (HttpResponse.onStream r3 (r3.Stream.writeDirectly env [])).andThen fun r4 =>
            ⟨{ r4 with finished_ := true }, none⟩)
      (fun y => end_tail_inv env
        (fun z : HttpResponse => z.Header = y.Header ∧ z.headersSent_ = y.headersSent_)
        (fun _ _ _ hz => hz) (HttpResponse.onStream y (y.Stream.flush env)) ⟨rfl, rfl⟩)
  | writeCompleteResponse response =>
    simp only [sendsHeaders, Bool.not_eq_true'] at ht
    have e : r.call env (Call.writeCompleteResponse response) =
        (HttpResponse.sentHeaders env
          { r with Header := r.Header.setContentLength response.length }).andThen fun r2 =>
            (HttpResponse.onStream { r2 with Stream := r2.Stream.clear }
              (r2.Stream.clear.writeDirectly env response)).andThen fun r4 =>
                ⟨{ r4 with finished_ := true }, none⟩ := by
      simp [HttpResponse.call, HttpResponse.writeCompleteResponse, hs, ht]
    rw [e]
    exact key { r with Header := r.Header.setContentLength response.length } hs rfl rfl
      (fun r2 => (HttpResponse.onStream { r2 with Stream := r2.Stream.clear }
        (r2.Stream.clear.writeDirectly env response)).andThen fun r4 =>
          ⟨{ r4 with finished_ := true }, none⟩)
      (fun y => andThen_inv (fun z : HttpResponse => z.Header = y.Header ∧ z.headersSent_ = y.headersSent_)
        (HttpResponse.onStream { y with Stream := y.Stream.clear }
          (y.Stream.clear.writeDirectly env response))
        (fun r4 => ⟨{ r4 with finished_ := true }, none⟩) ⟨rfl, rfl⟩ (fun _ hz => hz))

/-- The header that a run ends with when its first call sends the header block. -/
theorem run_header_of_send (env : Env) (c : Call) (cs : List Call) (r : HttpResponse)
    (hs : r.headersSent_ = false)
    (hm : env.asserts = true → r.httpMethod_ ≠ HttpMethodType.Unknown)
    (ht : sendsHeaders c r = true) :
    (r.run env (c :: cs)).st.Header =
      { (headerAtSend c r) with
        Headers := sentHeaderMap env (headerAtSend c r) r.serverName_ } := by
  obtain ⟨h1, h2⟩ := call_sends env c r hs hm ht
  rw [run_cons]
  cases he : (r.call env c).err with
  | none =>
    have hsent : (r.call env c).st.headersSent_ = true := by
      rcases h2 with h2 | h2
      · exact absurd he h2
      · exact h2
    have : (r.call env c).andThen (HttpResponse.run env cs) =
        HttpResponse.run env cs (r.call env c).st := by
      simp only [Res.andThen, he]
    rw [this, run_keeps_header env cs _ hsent, h1]
  | some e =>
    have : (r.call env c).andThen (HttpResponse.run env cs) = r.call env c := by
      simp only [Res.andThen, he]
    rw [this, h1]

/-! ## Calls on a response whose header block is still unsent -/

theorem write_unsent (env : Env) (r : HttpResponse) (content : Str)
    (hs : r.headersSent_ = false) (hf : r.finished_ = false)
    (hw : r.Stream.willBeFlushed content.length = false) :
    r.write env content =
      ⟨{ r with Stream := { r.Stream with buffer_ := r.Stream.buffer_ ++ content } }, none⟩ := by
  have hlen : ¬ r.Stream.maxBuffSize_ ≤ r.Stream.buffer_.length + content.length := by
    simpa [HttpResponseStream.willBeFlushed] using hw
  simp [HttpResponse.write, hs, hf, hw, Res.andThen, HttpResponse.onStream,
    HttpResponseStream.write, hlen]

theorem write_sending (env : Env) (r : HttpResponse) (w : Str) (H : str2str_map)
    (hs : r.headersSent_ = false) (hf : r.finished_ = false)
    (hw : r.Stream.willBeFlushed w.length = true)
    (hsent : r.sentHeaders env = ⟨sentState r H, none⟩) :
    r.write env w =
      HttpResponse.onStream (sentState r H) ((sentState r H).Stream.write env w) := by
  simp only [HttpResponse.write, hs, hf, hw, hsent, Res.andThen]
  rfl

theorem write_sends (env : Env) (hsend : env.sendLimit = none) (r : HttpResponse) (content : Str)
    (hs : r.headersSent_ = false) (hf : r.finished_ = false)
    (hm : env.asserts = true → r.httpMethod_ ≠ HttpMethodType.Unknown)
    (hw : r.Stream.willBeFlushed content.length = true)
    (hfit : (HttpResponseHeader.getContent
      { r.Header with Headers := sentHeaderMap env r.Header r.serverName_ }).length < 2 ^ 31) :
    (r.write env content).st.headersSent_ = true := by
  rw [write_sending env r content _ hs hf hw (sentHeaders_ok env hsend r hs hm hfit)]
  rfl

theorem run_append (env : Env) (cs ds : List Call) :
    ∀ r : HttpResponse,
      r.run env (cs ++ ds) = (r.run env cs).andThen (HttpResponse.run env ds) := by
  induction cs with
  | nil => intro r; simp [HttpResponse.run, Res.andThen]
  | cons c cs ih =>
    intro r
    cases h : (r.call env c).err with
    | none => simp [HttpResponse.run, Res.andThen, h, ih]
    | some e => simp [HttpResponse.run, Res.andThen, h]

/-- As long as the `write` calls leave the headers unsent, they only fill the buffer. -/
theorem run_writes_unsent (env : Env) (hsend : env.sendLimit = none) (ds : List Call)
    (ws : List Str) :
    ∀ r : HttpResponse, r.headersSent_ = false → r.finished_ = false →
      (env.asserts = true → r.httpMethod_ ≠ HttpMethodType.Unknown) →
      ((r.run env (ws.map Call.write ++ ds)).st.Header.getContent).length < 2 ^ 31 →
      (r.run env (ws.map Call.write)).st.headersSent_ = false →
      r.run env (ws.map Call.write) =
        ⟨{ r with Stream := { r.Stream with buffer_ := r.Stream.buffer_ ++ ws.flatten } }, none⟩ := by
  induction ws with
  | nil => intro r _ _ _ _ _; simp [HttpResponse.run]
  | cons w ws ih =>
    intro r hs hf hm hhdr hfix
    cases hw : r.Stream.willBeFlushed w.length
    · have e := write_unsent env r w hs hf hw
      simp only [List.map_cons, List.cons_append, HttpResponse.run, HttpResponse.call, e,
        Res.andThen] at hfix hhdr ⊢
      rw [ih { r with Stream := { r.Stream with buffer_ := r.Stream.buffer_ ++ w } } hs hf hm
        hhdr hfix]
      simp
    · exfalso
      have ht : sendsHeaders (Call.write w) r = true := by simp [sendsHeaders, hf, hw]
      have hH := run_header_of_send env (Call.write w) (ws.map Call.write ++ ds) r hs hm ht
      rw [List.map_cons, List.cons_append, hH] at hhdr
      have h1 := write_sends env hsend r w hs hf hm hw hhdr
      simp only [List.map_cons, HttpResponse.run, HttpResponse.call, Res.andThen] at hfix
      split at hfix
      · rw [run_keeps_headersSent env _ _ h1] at hfix
        exact Bool.noConfusion hfix
      · rw [h1] at hfix
        exact Bool.noConfusion hfix

theorem hasHeader_setContentLength (h : HttpResponseHeader) (n : Nat) :
    (h.setContentLength n).hasHeader detail.HeaderContentLength = true := by
  simp [HttpResponseHeader.hasHeader, HttpResponseHeader.setContentLength, mapFind_mapSet]

/-- On a connection that does not fail, `end ()` on a response with unsent headers sends the
header block with the content length and the buffer after it. -/
theorem end_unsent (env : Env) (hsend : env.sendLimit = none) (r : HttpResponse)
    (hs : r.headersSent_ = false) (hc : r.Stream.chunked_ = false)
    (hm : env.asserts = true → r.httpMethod_ ≠ HttpMethodType.Unknown)
    (hfit : (HttpResponseHeader.getContent
      { r.Header with Headers := (sentHeaderMap env
        (r.Header.setContentLength r.Stream.buffer_.length) r.serverName_) }).length < 2 ^ 31)
    (hbuf : r.Stream.buffer_.length < 2 ^ 31) :
    r.end env =
      ⟨{ r with
          Header := { r.Header with Headers := (sentHeaderMap env
            (r.Header.setContentLength r.Stream.buffer_.length) r.serverName_) }
          Stream := { r.Stream with
            socket_ := r.Stream.socket_ ++
              HttpResponseHeader.getContent { r.Header with Headers := (sentHeaderMap env
                (r.Header.setContentLength r.Stream.buffer_.length) r.serverName_) } ++
              (if r.Stream.sendContent_ then r.Stream.buffer_ else [])
            buffer_ := if r.Stream.sendContent_ then [] else r.Stream.buffer_ }
          headersSent_ := true
          finished_ := true }, none⟩ := by
  have hsent : HttpResponse.sentHeaders env
      { r with Header := r.Header.setContentLength r.Stream.getBufferContentSize } =
      ⟨sentState { r with Header := r.Header.setContentLength r.Stream.getBufferContentSize }
        (sentHeaderMap env (r.Header.setContentLength r.Stream.buffer_.length) r.serverName_),
        none⟩ :=
    sentHeaders_ok env hsend
      { r with Header := r.Header.setContentLength r.Stream.buffer_.length } hs hm hfit
  have hch : (sentState { r with Header := r.Header.setContentLength r.Stream.getBufferContentSize }
      (sentHeaderMap env (r.Header.setContentLength r.Stream.buffer_.length)
        r.serverName_)).Stream.chunked_ = false := by
    simp [sentState, hc, hasHeader_setContentLength]
  have hfl := stream_flush_plain env hsend _ hch hbuf
  rw [end_unsent_eq env r hs, hsent, andThen_ok, hfl]
  simp only [HttpResponse.onStream, andThen_ok, stream_end_ok env hsend, hch, Bool.false_and,
    stream_writeDirectly_nil, Bool.and_false]
  simp [sentState, Res.andThen, HttpResponseHeader.setContentLength, hc]

theorem mapFind_none_iff (m : str2str_map) (k : Str) :
    mapFind m k = none ↔ ∀ v, (k, v) ∉ m := by
  induction m with
  | nil => simp [mapFind]
  | cons kv rest ih =>
    obtain ⟨k1, v1⟩ := kv
    by_cases h : k1 = k
    · subst h
      simp only [mapFind, if_true, List.mem_cons, not_or]
      constructor
      · intro h2; exact Option.noConfusion h2
      · intro h2; exact absurd rfl (h2 v1).1
    · simp only [mapFind, h, if_false, List.mem_cons, not_or, ih, Prod.mk.injEq]
      constructor
      · intro h2 v; exact ⟨fun h3 => h h3.1.symm, h2 v⟩
      · intro h2 v; exact (h2 v).2

theorem andThen_run_nil (env : Env) (x : Res HttpResponse) :
    x.andThen (HttpResponse.run env []) = x := by
  obtain ⟨st, err⟩ := x
  cases err <;> simp [Res.andThen, HttpResponse.run]

theorem run_singleton (env : Env) (c : Call) (r : HttpResponse) :
    r.run env [c] = r.call env c := by
  simp only [HttpResponse.run]
  exact andThen_run_nil env _

/-- C2: on a connection that does not fail, take a response with unsent headers, an empty
buffer and content enabled (not HEAD); if the `write` calls leave the headers unsent, so
that `end ()` is what sends them, and the bytes written and the header block are each
shorter than 2^31 bytes (the lengths that `writeToSocket` casts to `int`), then `end ()`
returns normally, the `Content-Length` entry is the decimal total of the bytes written and
its line stands in the header block, the socket receives the header block followed by
exactly those bytes, the stream is not chunked, and a header map without
`Transfer-Encoding` stays without it. -/
theorem C2_fixed_length_content_length (env : Env) (r : HttpResponse) (writes : List Str)
    (hs : r.headersSent_ = false) (hf : r.finished_ = false)
    (hc : r.Stream.chunked_ = false) (hb : r.Stream.buffer_ = [])
    (hsc : r.Stream.sendContent_ = true)
    (hm : env.asserts = true → r.httpMethod_ ≠ HttpMethodType.Unknown)
    (hte : ∀ v, (detail.HeaderTransferEncoding, v) ∉ r.Header.Headers)
    (hfix : (r.run env (writes.map Call.write)).st.headersSent_ = false)
    (hsend : env.sendLimit = none)
    (hlen : writes.flatten.length < 2 ^ 31)
    (hhdr : ((r.run env (writes.map Call.write ++ [Call.finish])).st.Header.getContent).length <
      2 ^ 31) :
    (r.run env (writes.map Call.write ++ [Call.finish])).err = none ∧
    (r.run env (writes.map Call.write ++ [Call.finish])).st.finished_ = true ∧
    (r.run env (writes.map Call.write ++ [Call.finish])).st.Stream.chunked_ = false ∧
    mapFind (r.run env (writes.map Call.write ++ [Call.finish])).st.Header.Headers
      detail.HeaderContentLength = some (lexical_cast_string writes.flatten.length) ∧
    (lit "Content-Length: " ++ lexical_cast_string writes.flatten.length ++ lit "\r\n") <:+:
      (r.run env (writes.map Call.write ++ [Call.finish])).st.Header.getContent ∧
    (∀ v, (detail.HeaderTransferEncoding, v) ∉
      (r.run env (writes.map Call.write ++ [Call.finish])).st.Header.Headers) ∧
    (r.run env (writes.map Call.write ++ [Call.finish])).st.Stream.socket_ =
      r.Stream.socket_ ++
        (r.run env (writes.map Call.write ++ [Call.finish])).st.Header.getContent ++
        writes.flatten := by
  have h1 := run_writes_unsent env hsend [Call.finish] writes r hs hf hm hhdr hfix
  have hrun : r.run env (writes.map Call.write ++ [Call.finish]) =
      HttpResponse.end env
        { r with Stream := { r.Stream with buffer_ := r.Stream.buffer_ ++ writes.flatten } } := by
    rw [run_append, h1]
    simp only [Res.andThen, run_singleton, HttpResponse.call]
  have hH := (call_sends env Call.finish
    { r with Stream := { r.Stream with buffer_ := r.Stream.buffer_ ++ writes.flatten } }
    hs hm rfl).1
  rw [hrun] at hhdr
  rw [HttpResponse.call] at hH
  rw [hH] at hhdr
  have hbuf : (r.Stream.buffer_ ++ writes.flatten).length < 2 ^ 31 := by
    rw [hb]; simpa using hlen
  have hend := end_unsent env hsend
    { r with Stream := { r.Stream with buffer_ := r.Stream.buffer_ ++ writes.flatten } }
    hs hc hm hhdr hbuf
  rw [hrun, hend]
  have e3 : ¬ detail.HeaderContentLength = detail.HeaderTransferEncoding := by decide
  have hCL2 : mapFind (sentHeaderMap env
      (r.Header.setContentLength (r.Stream.buffer_ ++ writes.flatten).length) r.serverName_)
      detail.HeaderContentLength = some (lexical_cast_string writes.flatten.length) := by
    rw [sentHeaderMap_contentLength]
    simp [HttpResponseHeader.setContentLength, mapFind_mapSet, hb]
  have hTE : mapFind (sentHeaderMap env
      (r.Header.setContentLength (r.Stream.buffer_ ++ writes.flatten).length) r.serverName_)
      detail.HeaderTransferEncoding = none := by
    rw [sentHeaderMap_transferEncoding, hasHeader_setContentLength, if_pos rfl]
    simp only [HttpResponseHeader.setContentLength, mapFind_mapSet, e3, if_false]
    exact (mapFind_none_iff _ _).2 hte
  refine ⟨rfl, rfl, hc, hCL2, ?_, ?_, ?_⟩
  · exact getContent_infix
      { r.Header with Headers := (sentHeaderMap env
        (r.Header.setContentLength (r.Stream.buffer_ ++ writes.flatten).length) r.serverName_) }
      _ _ hCL2
  · exact (mapFind_none_iff _ _).1 hTE
  · simp [hb, hsc]

/-- Once the headers are sent a call leaves the mode of the stream alone and only adds to
the socket. -/
theorem call_sent_stream_frame (env : Env) (c : Call) (r : HttpResponse)
    (h : r.headersSent_ = true) :
    (r.call env c).st.Stream.chunked_ = r.Stream.chunked_ ∧
    (r.call env c).st.Stream.sendContent_ = r.Stream.sendContent_ ∧
    (r.call env c).st.Stream.maxBuffSize_ = r.Stream.maxBuffSize_ ∧
    (r.call env c).st.Stream.maxChunkSize_ = r.Stream.maxChunkSize_ ∧
    r.Stream.socket_ <+: (r.call env c).st.Stream.socket_ := by
  cases c with
  | write content =>
    cases hf : r.finished_
    · simp only [HttpResponse.call, HttpResponse.write, hf, h, Res.andThen, HttpResponse.onStream]
      exact stream_write_frame env r.Stream content
    · simp [HttpResponse.call, HttpResponse.write, hf]
  | flush =>
    simp only [HttpResponse.call, HttpResponse.flush, h, Res.andThen, HttpResponse.onStream]
    exact stream_flush_frame env r.Stream
  | finish =>
    have c1 : ¬ (!r.headersSent_) = true := by rw [h]; simp
    rw [HttpResponse.call, end_eq, if_neg c1]
    have step : ∀ (y : HttpResponse) (x : Res HttpResponseStream),
        (y.Stream.chunked_ = r.Stream.chunked_ ∧ y.Stream.sendContent_ = r.Stream.sendContent_ ∧
          y.Stream.maxBuffSize_ = r.Stream.maxBuffSize_ ∧
          y.Stream.maxChunkSize_ = r.Stream.maxChunkSize_ ∧
          r.Stream.socket_ <+: y.Stream.socket_) →
        (x.st.chunked_ = y.Stream.chunked_ ∧ x.st.sendContent_ = y.Stream.sendContent_ ∧
          x.st.maxBuffSize_ = y.Stream.maxBuffSize_ ∧
          x.st.maxChunkSize_ = y.Stream.maxChunkSize_ ∧ y.Stream.socket_ <+: x.st.socket_) →
        ((HttpResponse.onStream y x).st.Stream.chunked_ = r.Stream.chunked_ ∧
          (HttpResponse.onStream y x).st.Stream.sendContent_ = r.Stream.sendContent_ ∧
          (HttpResponse.onStream y x).st.Stream.maxBuffSize_ = r.Stream.maxBuffSize_ ∧
          (HttpResponse.onStream y x).st.Stream.maxChunkSize_ = r.Stream.maxChunkSize_ ∧
          r.Stream.socket_ <+: (HttpResponse.onStream y x).st.Stream.socket_) := by
      intro y x ⟨a1, a2, a3, a4, a5⟩ ⟨b1, b2, b3, b4, b5⟩
      exact ⟨b1.trans a1, b2.trans a2, b3.trans a3, b4.trans a4, a5.trans b5⟩
    refine andThen_inv (fun y : HttpResponse =>
      y.Stream.chunked_ = r.Stream.chunked_ ∧ y.Stream.sendContent_ = r.Stream.sendContent_ ∧
      y.Stream.maxBuffSize_ = r.Stream.maxBuffSize_ ∧
      y.Stream.maxChunkSize_ = r.Stream.maxChunkSize_ ∧
      r.Stream.socket_ <+: y.Stream.socket_) _ _ ?_ fun y hy => ?_
    · simp only [HttpResponse.flush, h, Res.andThen, HttpResponse.onStream]
      exact stream_flush_frame env r.Stream
    · refine andThen_inv (fun y : HttpResponse =>
        y.Stream.chunked_ = r.Stream.chunked_ ∧ y.Stream.sendContent_ = r.Stream.sendContent_ ∧
        y.Stream.maxBuffSize_ = r.Stream.maxBuffSize_ ∧
        y.Stream.maxChunkSize_ = r.Stream.maxChunkSize_ ∧
        r.Stream.socket_ <+: y.Stream.socket_) _ _ ?_ fun y2 hy2 => ?_
      · obtain ⟨f1, f2, f3, f4, -, f6⟩ := stream_end_frame env y.Stream
        exact step y _ hy ⟨f1, f2, f3, f4, f6⟩
      · refine andThen_inv (fun y : HttpResponse =>
          y.Stream.chunked_ = r.Stream.chunked_ ∧ y.Stream.sendContent_ = r.Stream.sendContent_ ∧
          y.Stream.maxBuffSize_ = r.Stream.maxBuffSize_ ∧
          y.Stream.maxChunkSize_ = r.Stream.maxChunkSize_ ∧
          r.Stream.socket_ <+: y.Stream.socket_) _ _ ?_ fun y3 hy3 => hy3
        obtain ⟨f1, f2, f3, f4, -, f6⟩ := stream_writeDirectly_frame env [] y2.Stream
        exact step y2 _ hy2 ⟨f1, f2, f3, f4, f6⟩
  | writeCompleteResponse response =>
    cases ha : env.asserts <;> cases hf : r.finished_ <;>
      simp [HttpResponse.call, HttpResponse.writeCompleteResponse, ha, hf, h]

theorem flush_sent (env : Env) (r : HttpResponse) (h : r.headersSent_ = true) :
    r.flush env = HttpResponse.onStream r (r.Stream.flush env) := by
  simp [HttpResponse.flush, h, Res.andThen]

theorem write_sent (env : Env) (r : HttpResponse) (w : Str) (h : r.headersSent_ = true)
    (hf : r.finished_ = false) :
    r.write env w = HttpResponse.onStream r (r.Stream.write env w) := by
  simp [HttpResponse.write, h, hf, Res.andThen]

theorem end_sent (env : Env) (r : HttpResponse) (h : r.headersSent_ = true) :
    r.end env =
      (HttpResponse.onStream r (r.Stream.flush env)).andThen fun r2 =>
        (HttpResponse.onStream r2 (r2.Stream.end env)).andThen fun r3 =>
          (HttpResponse.onStream r3 (r3.Stream.writeDirectly env [])).andThen fun r4 =>
            ⟨{ r4 with finished_ := true }, none⟩ := by
  have c1 : ¬ (!r.headersSent_) = true := by rw [h]; simp
  rw [end_eq, if_neg c1, flush_sent env r h]

/-- A `write`, `flush ()` or `end ()` that sends the header block goes on as the same call
does on the response with the headers sent. -/
theorem call_after_send (env : Env) (c : Call) (r : HttpResponse) (H : str2str_map)
    (hs : r.headersSent_ = false) (hf : r.finished_ = false)
    (ht : c = Call.flush ∨ c = Call.finish ∨
      ∃ content, c = Call.write content ∧ r.Stream.willBeFlushed content.length = true)
    (hsent : HttpResponse.sentHeaders env { r with Header := headerAtSend c r } =
      ⟨sentState { r with Header := headerAtSend c r } H, none⟩) :
    r.call env c = (sentState { r with Header := headerAtSend c r } H).call env c := by
  rcases ht with rfl | rfl | ⟨content, rfl, hw⟩
  · have hsent2 : r.sentHeaders env = ⟨sentState r H, none⟩ := hsent
    have e1 : r.flush env = HttpResponse.onStream (sentState r H) ((sentState r H).Stream.flush env) := by
      simp only [HttpResponse.flush, hs, hsent2, Res.andThen]
      rfl
    exact e1.trans (flush_sent env (sentState r H) rfl).symm
  · simp only [headerAtSend] at hsent ⊢
    rw [HttpResponse.call, end_unsent_eq env r hs, hsent, andThen_ok]
    exact (end_sent env _ rfl).symm
  · have hsent2 : r.sentHeaders env = ⟨sentState r H, none⟩ := hsent
    exact (write_sending env r content H hs hf hw hsent2).trans
      (write_sent env (sentState r H) content rfl hf).symm

/-- C3: on a connection that does not fail, when a call sends the header block (a `write`
that reaches the buffer limit, `flush ()` or `end ()`) and the block is shorter than 2^31
bytes (the length that `writeToSocket` casts to `int`), the stream is put in chunked mode
exactly when the header map has no `Content-Length` entry at that moment; then the block
that is sent carries the line `Transfer-Encoding: chunked`, and otherwise the
`Transfer-Encoding` entry of the map is left as it was and the buffered body, when it is
shorter than 2^31 bytes too, follows the header block byte for byte. -/
theorem C3_chunked_iff_no_content_length (env : Env) (r : HttpResponse) (c : Call)
    (hs : r.headersSent_ = false) (hc : r.Stream.chunked_ = false)
    (hf : r.finished_ = false)
    (hm : env.asserts = true → r.httpMethod_ ≠ HttpMethodType.Unknown)
    (ht : c = Call.flush ∨ c = Call.finish ∨
      ∃ content, c = Call.write content ∧ r.Stream.willBeFlushed content.length = true)
    (hsend : env.sendLimit = none)
    (hhdr : ((r.call env c).st.Header.getContent).length < 2 ^ 31) :
    (r.call env c).st.headersSent_ = true ∧
    ((r.call env c).st.Stream.chunked_ = true ↔
      (headerAtSend c r).hasHeader detail.HeaderContentLength = false) ∧
    r.Stream.socket_ ++ (r.call env c).st.Header.getContent <+: (r.call env c).st.Stream.socket_ ∧
    ((headerAtSend c r).hasHeader detail.HeaderContentLength = false →
      mapFind (r.call env c).st.Header.Headers detail.HeaderTransferEncoding =
        some detail.TransferEncodingChunked ∧
      lit "Transfer-Encoding: chunked\r\n" <:+: (r.call env c).st.Header.getContent) ∧
    ((headerAtSend c r).hasHeader detail.HeaderContentLength = true →
      mapFind (r.call env c).st.Header.Headers detail.HeaderTransferEncoding =
        mapFind r.Header.Headers detail.HeaderTransferEncoding ∧
      ((r.Stream.buffer_ ++ c.payload).length < 2 ^ 31 →
        (r.call env c).err = none ∧
        (r.call env c).st.Stream.socket_ =
          r.Stream.socket_ ++ (r.call env c).st.Header.getContent ++
            (if r.Stream.sendContent_ then r.Stream.buffer_ ++ c.payload else []))) := by
  have hlit : lit "Transfer-Encoding: chunked\r\n" =
      detail.HeaderTransferEncoding ++ detail.HeaderValueDelimiter ++
        detail.TransferEncodingChunked ++ detail.HeadersDelimiter := by decide
  have hts : sendsHeaders c r = true := by
    rcases ht with rfl | rfl | ⟨content, rfl, hw⟩ <;> simp [sendsHeaders, hf, *]
  have hH := (call_sends env c r hs hm hts).1
  rw [hH] at hhdr
  have hsent := sentHeaders_ok env hsend { r with Header := headerAtSend c r } hs hm hhdr
  have hcall := call_after_send env c r _ hs hf ht hsent
  have hS : (sentState { r with Header := headerAtSend c r }
      (sentHeaderMap env (headerAtSend c r) r.serverName_)).headersSent_ = true := rfl
  obtain ⟨f1, -, -, -, f5⟩ := call_sent_stream_frame env c _ hS
  have g1 := call_keeps_headersSent env c _ hS
  have g2 := call_keeps_header env c _ hS
  rw [← hcall] at f1 f5 g1 g2
  have hTE := sentHeaderMap_transferEncoding env (headerAtSend c r) r.serverName_
  refine ⟨g1, ?_, ?_, ?_, ?_⟩
  · rw [f1]
    cases hcl : (headerAtSend c r).hasHeader detail.HeaderContentLength <;>
      simp [sentState, hc, hcl]
  · rw [g2]
    exact f5
  · intro hcl
    rw [g2]
    simp only [hcl, Bool.false_eq_true, if_false] at hTE
    exact ⟨hTE, hlit ▸ getContent_infix _ _ _ hTE⟩
  · intro hcl
    rw [g2]
    simp only [hcl, if_true] at hTE
    have hTE0 : mapFind (headerAtSend c r).Headers detail.HeaderTransferEncoding =
        mapFind r.Header.Headers detail.HeaderTransferEncoding := by
      have e3 : ¬ detail.HeaderContentLength = detail.HeaderTransferEncoding := by decide
      cases c <;> simp [headerAtSend, HttpResponseHeader.setContentLength, mapFind_mapSet, e3]
    refine ⟨hTE.trans hTE0, fun hbuf => ?_⟩
    have hch : (sentState { r with Header := headerAtSend c r }
        (sentHeaderMap env (headerAtSend c r) r.serverName_)).Stream.chunked_ = false := by
      simp [sentState, hc, hcl]
    rw [hcall]
    rcases ht with rfl | rfl | ⟨content, rfl, hw⟩
    · have hb2 : (sentState { r with Header := headerAtSend Call.flush r }
          (sentHeaderMap env (headerAtSend Call.flush r) r.serverName_)).Stream.buffer_.length <
          2 ^ 31 := by simpa [sentState, Call.payload] using hbuf
      simp only [HttpResponse.call, HttpResponse.flush, hS, Bool.not_true, Bool.false_eq_true,
        if_false, andThen_ok, stream_flush_plain env hsend _ hch hb2, HttpResponse.onStream]
      simp [sentState, Call.payload]
    · have hb2 : (sentState { r with Header := headerAtSend Call.finish r }
          (sentHeaderMap env (headerAtSend Call.finish r) r.serverName_)).Stream.buffer_.length <
          2 ^ 31 := by simpa [sentState, Call.payload] using hbuf
      have c1 : ¬ (!(sentState { r with Header := headerAtSend Call.finish r }
          (sentHeaderMap env (headerAtSend Call.finish r) r.serverName_)).headersSent_) = true := by
        simp [sentState]
      rw [HttpResponse.call, end_eq, if_neg c1]
      simp only [HttpResponse.flush, hS, Bool.not_true, Bool.false_eq_true,
        if_false, andThen_ok, stream_flush_plain env hsend _ hch hb2, HttpResponse.onStream,
        stream_end_ok env hsend, hch, Bool.false_and, stream_writeDirectly_nil, Bool.and_false]
      simp [sentState, Call.payload, Res.andThen]
    · have hlen : (sentState { r with Header := headerAtSend (Call.write content) r }
          (sentHeaderMap env (headerAtSend (Call.write content) r)
            r.serverName_)).Stream.maxBuffSize_ ≤
          ((sentState { r with Header := headerAtSend (Call.write content) r }
          (sentHeaderMap env (headerAtSend (Call.write content) r)
            r.serverName_)).Stream.buffer_ ++ content).length := by
        simpa [HttpResponseStream.willBeFlushed, sentState] using hw
      have hfin : (sentState { r with Header := headerAtSend (Call.write content) r }
          (sentHeaderMap env (headerAtSend (Call.write content) r)
            r.serverName_)).finished_ = false := hf
      have hb2 : ((sentState { r with Header := headerAtSend (Call.write content) r }
          (sentHeaderMap env (headerAtSend (Call.write content) r)
            r.serverName_)).Stream.buffer_ ++ content).length < 2 ^ 31 := by
        simpa [sentState, Call.payload] using hbuf
      rw [HttpResponse.call, write_sent env _ content hS hfin]
      simp only [HttpResponseStream.write, hlen, if_true, HttpResponse.onStream]
      rw [stream_flush_plain env hsend
        { (sentState { r with Header := headerAtSend (Call.write content) r }
            (sentHeaderMap env (headerAtSend (Call.write content) r) r.serverName_)).Stream with
          buffer_ := (sentState { r with Header := headerAtSend (Call.write content) r }
            (sentHeaderMap env (headerAtSend (Call.write content) r)
              r.serverName_)).Stream.buffer_ ++ content } hch hb2]
      simp [sentState, Call.payload]

/-! ## Hexadecimal sizes -/

theorem formatNatAux_acc (b : Nat) : ∀ (fuel n : Nat) (acc : Str),
    formatNatAux b fuel n acc = formatNatAux b fuel n [] ++ acc := by
  intro fuel
  induction fuel with
  | zero => intro n acc; simp [formatNatAux]
  | succ k ih =>
    intro n acc
    simp only [formatNatAux]
    split
    · simp
    · rw [ih, ih _ [digitChar (n % b)]]
      simp

theorem digitChar_eq (d : Nat) (h : d < 16) : (Nat.digitChar d).toNat = digitChar d := by
  interval_cases d <;> decide

theorem toDigitsCore_eq : ∀ (fuel n : Nat) (acc : List Char),
    (Nat.toDigitsCore 16 fuel n acc).map Char.toNat =
      formatNatAux 16 fuel n (acc.map Char.toNat) := by
  intro fuel
  induction fuel with
  | zero => intro n acc; simp [Nat.toDigitsCore, formatNatAux]
  | succ k ih =>
    intro n acc
    simp only [Nat.toDigitsCore, formatNatAux]
    by_cases h : n < 16
    · have h0 : n / 16 = 0 := Nat.div_eq_of_lt h
      simp [h, h0, Nat.mod_eq_of_lt h, digitChar_eq n h]
    · have h0 : ¬ n / 16 = 0 := by omega
      simp [h, h0, ih, digitChar_eq (n % 16) (Nat.mod_lt _ (by norm_num))]

theorem hexLower_eq (n : Nat) : Http11.hexLower n = formatNat 16 n := by
  simp [Http11.hexLower, Nat.toDigits, formatNat, toDigitsCore_eq]

theorem hexVal_digitChar (d : Nat) (h : d < 16) : Http11.hexVal (digitChar d) = some d := by
  interval_cases d <;> decide

theorem readHex_append (ds : Str) : ∀ (rest : Str) (acc : Nat),
    (∀ c ∈ ds, (Http11.hexVal c).isSome) →
    Http11.readHex (ds ++ rest) acc =
      Http11.readHex rest (ds.foldl (fun a c => a * 16 + (Http11.hexVal c).getD 0) acc) := by
  induction ds with
  | nil => intro rest acc _; simp
  | cons d ds ih =>
    intro rest acc h
    have hd := h d (List.mem_cons_self _ _)
    obtain ⟨v, hv⟩ := Option.isSome_iff_exists.1 hd
    simp only [List.cons_append, Http11.readHex, hv, List.foldl_cons, Option.getD_some]
    exact ih rest _ (fun c hc => h c (List.mem_cons_of_mem _ hc))

theorem formatNatAux_hex : ∀ (fuel n : Nat), n < fuel →
    (∀ c ∈ formatNatAux 16 fuel n [], (Http11.hexVal c).isSome) ∧
    (formatNatAux 16 fuel n []).foldl (fun a c => a * 16 + (Http11.hexVal c).getD 0) 0 = n ∧
    formatNatAux 16 fuel n [] ≠ [] := by
  intro fuel
  induction fuel with
  | zero => intro n h; omega
  | succ k ih =>
    intro n h
    simp only [formatNatAux]
    by_cases h16 : n < 16
    · simp [h16, hexVal_digitChar n h16]
    · simp only [h16, if_false]
      rw [formatNatAux_acc]
      obtain ⟨i1, i2, _⟩ := ih (n / 16) (by omega)
      have hm : n % 16 < 16 := Nat.mod_lt _ (by norm_num)
      refine ⟨?_, ?_, by simp⟩
      · intro c hc
        rcases List.mem_append.1 hc with hc | hc
        · exact i1 c hc
        · simp only [List.mem_singleton] at hc
          subst hc
          simp [hexVal_digitChar _ hm]
      · rw [List.foldl_append, i2]
        simp only [List.foldl_cons, List.foldl_nil, hexVal_digitChar _ hm, Option.getD_some]
        omega

theorem readHex_hexLower (n : Nat) (rest : Str) :
    Http11.readHex (Http11.hexLower n ++ 13 :: rest) 0 = (n, 13 :: rest) ∧
    ((Http11.hexLower n ++ 13 :: rest).head?.bind Http11.hexVal).isNone = false := by
  obtain ⟨h1, h2, h3⟩ := formatNatAux_hex (n + 1) n (by omega)
  rw [hexLower_eq, formatNat]
  constructor
  · rw [readHex_append _ _ _ h1, h2]
    simp [Http11.readHex, Http11.hexVal]
  · cases hd : formatNatAux 16 (n + 1) n [] with
    | nil => exact absurd hd h3
    | cons c cs =>
      have := h1 c (by rw [hd]; exact List.mem_cons_self _ _)
      obtain ⟨v, hv⟩ := Option.isSome_iff_exists.1 this
      simp [hv]

/-! ## Decoding what the chunk loop writes -/

theorem chunks_append (cs ds : List Str) :
    Http11.chunks (cs ++ ds) = Http11.chunks cs ++ Http11.chunks ds := by
  induction cs with
  | nil => simp [Http11.chunks]
  | cons c cs ih => simp [Http11.chunks, ih]

theorem decodeChunkedAux_chunkedBody (cs : List Str) :
    ∀ fuel : Nat, cs.length < fuel → (∀ c ∈ cs, 1 ≤ c.length) →
      Http11.decodeChunkedAux fuel (Http11.chunkedBody cs) = some cs.flatten := by
  induction cs with
  | nil =>
    intro fuel hf _
    obtain ⟨k, rfl⟩ : ∃ k, fuel = k + 1 := ⟨fuel - 1, by simp at hf; omega⟩
    simp [Http11.decodeChunkedAux, Http11.chunkedBody, Http11.chunks, Http11.lastChunk,
      Http11.readHex, Http11.hexVal]
  | cons c cs ih =>
    intro fuel hf hne
    obtain ⟨k, rfl⟩ : ∃ k, fuel = k + 1 := ⟨fuel - 1, by omega⟩
    have hc : 1 ≤ c.length := hne c (List.mem_cons_self _ _)
    have hb : Http11.chunkedBody (c :: cs) =
        Http11.hexLower c.length ++ 13 :: (10 :: (c ++ 13 :: 10 :: Http11.chunkedBody cs)) := by
      simp [Http11.chunkedBody, Http11.chunks, Http11.chunk]
    obtain ⟨r1, r2⟩ := readHex_hexLower c.length (10 :: (c ++ 13 :: 10 :: Http11.chunkedBody cs))
    have hz : ¬ c.length = 0 := by omega
    rw [hb]
    simp only [Http11.decodeChunkedAux, r1, r2, hz, if_false, Bool.false_eq_true]
    have hlen : ¬ (c ++ 13 :: 10 :: Http11.chunkedBody cs).length < c.length := by
      simp
    simp only [hlen, if_false, List.drop_left, List.take_left]
    rw [ih k (by simp at hf; omega) (fun d hd => hne d (List.mem_cons_of_mem _ hd))]
    simp

theorem length_le_chunks (cs : List Str) : cs.length ≤ (Http11.chunks cs).length := by
  induction cs with
  | nil => simp
  | cons c cs ih =>
    simp only [Http11.chunks, Http11.chunk, List.length_cons, List.length_append]
    omega

theorem decodeChunked_chunkedBody (cs : List Str) (h : ∀ c ∈ cs, 1 ≤ c.length) :
    Http11.decodeChunked (Http11.chunkedBody cs) = some cs.flatten := by
  apply decodeChunkedAux_chunkedBody cs _ _ h
  have := length_le_chunks cs
  simp only [Http11.chunkedBody, List.length_append]
  omega

theorem chunkHeader_eq (n : Nat) :
    detail.ChunkHeaderFormat n = Http11.hexLower n ++ [13, 10] := by
  rw [hexLower_eq]; rfl

theorem formatNatAux_length (b : Nat) :
    ∀ (fuel n : Nat) (acc : Str) (e : Nat), n < b ^ (e + 1) →
      (formatNatAux b fuel n acc).length ≤ acc.length + (e + 1) := by
  intro fuel
  induction fuel with
  | zero => intro n acc e _; simp only [formatNatAux]; omega
  | succ k ih =>
    intro n acc e hn
    simp only [formatNatAux]
    split
    · simp only [List.length_cons]; omega
    · rename_i hnb
      cases e with
      | zero => simp only [Nat.zero_add, pow_one] at hn; omega
      | succ e2 =>
        have hdiv : n / b < b ^ (e2 + 1) := by
          apply Nat.div_lt_of_lt_mul
          calc n < b ^ (e2 + 1 + 1) := hn
            _ = b * b ^ (e2 + 1) := by rw [pow_succ]; ring
        have := ih (n / b) (digitChar (n % b) :: acc) e2 hdiv
        simp only [List.length_cons] at this
        omega

/-- The header of a chunk of less than 2^31 bytes is a few bytes long. -/
theorem chunkHeader_length (n : Nat) (h : n < 2 ^ 31) :
    (detail.ChunkHeaderFormat n).length < 2 ^ 31 := by
  have h1 := formatNatAux_length 16 (n + 1) n [] 7 (by
    calc n < 2 ^ 31 := h
      _ ≤ 16 ^ (7 + 1) := by norm_num)
  have h2 : (lit "\r\n").length = 2 := by decide
  simp only [detail.ChunkHeaderFormat, formatNat, List.length_append, h2]
  simp only [List.length_nil] at h1
  omega

/-- The chunk loop, entered at `curPos` with the chunk size the source computes, writes
the rest of the buffer as chunks of 1 to `m` bytes and exits, on a connection that does
not fail and with `m` below 2^31. -/
theorem flushChunks_spec (env : Env) (hsend : env.sendLimit = none) (m : Nat) (hm : 1 ≤ m)
    (hm2 : m < 2 ^ 31) (b : Str) :
    ∀ (fuel curPos : Nat) (sock : Str), curPos < b.length → b.length - curPos ≤ fuel →
      ∃ cs : List Str, (∀ c ∈ cs, 1 ≤ c.length ∧ c.length ≤ m) ∧ cs.flatten = b.drop curPos ∧
        HttpResponseStream.flushChunks env m b fuel curPos (min2 m (b.length - curPos)) sock =
          ⟨sock ++ Http11.chunks cs, none⟩ := by
  intro fuel
  induction fuel with
  | zero => intro curPos sock h1 h2; omega
  | succ k ih =>
    intro curPos sock h1 h2
    have hsz : 1 ≤ min2 m (b.length - curPos) ∧ min2 m (b.length - curPos) ≤ m ∧
        min2 m (b.length - curPos) ≤ b.length - curPos := by
      unfold min2; split <;> omega
    obtain ⟨z1, z2, z3⟩ := hsz
    have htl : ((b.drop curPos).take (min2 m (b.length - curPos))).length =
        min2 m (b.length - curPos) := by
      simp only [List.length_take, List.length_drop]; omega
    have w1 := writeToSocket_ok env hsend sock
      (detail.ChunkHeaderFormat (min2 m (b.length - curPos)))
      (chunkHeader_length _ (by omega))
    have w2 := writeToSocketBuff_ok env hsend
      (sock ++ detail.ChunkHeaderFormat (min2 m (b.length - curPos))) (b.drop curPos)
      (min2 m (b.length - curPos)) (by omega) (by simp only [List.length_drop]; omega)
    have w3 := writeToSocket_ok env hsend
      (sock ++ detail.ChunkHeaderFormat (min2 m (b.length - curPos)) ++
        (b.drop curPos).take (min2 m (b.length - curPos))) detail.ChunkEndMark (by decide)
    simp only [HttpResponseStream.flushChunks, w1, andThen_ok, w2, w3]
    by_cases hlt : curPos + min2 m (b.length - curPos) < b.length
    · obtain ⟨cs, c1, c2, c3⟩ := ih (curPos + min2 m (b.length - curPos))
        (sock ++ detail.ChunkHeaderFormat (min2 m (b.length - curPos)) ++
          (b.drop curPos).take (min2 m (b.length - curPos)) ++ detail.ChunkEndMark) hlt (by omega)
      refine ⟨(b.drop curPos).take (min2 m (b.length - curPos)) :: cs, ?_, ?_, ?_⟩
      · intro c hc
        rcases List.mem_cons.1 hc with rfl | hc
        · rw [htl]; exact ⟨z1, z2⟩
        · exact c1 c hc
      · rw [List.flatten_cons, c2, ← List.drop_drop, List.take_append_drop]
      · simp only [hlt, if_true]
        rw [c3]
        simp [Http11.chunks, Http11.chunk, htl, chunkHeader_eq, detail.ChunkEndMark, lit]
    · refine ⟨[(b.drop curPos).take (min2 m (b.length - curPos))], ?_, ?_, ?_⟩
      · intro c hc
        simp only [List.mem_singleton] at hc
        subst hc
        rw [htl]; exact ⟨z1, z2⟩
      · have : min2 m (b.length - curPos) = (b.drop curPos).length := by
          simp only [List.length_drop]; omega
        simp [this]
      · simp only [hlt, if_false, Http11.chunks, Http11.chunk, htl, chunkHeader_eq]
        simp [detail.ChunkEndMark, lit]

/-! ## The response in chunked mode -/

theorem stream_flush_chunked (env : Env) (hsend : env.sendLimit = none) (s : HttpResponseStream)
    (hc : s.chunked_ = true) (hsc : s.sendContent_ = true) (hm : 1 ≤ s.maxChunkSize_)
    (hm2 : s.maxChunkSize_ < 2 ^ 31) :
    ∃ cs : List Str, (∀ c ∈ cs, 1 ≤ c.length ∧ c.length ≤ s.maxChunkSize_) ∧
      cs.flatten = s.buffer_ ∧
      s.flush env =
        ⟨{ s with socket_ := s.socket_ ++ Http11.chunks cs, buffer_ := [] }, none⟩ := by
  cases hb : s.buffer_ with
  | nil =>
    refine ⟨[], by simp, by simp, ?_⟩
    simp only [HttpResponseStream.flush, hb, List.isEmpty_nil, if_true, Http11.chunks,
      List.append_nil]
    cases s; simp_all
  | cons a t =>
    have hlen : 0 < s.buffer_.length := by rw [hb]; simp
    obtain ⟨cs, c1, c2, c3⟩ := flushChunks_spec env hsend s.maxChunkSize_ hm hm2 s.buffer_
      s.buffer_.length 0 s.socket_ hlen (by omega)
    refine ⟨cs, c1, by simpa [hb] using c2, ?_⟩
    have hmin : (if s.maxChunkSize_ < s.buffer_.length then s.maxChunkSize_
        else s.buffer_.length) = min2 s.maxChunkSize_ (s.buffer_.length - 0) := by
      simp [min2]
    have hne : s.buffer_.isEmpty = false := by rw [hb]; rfl
    simp only [HttpResponseStream.flush, hne, hsc, hc, hmin, c3, HttpResponseStream.onSocket,
      andThen_ok]
    simp

theorem stream_write_chunked (env : Env) (hsend : env.sendLimit = none) (s : HttpResponseStream)
    (content : Str) (hc : s.chunked_ = true)
    (hsc : s.sendContent_ = true) (hm : 1 ≤ s.maxChunkSize_) (hm2 : s.maxChunkSize_ < 2 ^ 31) :
    ∃ (cs : List Str) (b : Str), (∀ c ∈ cs, 1 ≤ c.length ∧ c.length ≤ s.maxChunkSize_) ∧
      cs.flatten ++ b = s.buffer_ ++ content ∧
      s.write env content =
        ⟨{ s with socket_ := s.socket_ ++ Http11.chunks cs, buffer_ := b }, none⟩ := by
  by_cases hlen : s.maxBuffSize_ ≤ (s.buffer_ ++ content).length
  · obtain ⟨cs, c1, c2, c3⟩ := stream_flush_chunked env hsend
      { s with buffer_ := s.buffer_ ++ content } hc hsc hm hm2
    refine ⟨cs, [], c1, by simpa using c2, ?_⟩
    simp only [HttpResponseStream.write, hlen, if_true, c3]
  · refine ⟨[], s.buffer_ ++ content, by simp, by simp, ?_⟩
    simp only [HttpResponseStream.write, hlen, if_false, Http11.chunks, List.append_nil]

theorem write_chunkedSoFar (env : Env) (hsend : env.sendLimit = none) (sent : Str) (m : Nat)
    (data w : Str) (r : HttpResponse)
    (h : ChunkedSoFar sent m data r) (hm : 1 ≤ m) (hm2 : m < 2 ^ 31) :
    (r.write env w).err = none ∧ ChunkedSoFar sent m (data ++ w) (r.write env w).st ∧
      (r.write env w).st.Header = r.Header := by
  obtain ⟨h1, h2, h3, h4, h5, cs, c1, c2, c3⟩ := h
  obtain ⟨ds, b, d1, d2, d3⟩ := stream_write_chunked env hsend r.Stream w h3 h4 (by omega)
    (by omega)
  have e : r.write env w = ⟨{ r with Stream :=
      { r.Stream with socket_ := r.Stream.socket_ ++ Http11.chunks ds, buffer_ := b } }, none⟩ := by
    rw [write_sent env r w h1 h2, d3]
    rfl
  rw [e]
  refine ⟨rfl, ⟨h1, h2, h3, h4, h5, cs ++ ds, ?_, ?_, ?_⟩, rfl⟩
  · intro c hc
    rcases List.mem_append.1 hc with hc | hc
    · exact c1 c hc
    · exact h5 ▸ d1 c hc
  · simp [c2, chunks_append]
  · simp only [List.flatten_append, List.append_assoc, d2]
    rw [← List.append_assoc, c3]

theorem run_writes_chunkedSoFar (env : Env) (hsend : env.sendLimit = none) (sent : Str) (m : Nat)
    (hm : 1 ≤ m) (hm2 : m < 2 ^ 31) (ws : List Str) :
    ∀ (data : Str) (r : HttpResponse), ChunkedSoFar sent m data r →
      (r.run env (ws.map Call.write)).err = none ∧
      ChunkedSoFar sent m (data ++ ws.flatten) (r.run env (ws.map Call.write)).st ∧
      (r.run env (ws.map Call.write)).st.Header = r.Header := by
  induction ws with
  | nil => intro data r h; simpa [HttpResponse.run] using h
  | cons w ws ih =>
    intro data r h
    obtain ⟨e1, e2, e3⟩ := write_chunkedSoFar env hsend sent m data w r h hm hm2
    obtain ⟨i1, i2, i3⟩ := ih (data ++ w) _ e2
    simp only [List.map_cons, HttpResponse.run, HttpResponse.call, Res.andThen, e1]
    refine ⟨i1, ?_, i3.trans e3⟩
    simpa using i2

theorem end_chunkedSoFar (env : Env) (hsend : env.sendLimit = none) (sent : Str) (m : Nat)
    (data : Str) (r : HttpResponse)
    (h : ChunkedSoFar sent m data r) (hm : 1 ≤ m) (hm2 : m < 2 ^ 31) :
    ∃ cs : List Str, (∀ c ∈ cs, 1 ≤ c.length ∧ c.length ≤ m) ∧ cs.flatten = data ∧
      (r.end env).st.Stream.socket_ = sent ++ Http11.chunkedBody cs ∧
      (r.end env).st.Header = r.Header ∧
      (env.asserts = false → (r.end env).err = none ∧ (r.end env).st.finished_ = true) := by
  obtain ⟨h1, h2, h3, h4, h5, cs, c1, c2, c3⟩ := h
  obtain ⟨ds, d1, d2, d3⟩ := stream_flush_chunked env hsend r.Stream h3 h4 (by omega) (by omega)
  refine ⟨cs ++ ds, ?_, ?_, ?_⟩
  · intro c hc
    rcases List.mem_append.1 hc with hc | hc
    · exact c1 c hc
    · exact h5 ▸ d1 c hc
  · simp [d2, c3]
  · rw [end_sent env r h1, d3]
    cases ha : env.asserts <;>
      simp [Res.andThen, HttpResponse.onStream, stream_end_ok env hsend, h3, h4,
        stream_writeDirectly_nil, ha,
        c2, Http11.chunkedBody, chunks_append, detail.LastChunkFormat, Http11.lastChunk, lit]

theorem run_keeps_plain (env : Env) (cs : List Call) :
    ∀ r : HttpResponse, r.headersSent_ = true → r.Stream.chunked_ = false →
      (r.run env cs).st.Stream.chunked_ = false := by
  induction cs with
  | nil => intro r _ hc; simpa [HttpResponse.run] using hc
  | cons c cs ih =>
    intro r h hc
    have h1 := call_keeps_headersSent env c r h
    have h2 := (call_sent_stream_frame env c r h).1.trans hc
    simp only [HttpResponse.run, Res.andThen]
    split
    · exact ih _ h1 h2
    · exact h2

theorem write_first_chunked (env : Env) (hsend : env.sendLimit = none) (r : HttpResponse)
    (w : Str)
    (hs : r.headersSent_ = false) (hf : r.finished_ = false)
    (hsc : r.Stream.sendContent_ = true)
    (hm : env.asserts = true → r.httpMethod_ ≠ HttpMethodType.Unknown)
    (hk : 1 ≤ r.Stream.maxChunkSize_) (hk2 : r.Stream.maxChunkSize_ < 2 ^ 31)
    (hcl : r.Header.hasHeader detail.HeaderContentLength = false)
    (hw : r.Stream.willBeFlushed w.length = true)
    (hfit : (HttpResponseHeader.getContent
      { r.Header with Headers := sentHeaderMap env r.Header r.serverName_ }).length < 2 ^ 31) :
    (r.write env w).err = none ∧
    ChunkedSoFar (r.Stream.socket_ ++ (r.write env w).st.Header.getContent)
      r.Stream.maxChunkSize_ (r.Stream.buffer_ ++ w) (r.write env w).st := by
  have hsent := sentHeaders_ok env hsend r hs hm hfit
  have hch : (sentState r (sentHeaderMap env r.Header r.serverName_)).Stream.chunked_ = true := by
    simp [sentState, hcl]
  obtain ⟨ds, b, d1, d2, d3⟩ := stream_write_chunked env hsend
    (sentState r (sentHeaderMap env r.Header r.serverName_)).Stream w hch hsc hk hk2
  have e : r.write env w = ⟨{ sentState r (sentHeaderMap env r.Header r.serverName_) with Stream :=
      { (sentState r (sentHeaderMap env r.Header r.serverName_)).Stream with
        socket_ := (sentState r (sentHeaderMap env r.Header r.serverName_)).Stream.socket_ ++
          Http11.chunks ds, buffer_ := b } }, none⟩ := by
    rw [write_sending env r w _ hs hf hw hsent, d3]
    rfl
  rw [e]
  exact ⟨rfl, rfl, hf, hch, hsc, rfl, ds, d1, rfl, d2⟩

/-- The whole run of `write` calls and `end ()` from a response with unsent headers. -/
theorem run_writes_end_chunked (env : Env) (hsend : env.sendLimit = none) (ws : List Str) :
    ∀ r : HttpResponse, r.headersSent_ = false → r.finished_ = false →
      r.Stream.chunked_ = false → r.Stream.sendContent_ = true →
      (env.asserts = true → r.httpMethod_ ≠ HttpMethodType.Unknown) →
      1 ≤ r.Stream.maxChunkSize_ → r.Stream.maxChunkSize_ < 2 ^ 31 →
      ((r.run env (ws.map Call.write ++ [Call.finish])).st.Header.getContent).length < 2 ^ 31 →
      (r.run env (ws.map Call.write ++ [Call.finish])).st.Stream.chunked_ = true →
      ∃ cs : List Str,
        (∀ c ∈ cs, 1 ≤ c.length ∧ c.length ≤ r.Stream.maxChunkSize_) ∧
        cs.flatten = r.Stream.buffer_ ++ ws.flatten ∧
        (r.run env (ws.map Call.write ++ [Call.finish])).st.Stream.socket_ =
          r.Stream.socket_ ++
            (r.run env (ws.map Call.write ++ [Call.finish])).st.Header.getContent ++
            Http11.chunkedBody cs ∧
        (env.asserts = false →
          (r.run env (ws.map Call.write ++ [Call.finish])).err = none ∧
          (r.run env (ws.map Call.write ++ [Call.finish])).st.finished_ = true) := by
  have plain : ∀ (r : HttpResponse) (c : Call) (cs : List Call), r.headersSent_ = false →
      r.finished_ = false → r.Stream.chunked_ = false →
      (env.asserts = true → r.httpMethod_ ≠ HttpMethodType.Unknown) →
      (c = Call.flush ∨ c = Call.finish ∨
        ∃ content, c = Call.write content ∧ r.Stream.willBeFlushed content.length = true) →
      (headerAtSend c r).hasHeader detail.HeaderContentLength = true →
      ((r.run env (c :: cs)).st.Header.getContent).length < 2 ^ 31 →
      (r.run env (c :: cs)).st.Stream.chunked_ = false := by
    intro r c cs hs hf hc hm ht hcl hhdr
    have hts : sendsHeaders c r = true := by
      rcases ht with rfl | rfl | ⟨content, rfl, hw⟩ <;> simp [sendsHeaders, hf, *]
    rw [run_header_of_send env c cs r hs hm hts] at hhdr
    have hsent := sentHeaders_ok env hsend { r with Header := headerAtSend c r } hs hm hhdr
    have hcall := call_after_send env c r _ hs hf ht hsent
    have hS : (sentState { r with Header := headerAtSend c r }
        (sentHeaderMap env (headerAtSend c r) r.serverName_)).headersSent_ = true := rfl
    have hch : (sentState { r with Header := headerAtSend c r }
        (sentHeaderMap env (headerAtSend c r) r.serverName_)).Stream.chunked_ = false := by
      simp [sentState, hc, hcl]
    have f1 := (call_sent_stream_frame env c _ hS).1.trans hch
    have g1 := call_keeps_headersSent env c _ hS
    rw [← hcall] at f1 g1
    rw [run_cons]
    simp only [Res.andThen]
    split
    · exact run_keeps_plain env _ _ g1 f1
    · exact f1
  induction ws with
  | nil =>
    intro r hs hf hc hsc hm hk hk2 hhdr hch
    exfalso
    have := plain r Call.finish [] hs hf hc hm (Or.inr (Or.inl rfl))
      (hasHeader_setContentLength _ _) hhdr
    simp only [List.map_nil, List.nil_append] at hch
    rw [this] at hch
    exact Bool.noConfusion hch
  | cons w ws ih =>
    intro r hs hf hc hsc hm hk hk2 hhdr hch
    cases hw : r.Stream.willBeFlushed w.length
    · have e := write_unsent env r w hs hf hw
      have e2 : r.run env ((w :: ws).map Call.write ++ [Call.finish]) =
          HttpResponse.run env (ws.map Call.write ++ [Call.finish])
            { r with Stream := { r.Stream with buffer_ := r.Stream.buffer_ ++ w } } := by
        rw [List.map_cons, List.cons_append, run_cons]
        simp only [HttpResponse.call, e, Res.andThen]
      rw [e2] at hch hhdr ⊢
      obtain ⟨cs, c1, c2, c3, c4⟩ := ih
        { r with Stream := { r.Stream with buffer_ := r.Stream.buffer_ ++ w } } hs hf hc hsc hm hk
        hk2 hhdr hch
      exact ⟨cs, c1, by simpa using c2, c3, c4⟩
    · cases hcl : r.Header.hasHeader detail.HeaderContentLength
      · have hts : sendsHeaders (Call.write w) r = true := by simp [sendsHeaders, hf, hw]
        have hfit := hhdr
        rw [List.map_cons, List.cons_append,
          run_header_of_send env (Call.write w) _ r hs hm hts] at hfit
        obtain ⟨e1, e2⟩ := write_first_chunked env hsend r w hs hf hsc hm hk hk2 hcl hw hfit
        obtain ⟨i1, i2, i3⟩ := run_writes_chunkedSoFar env hsend _ _ hk hk2 ws _ _ e2
        obtain ⟨cs, c1, c2, c3, c4, c5⟩ := end_chunkedSoFar env hsend _ _ _ _ i2 hk hk2
        have e3 : r.run env ((w :: ws).map Call.write ++ [Call.finish]) =
            HttpResponse.end env
              (HttpResponse.run env (ws.map Call.write) (r.write env w).st).st := by
          rw [List.map_cons, List.cons_append, run_cons]
          simp only [HttpResponse.call, e1, Res.andThen]
          rw [run_append]
          simp only [i1, Res.andThen, run_singleton, HttpResponse.call]
        rw [e3]
        refine ⟨cs, c1, by simpa using c2, ?_, c5⟩
        rw [c3, c4, i3]
      · exfalso
        rw [List.map_cons, List.cons_append] at hch hhdr
        have := plain r (Call.write w) _ hs hf hc hm (Or.inr (Or.inr ⟨w, rfl, hw⟩)) hcl hhdr
        rw [this] at hch
        exact Bool.noConfusion hch

/-- C1: on a connection that does not fail, after any sequence of `write` calls and
`end ()` on a response with content enabled (not HEAD) whose headers were unsent and whose
buffer was empty, with `1 ≤ maxChunkSize_ < 2^31` and a header block shorter than 2^31
bytes (the lengths that `writeToSocket` casts to `int`), if the stream ends up in chunked
mode then the bytes on the socket after the header block are a chunked body: chunks of 1
to `maxChunkSize_` bytes, each written as lowercase hexadecimal size, CRLF, bytes, CRLF,
then `0 CRLF CRLF`; the chunks are the bytes passed to `write` in order, and the HTTP/1.1
chunk decoder returns exactly those bytes.  In a build without assertions `end ()` returns
normally and the response is finished. -/
theorem C1_chunked_body_decodes (env : Env) (r : HttpResponse) (writes : List Str)
    (hs : r.headersSent_ = false) (hf : r.finished_ = false)
    (hc : r.Stream.chunked_ = false) (hb : r.Stream.buffer_ = [])
    (hsc : r.Stream.sendContent_ = true)
    (hm : env.asserts = true → r.httpMethod_ ≠ HttpMethodType.Unknown)
    (hk : 1 ≤ r.Stream.maxChunkSize_)
    (hch : (r.run env (writes.map Call.write ++ [Call.finish])).st.Stream.chunked_ = true)
    (hsend : env.sendLimit = none)
    (hk2 : r.Stream.maxChunkSize_ < 2 ^ 31)
    (hhdr : ((r.run env (writes.map Call.write ++ [Call.finish])).st.Header.getContent).length <
      2 ^ 31) :
    ∃ (cs : List Str) (body : Str),
      (r.run env (writes.map Call.write ++ [Call.finish])).st.Stream.socket_ =
        r.Stream.socket_ ++
          (r.run env (writes.map Call.write ++ [Call.finish])).st.Header.getContent ++ body ∧
      body = Http11.chunkedBody cs ∧
      (∀ c ∈ cs, 1 ≤ c.length ∧ c.length ≤ r.Stream.maxChunkSize_) ∧
      cs.flatten = writes.flatten ∧
      Http11.decodeChunked body = some writes.flatten ∧
      (env.asserts = false →
        (r.run env (writes.map Call.write ++ [Call.finish])).err = none ∧
        (r.run env (writes.map Call.write ++ [Call.finish])).st.finished_ = true) := by
  obtain ⟨cs, c1, c2, c3, c4⟩ :=
    run_writes_end_chunked env hsend writes r hs hf hc hsc hm hk hk2 hhdr hch
  rw [hb, List.nil_append] at c2
  refine ⟨cs, Http11.chunkedBody cs, c3, rfl, c1, c2, ?_, c4⟩
  rw [decodeChunked_chunkedBody cs (fun c h => (c1 c h).1), c2]

/-! ## HEAD responses against GET responses -/

theorem head_stream_flush (env : Env) (s : HttpResponseStream) (h : s.sendContent_ = false) :
    s.flush env = ⟨s, none⟩ := by
  cases hb : s.buffer_.isEmpty <;> simp [HttpResponseStream.flush, hb, h]

theorem head_stream_write (env : Env) (s : HttpResponseStream) (w : Str)
    (h : s.sendContent_ = false) :
    s.write env w = ⟨{ s with buffer_ := s.buffer_ ++ w }, none⟩ := by
  simp only [HttpResponseStream.write]
  split
  · exact head_stream_flush env _ h
  · rfl

theorem head_stream_end (env : Env) (s : HttpResponseStream) (h : s.sendContent_ = false) :
    s.end env = ⟨s, none⟩ := by
  simp [HttpResponseStream.end, h]

theorem head_stream_writeDirectly (env : Env) (content : Str) (s : HttpResponseStream)
    (h : s.sendContent_ = false) :
    s.writeDirectly env content =
      if env.asserts && s.chunked_ then ⟨s, some Err.assert_failed⟩ else ⟨s, none⟩ := by
  simp [HttpResponseStream.writeDirectly, h]

theorem sim_fin (sock0 : Str) (h g : HttpResponse) (s : HeadGetSim sock0 h g) :
    HeadGetFin sock0 h g :=
  ⟨s.1, s.2.1, s.2.2.2.2.2.2.2.2.2.2.1, s.2.2.2.2.2.2.2.2.2.2.2⟩

/-- Sending the header block keeps a HEAD and a GET response in step. -/
theorem sim_sentState (env : Env) (hsend : env.sendLimit = none) (sock0 : Str)
    (h g : HttpResponse)
    (s : HeadGetSim sock0 h g) (hs : h.headersSent_ = false)
    (hfit : (HttpResponseHeader.getContent
      { h.Header with Headers := sentHeaderMap env h.Header h.serverName_ }).length < 2 ^ 31) :
    h.sentHeaders env = ⟨sentState h (sentHeaderMap env h.Header h.serverName_), none⟩ ∧
    g.sentHeaders env = ⟨sentState g (sentHeaderMap env h.Header h.serverName_), none⟩ ∧
    HeadGetSim sock0 (sentState h (sentHeaderMap env h.Header h.serverName_))
      (sentState g (sentHeaderMap env h.Header h.serverName_)) := by
  obtain ⟨s1, s2, s3, s4, s5, s6, s7, s8, s9, s10, s11, s12⟩ := s
  obtain ⟨b1, b2⟩ := s10 hs
  have hgs : g.headersSent_ = false := s2 ▸ hs
  have hfitg : (HttpResponseHeader.getContent
      { g.Header with Headers := sentHeaderMap env g.Header g.serverName_ }).length < 2 ^ 31 := by
    rw [← s1, ← s4]; exact hfit
  refine ⟨sentHeaders_ok env hsend h hs (by rw [s5]; intro _ hx; cases hx) hfit, ?_, ?_⟩
  · rw [sentHeaders_ok env hsend g hgs (by rw [s6]; intro _ hx; cases hx) hfitg, s1, s4]
  · refine ⟨?_, rfl, s3, s4, s5, s6, ?_, s8, s9, ?_, ?_, ?_⟩
    · simp [sentState, s1]
    · simp [sentState, s7, s1]
    · intro hx; cases hx
    · rw [headSocket, hs] at s11
      simp [sentState, headSocket, s11]
    · simp only [sentState, b2, s1]
      exact List.prefix_refl _

/-- A stream operation after the headers are sent: on the HEAD response it leaves the
socket alone, on the GET response it may only add to the socket. -/
theorem sim_stream_step (sock0 : Str) (h g : HttpResponse) (s : HeadGetSim sock0 h g)
    (hsent : h.headersSent_ = true) (hs2 : HttpResponseStream) (gres : Res HttpResponseStream)
    (a1 : hs2.socket_ = h.Stream.socket_) (a2 : hs2.chunked_ = h.Stream.chunked_)
    (a3 : hs2.maxBuffSize_ = h.Stream.maxBuffSize_) (a4 : hs2.sendContent_ = false)
    (b1 : gres.st.chunked_ = g.Stream.chunked_)
    (b2 : gres.st.maxBuffSize_ = g.Stream.maxBuffSize_)
    (b3 : g.Stream.socket_ <+: gres.st.socket_) :
    HeadGetOutcome sock0 (HttpResponse.onStream h ⟨hs2, none⟩) (HttpResponse.onStream g gres) := by
  obtain ⟨s1, s2, s3, s4, s5, s6, s7, s8, s9, s10, s11, s12⟩ := s
  have hsock : hs2.socket_ = headSocket sock0 { h with Stream := hs2 } := by
    rw [a1, s11]; rfl
  have hpre : hs2.socket_ <+: gres.st.socket_ := a1 ▸ s12.trans b3
  cases he : gres.err with
  | none =>
    refine Or.inl ⟨rfl, he, s1, s2, s3, s4, s5, s6, ?_, ?_, a4, ?_, hsock, hpre⟩
    · simp [HttpResponse.onStream, a2, b1, s7]
    · simp [HttpResponse.onStream, a3, b2, s8]
    · intro hx
      simp only [HttpResponse.onStream, hsent] at hx
      cases hx
  | some e =>
    refine Or.inr ⟨?_, ⟨s1, s2, hsock, hpre⟩, fun _ => ⟨hsent, a4⟩⟩
    simp [HttpResponse.onStream, he]

theorem sim_flush (env : Env) (hsend : env.sendLimit = none) (sock0 : Str) (h g : HttpResponse)
    (s : HeadGetSim sock0 h g)
    (hfit : h.headersSent_ = false → (HttpResponseHeader.getContent
      { h.Header with Headers := sentHeaderMap env h.Header h.serverName_ }).length < 2 ^ 31) :
    HeadGetOutcome sock0 (h.flush env) (g.flush env) := by
  have key : ∀ h2 g2 : HttpResponse, HeadGetSim sock0 h2 g2 → h2.headersSent_ = true →
      HeadGetOutcome sock0 (HttpResponse.onStream h2 (h2.Stream.flush env))
        (HttpResponse.onStream g2 (g2.Stream.flush env)) := by
    intro h2 g2 s2 hsent
    have hsc := s2.2.2.2.2.2.2.2.2.1
    obtain ⟨f1, -, f3, -, f5⟩ := stream_flush_frame env g2.Stream
    rw [head_stream_flush env _ hsc]
    exact sim_stream_step sock0 h2 g2 s2 hsent _ _ rfl rfl rfl hsc f1 f3 f5
  cases hs : h.headersSent_
  · obtain ⟨e1, e2, e3⟩ := sim_sentState env hsend sock0 h g s hs (hfit hs)
    have hgs : g.headersSent_ = false := s.2.1 ▸ hs
    simp only [HttpResponse.flush, hs, hgs, e1, e2, Res.andThen, Bool.not_false, if_true]
    exact key _ _ e3 rfl
  · have hgs : g.headersSent_ = true := s.2.1 ▸ hs
    rw [flush_sent env h hs, flush_sent env g hgs]
    exact key _ _ s hs

theorem sim_write (env : Env) (hsend : env.sendLimit = none) (sock0 : Str) (w : Str)
    (h g : HttpResponse) (s : HeadGetSim sock0 h g)
    (hfit : h.headersSent_ = false → sendsHeaders (Call.write w) h = true →
      (HttpResponseHeader.getContent
        { h.Header with Headers := sentHeaderMap env h.Header h.serverName_ }).length < 2 ^ 31) :
    HeadGetOutcome sock0 (h.write env w) (g.write env w) := by
  have key : ∀ h2 g2 : HttpResponse, HeadGetSim sock0 h2 g2 → h2.headersSent_ = true →
      HeadGetOutcome sock0 (HttpResponse.onStream h2 (h2.Stream.write env w))
        (HttpResponse.onStream g2 (g2.Stream.write env w)) := by
    intro h2 g2 s2 hsent
    have hsc := s2.2.2.2.2.2.2.2.2.1
    obtain ⟨f1, -, f3, -, f5⟩ := stream_write_frame env g2.Stream w
    rw [head_stream_write env _ _ hsc]
    exact sim_stream_step sock0 h2 g2 s2 hsent _ _ rfl rfl rfl hsc f1 f3 f5
  have hfin := s.2.2.1
  cases hf : h.finished_
  · have hgf : g.finished_ = false := hfin ▸ hf
    cases hs : h.headersSent_
    · have hgs : g.headersSent_ = false := s.2.1 ▸ hs
      obtain ⟨b1, b2⟩ := s.2.2.2.2.2.2.2.2.2.1 hs
      have hwb : g.Stream.willBeFlushed w.length = h.Stream.willBeFlushed w.length := by
        simp [HttpResponseStream.willBeFlushed, b1, s.2.2.2.2.2.2.2.1]
      cases hw : h.Stream.willBeFlushed w.length
      · rw [write_unsent env h w hs hf hw, write_unsent env g w hgs hgf (hwb.trans hw)]
        obtain ⟨s1, s2, s3, s4, s5, s6, s7, s8, s9, s10, s11, s12⟩ := s
        refine Or.inl ⟨rfl, rfl, s1, s2, s3, s4, s5, s6, s7, s8, s9, ?_, s11, s12⟩
        intro _
        exact ⟨by simp [b1], b2⟩
      · obtain ⟨e1, e2, e3⟩ := sim_sentState env hsend sock0 h g s hs
          (hfit hs (by simp [sendsHeaders, hf, hw]))
        rw [write_sending env h w _ hs hf hw e1,
          write_sending env g w _ hgs hgf (hwb.trans hw) e2]
        exact key _ _ e3 rfl
    · have hgs : g.headersSent_ = true := s.2.1 ▸ hs
      rw [write_sent env h w hs hf, write_sent env g w hgs hgf]
      exact key _ _ s hs
  · have hgf : g.finished_ = true := hfin ▸ hf
    simp only [HttpResponse.write, hf, hgf, if_true]
    exact Or.inr ⟨by simp, sim_fin sock0 h g s, fun hx => by simp at hx⟩

/-- The part of `end ()` after the flush, on a HEAD response: nothing is sent. -/
theorem head_end_tail (env : Env) (h : HttpResponse) (hsc : h.Stream.sendContent_ = false) :
    ((HttpResponse.onStream h (h.Stream.end env)).andThen fun r3 =>
        (HttpResponse.onStream r3 (r3.Stream.writeDirectly env [])).andThen fun r4 =>
          (⟨{ r4 with finished_ := true }, none⟩ : Res HttpResponse)).st.Header = h.Header ∧
    ((HttpResponse.onStream h (h.Stream.end env)).andThen fun r3 =>
        (HttpResponse.onStream r3 (r3.Stream.writeDirectly env [])).andThen fun r4 =>
          (⟨{ r4 with finished_ := true }, none⟩ : Res HttpResponse)).st.headersSent_ =
      h.headersSent_ ∧
    ((HttpResponse.onStream h (h.Stream.end env)).andThen fun r3 =>
        (HttpResponse.onStream r3 (r3.Stream.writeDirectly env [])).andThen fun r4 =>
          (⟨{ r4 with finished_ := true }, none⟩ : Res HttpResponse)).st.Stream = h.Stream := by
  rw [head_stream_end env _ hsc]
  simp only [HttpResponse.onStream, andThen_ok, stream_writeDirectly_nil]
  cases ha : env.asserts <;> cases hc : h.Stream.chunked_ <;> simp [Res.andThen]

/-- The part of `end ()` after the flush keeps a HEAD and a GET response in step. -/
theorem sim_end_tail (env : Env) (hsend : env.sendLimit = none) (sock0 : Str)
    (h g : HttpResponse)
    (s : HeadGetSim sock0 h g) (hsent : h.headersSent_ = true) :
    HeadGetOutcome sock0
      ((HttpResponse.onStream h (h.Stream.end env)).andThen fun r3 =>
        (HttpResponse.onStream r3 (r3.Stream.writeDirectly env [])).andThen fun r4 =>
          ⟨{ r4 with finished_ := true }, none⟩)
      ((HttpResponse.onStream g (g.Stream.end env)).andThen fun r3 =>
        (HttpResponse.onStream r3 (r3.Stream.writeDirectly env [])).andThen fun r4 =>
          ⟨{ r4 with finished_ := true }, none⟩) := by
  obtain ⟨s1, s2, s3, s4, s5, s6, s7, s8, s9, s10, s11, s12⟩ := s
  have hgs : g.headersSent_ = true := s2 ▸ hsent
  have hgc : g.Stream.chunked_ = h.Stream.chunked_ := s7.symm
  have hsock : h.Stream.socket_ = headSocket sock0 { h with finished_ := true } := by
    rw [s11]; rfl
  rw [head_stream_end env _ s9, stream_end_ok env hsend g.Stream]
  simp only [HttpResponse.onStream, andThen_ok, stream_writeDirectly_nil]
  cases ha : env.asserts <;> cases hc : h.Stream.chunked_ <;> cases hgsc : g.Stream.sendContent_
  all_goals
    simp only [Res.andThen, hc, hgc, Bool.and_self, Bool.and_true, Bool.and_false,
      Bool.true_and, Bool.false_and, Bool.false_eq_true, if_true, if_false, List.append_nil]
  all_goals
    first
      | (refine Or.inl ⟨rfl, rfl, s1, s2, rfl, s4, s5, s6, ?_, s8, s9,
          fun hx => Bool.noConfusion (hsent.symm.trans hx), hsock, ?_⟩
         · exact hc
         · first | exact s12 | exact s12.trans (List.prefix_append _ _))
      | exact Or.inr ⟨fun hx => Option.noConfusion hx, ⟨s1, s2, s11, s12⟩,
          fun hx => Option.noConfusion hx⟩
      | exact Or.inr ⟨fun hx => Option.noConfusion hx,
          ⟨s1, s2, s11, s12.trans (List.prefix_append _ _)⟩, fun hx => Option.noConfusion hx⟩

theorem sim_setHeader (sock0 : Str) (h g : HttpResponse) (s : HeadGetSim sock0 h g)
    (hs : h.headersSent_ = false) (hdr : HttpResponseHeader) :
    HeadGetSim sock0 { h with Header := hdr } { g with Header := hdr } := by
  obtain ⟨s1, s2, s3, s4, s5, s6, s7, s8, s9, s10, s11, s12⟩ := s
  refine ⟨rfl, s2, s3, s4, s5, s6, s7, s8, s9, s10, ?_, s12⟩
  rw [s11]
  simp [headSocket, hs]

theorem flush_ok_sent (env : Env) (r : HttpResponse)
    (hm : env.asserts = true → r.httpMethod_ ≠ HttpMethodType.Unknown)
    (h : (r.flush env).err = none) :
    (r.flush env).st.headersSent_ = true := by
  cases hs : r.headersSent_
  · rcases (call_sends env Call.flush r hs hm rfl).2 with h2 | h2
    · exact absurd h h2
    · exact h2
  · rw [flush_sent env r hs]; exact hs

theorem sim_end (env : Env) (hsend : env.sendLimit = none) (sock0 : Str) (h g : HttpResponse)
    (s : HeadGetSim sock0 h g)
    (hfit : h.headersSent_ = false → (HttpResponseHeader.getContent
      { h.Header with Headers := (sentHeaderMap env
        (h.Header.setContentLength h.Stream.getBufferContentSize) h.serverName_) }).length <
          2 ^ 31) :
    HeadGetOutcome sock0 (h.end env) (g.end env) := by
  have key : ∀ h1 g1 : HttpResponse, HeadGetSim sock0 h1 g1 →
      (h1.headersSent_ = false → (HttpResponseHeader.getContent
        { h1.Header with Headers := sentHeaderMap env h1.Header h1.serverName_ }).length <
          2 ^ 31) →
      HeadGetOutcome sock0
        ((h1.flush env).andThen fun r2 =>
          (HttpResponse.onStream r2 (r2.Stream.end env)).andThen fun r3 =>
            (HttpResponse.onStream r3 (r3.Stream.writeDirectly env [])).andThen fun r4 =>
              ⟨{ r4 with finished_ := true }, none⟩)
        ((g1.flush env).andThen fun r2 =>
          (HttpResponse.onStream r2 (r2.Stream.end env)).andThen fun r3 =>
            (HttpResponse.onStream r3 (r3.Stream.writeDirectly env [])).andThen fun r4 =>
              ⟨{ r4 with finished_ := true }, none⟩) := by
    intro h1 g1 s1 hfit1
    have hm1 : env.asserts = true → h1.httpMethod_ ≠ HttpMethodType.Unknown := by
      rw [s1.2.2.2.2.1]; intro _ hx; cases hx
    rcases sim_flush env hsend sock0 h1 g1 s1 hfit1 with ⟨e1, e2, s2⟩ | ⟨e2, f, imp⟩
    · have hsent := flush_ok_sent env h1 hm1 e1
      have t := sim_end_tail env hsend sock0 _ _ s2 hsent
      have eh : ∀ f : HttpResponse → Res HttpResponse,
          (h1.flush env).andThen f = f (h1.flush env).st := by
        intro f; simp only [Res.andThen, e1]
      have eg : ∀ f : HttpResponse → Res HttpResponse,
          (g1.flush env).andThen f = f (g1.flush env).st := by
        intro f; simp only [Res.andThen, e2]
      rw [eh, eg]
      exact t
    · obtain ⟨e, he⟩ := Option.ne_none_iff_exists.1 e2
      have eg : ∀ f : HttpResponse → Res HttpResponse, (g1.flush env).andThen f = g1.flush env := by
        intro f; simp only [Res.andThen, ← he]
      rw [eg]
      cases hx : (h1.flush env).err with
      | some e3 =>
        have eh : ∀ f : HttpResponse → Res HttpResponse,
            (h1.flush env).andThen f = h1.flush env := by
          intro f; simp only [Res.andThen, hx]
        rw [eh]
        exact Or.inr ⟨e2, f, fun hy => by rw [hx] at hy; cases hy⟩
      | none =>
        obtain ⟨i1, i2⟩ := imp hx
        obtain ⟨t1, t2, t3⟩ := head_end_tail env (h1.flush env).st i2
        obtain ⟨f1, f2, f3, f4⟩ := f
        have eh : ∀ f : HttpResponse → Res HttpResponse,
            (h1.flush env).andThen f = f (h1.flush env).st := by
          intro f; simp only [Res.andThen, hx]
        rw [eh]
        refine Or.inr ⟨e2, ⟨t1.trans f1, t2.trans f2, ?_, ?_⟩, fun _ => ⟨t2.trans i1, ?_⟩⟩
        · rw [t3, f3]; simp only [headSocket, t1, t2]
        · rw [t3]; exact f4
        · rw [t3]; exact i2
  cases hs : h.headersSent_
  · have hgs : g.headersSent_ = false := s.2.1 ▸ hs
    obtain ⟨b1, -⟩ := s.2.2.2.2.2.2.2.2.2.1 hs
    rw [end_eq, end_eq]
    have c1 : (!h.headersSent_) = true := by rw [hs]; rfl
    have c2 : (!g.headersSent_) = true := by rw [hgs]; rfl
    rw [if_pos c1, if_pos c2]
    have := sim_setHeader sock0 h g s hs (h.Header.setContentLength h.Stream.getBufferContentSize)
    have e : g.Header.setContentLength g.Stream.getBufferContentSize =
        h.Header.setContentLength h.Stream.getBufferContentSize := by
      rw [s.1]; simp [HttpResponseStream.getBufferContentSize, b1]
    rw [e]
    exact key _ _ this (fun _ => hfit hs)
  · have hgs : g.headersSent_ = true := s.2.1 ▸ hs
    have c1 : ¬ (!h.headersSent_) = true := by rw [hs]; simp
    have c2 : ¬ (!g.headersSent_) = true := by rw [hgs]; simp
    rw [end_eq, end_eq, if_neg c1, if_neg c2]
    exact key _ _ s (fun hx => by rw [hs] at hx; cases hx)

theorem sim_writeCompleteResponse (env : Env) (hsend : env.sendLimit = none) (sock0 : Str)
    (resp : Str) (h g : HttpResponse)
    (s : HeadGetSim sock0 h g)
    (hfit : h.headersSent_ = false → h.finished_ = false → (HttpResponseHeader.getContent
      { h.Header with Headers := (sentHeaderMap env
        (h.Header.setContentLength resp.length) h.serverName_) }).length < 2 ^ 31) :
    HeadGetOutcome sock0 (h.writeCompleteResponse env resp) (g.writeCompleteResponse env resp) := by
  have hfin := sim_fin sock0 h g s
  have s2 := s.2.1
  have s3 := s.2.2.1
  cases hs : h.headersSent_
  · have hgs : g.headersSent_ = false := s2 ▸ hs
    cases hf : h.finished_
    · have hgf : g.finished_ = false := s3 ▸ hf
      have s1 := sim_setHeader sock0 h g s hs (h.Header.setContentLength resp.length)
      obtain ⟨e1, e2, e3⟩ := sim_sentState env hsend sock0 _ _ s1 hs (hfit hs hf)
      have eh : h.writeCompleteResponse env resp =
          (HttpResponse.sentHeaders env
            { h with Header := h.Header.setContentLength resp.length }).andThen fun r2 =>
              (HttpResponse.onStream { r2 with Stream := r2.Stream.clear }
                (r2.Stream.clear.writeDirectly env resp)).andThen fun r4 =>
                  ⟨{ r4 with finished_ := true }, none⟩ := by
        simp [HttpResponse.writeCompleteResponse, hs, hf]
      have eg : g.writeCompleteResponse env resp =
          (HttpResponse.sentHeaders env
            { g with Header := h.Header.setContentLength resp.length }).andThen fun r2 =>
              (HttpResponse.onStream { r2 with Stream := r2.Stream.clear }
                (r2.Stream.clear.writeDirectly env resp)).andThen fun r4 =>
                  ⟨{ r4 with finished_ := true }, none⟩ := by
        simp [HttpResponse.writeCompleteResponse, hgs, hgf, s.1]
      rw [eh, eg, e1, e2, andThen_ok, andThen_ok]
      obtain ⟨t1, t2, t3, t4, t5, t6, t7, t8, t9, t10, t11, t12⟩ := e3
      have hsock : (sentState { h with Header := h.Header.setContentLength resp.length }
          (sentHeaderMap env (h.Header.setContentLength resp.length) h.serverName_)).Stream.socket_ =
          headSocket sock0 { sentState { h with Header := h.Header.setContentLength resp.length }
            (sentHeaderMap env (h.Header.setContentLength resp.length) h.serverName_) with
            finished_ := true } := by
        rw [t11]; rfl
      have a9 : (sentState { h with Header := h.Header.setContentLength resp.length }
          (sentHeaderMap env (h.Header.setContentLength resp.length)
            h.serverName_)).Stream.clear.sendContent_ = false := t9
      obtain ⟨w1, w2, w3, w4, w5, w6⟩ := stream_writeDirectly_frame env resp
        (sentState { g with Header := h.Header.setContentLength resp.length }
          (sentHeaderMap env (h.Header.setContentLength resp.length) h.serverName_)).Stream.clear
      rw [head_stream_writeDirectly env resp _ a9]
      have hcl : ((sentState { h with Header := h.Header.setContentLength resp.length }
          (sentHeaderMap env (h.Header.setContentLength resp.length)
            h.serverName_)).Stream.clear).chunked_ = false := rfl
      simp only [hcl, Bool.and_false, Bool.false_eq_true, if_false]
      cases hx : HttpResponseStream.writeDirectly env resp (sentState
          { g with Header := h.Header.setContentLength resp.length }
          (sentHeaderMap env (h.Header.setContentLength resp.length)
            h.serverName_)).Stream.clear with
      | mk gst gerr =>
        rw [hx] at w1 w2 w3 w4 w5 w6
        simp only at w1 w2 w3 w4 w5 w6
        have hpre : (sentState { h with Header := h.Header.setContentLength resp.length }
            (sentHeaderMap env (h.Header.setContentLength resp.length)
              h.serverName_)).Stream.socket_ <+: gst.socket_ := t12.trans w6
        cases gerr with
        | none =>
          simp only [HttpResponse.onStream, Res.andThen]
          refine Or.inl ⟨rfl, rfl, t1, t2, rfl, t4, t5, t6, ?_, ?_, t9,
            fun hx => Bool.noConfusion hx, hsock, hpre⟩
          · exact w1.symm
          · exact t8.trans w3.symm
        | some e =>
          simp only [HttpResponse.onStream, Res.andThen]
          refine Or.inr ⟨fun hx => Option.noConfusion hx, ⟨t1, t2, hsock, hpre⟩,
            fun _ => ⟨rfl, t9⟩⟩
    · have hgf : g.finished_ = true := s3 ▸ hf
      cases ha : env.asserts <;>
        simp only [HttpResponse.writeCompleteResponse, hs, hgs, hf, hgf, ha, Bool.and_true,
          Bool.and_false, Bool.true_and, Bool.false_and, Bool.false_eq_true, if_true, if_false]
      all_goals
        exact Or.inr ⟨fun hx => Option.noConfusion hx, hfin, fun hx => Option.noConfusion hx⟩
  · have hgs : g.headersSent_ = true := s2 ▸ hs
    cases ha : env.asserts <;> cases hf : h.finished_ <;>
      simp only [HttpResponse.writeCompleteResponse, hs, hgs, hf, s3 ▸ hf, ha, Bool.and_true,
        Bool.and_false, Bool.true_and, Bool.false_and, Bool.false_eq_true, if_true, if_false]
    all_goals
      exact Or.inr ⟨fun hx => Option.noConfusion hx, hfin, fun hx => Option.noConfusion hx⟩

theorem sim_call (env : Env) (hsend : env.sendLimit = none) (sock0 : Str) (c : Call)
    (h g : HttpResponse) (s : HeadGetSim sock0 h g)
    (hfit : h.headersSent_ = false → sendsHeaders c h = true →
      (HttpResponseHeader.getContent
        { (headerAtSend c h) with
          Headers := sentHeaderMap env (headerAtSend c h) h.serverName_ }).length < 2 ^ 31) :
    HeadGetOutcome sock0 (h.call env c) (g.call env c) := by
  cases c with
  | write content => exact sim_write env hsend sock0 content h g s hfit
  | flush => exact sim_flush env hsend sock0 h g s (fun hs => hfit hs rfl)
  | finish => exact sim_end env hsend sock0 h g s (fun hs => hfit hs rfl)
  | writeCompleteResponse response =>
    exact sim_writeCompleteResponse env hsend sock0 response h g s
      (fun hs hf => hfit hs (by simp [sendsHeaders, hf]))

/-- Once its headers are sent, a HEAD response sends nothing more and keeps its header. -/
theorem head_call_frame (env : Env) (c : Call) (h : HttpResponse)
    (hsent : h.headersSent_ = true) (hsc : h.Stream.sendContent_ = false) :
    (h.call env c).st.Header = h.Header ∧ (h.call env c).st.headersSent_ = true ∧
    (h.call env c).st.Stream.socket_ = h.Stream.socket_ ∧
    (h.call env c).st.Stream.sendContent_ = false := by
  refine ⟨call_keeps_header env c h hsent, call_keeps_headersSent env c h hsent, ?_,
    (call_sent_stream_frame env c h hsent).2.1.trans hsc⟩
  cases c with
  | write content =>
    cases hf : h.finished_
    · rw [HttpResponse.call, write_sent env h content hsent hf, head_stream_write env _ _ hsc]
      rfl
    · simp [HttpResponse.call, HttpResponse.write, hf]
  | flush =>
    rw [HttpResponse.call, flush_sent env h hsent, head_stream_flush env _ hsc]
    rfl
  | finish =>
    rw [HttpResponse.call, end_sent env h hsent, head_stream_flush env _ hsc]
    obtain ⟨-, -, t3⟩ := head_end_tail env h hsc
    simp only [HttpResponse.onStream, andThen_ok] at t3 ⊢
    rw [t3]
  | writeCompleteResponse response =>
    cases ha : env.asserts <;> cases hf : h.finished_ <;>
      simp [HttpResponse.call, HttpResponse.writeCompleteResponse, ha, hf, hsent]

theorem head_run_frame (env : Env) (cs : List Call) :
    ∀ h : HttpResponse, h.headersSent_ = true → h.Stream.sendContent_ = false →
      (h.run env cs).st.Header = h.Header ∧ (h.run env cs).st.headersSent_ = true ∧
      (h.run env cs).st.Stream.socket_ = h.Stream.socket_ := by
  induction cs with
  | nil => intro h hsent _; exact ⟨rfl, hsent, rfl⟩
  | cons c cs ih =>
    intro h hsent hsc
    obtain ⟨f1, f2, f3, f4⟩ := head_call_frame env c h hsent hsc
    rw [run_cons]
    cases he : (h.call env c).err with
    | none =>
      obtain ⟨i1, i2, i3⟩ := ih _ f2 f4
      simp only [Res.andThen, he]
      exact ⟨i1.trans f1, i2, i3.trans f3⟩
    | some e =>
      simp only [Res.andThen, he]
      exact ⟨f1, f2, f3⟩

theorem sim_run (env : Env) (hsend : env.sendLimit = none) (sock0 : Str) (cs : List Call) :
    ∀ h g : HttpResponse, HeadGetSim sock0 h g →
      ((h.run env cs).st.Header.getContent).length < 2 ^ 31 →
      HeadGetFin sock0 (h.run env cs).st (g.run env cs).st := by
  induction cs with
  | nil => intro h g s _; exact sim_fin sock0 h g s
  | cons c cs ih =>
    intro h g s hhdr
    have hm : env.asserts = true → h.httpMethod_ ≠ HttpMethodType.Unknown := by
      rw [s.2.2.2.2.1]; intro _ hx; cases hx
    have hfit : h.headersSent_ = false → sendsHeaders c h = true →
        (HttpResponseHeader.getContent
          { (headerAtSend c h) with
            Headers := sentHeaderMap env (headerAtSend c h) h.serverName_ }).length < 2 ^ 31 := by
      intro hs ht
      rw [run_header_of_send env c cs h hs hm ht] at hhdr
      exact hhdr
    rw [run_cons] at hhdr ⊢
    rw [run_cons]
    rcases sim_call env hsend sock0 c h g s hfit with ⟨e1, e2, s2⟩ | ⟨e2, f, imp⟩
    · simp only [Res.andThen, e1, e2] at hhdr ⊢
      exact ih _ _ s2 hhdr
    · obtain ⟨e, he⟩ := Option.ne_none_iff_exists.1 e2
      have eg : (g.call env c).andThen (HttpResponse.run env cs) = g.call env c := by
        simp only [Res.andThen, ← he]
      rw [eg]
      cases hx : (h.call env c).err with
      | some e3 =>
        simp only [Res.andThen, hx]
        exact f
      | none =>
        obtain ⟨i1, i2⟩ := imp hx
        obtain ⟨t1, t2, t3⟩ := head_run_frame env cs _ i1 i2
        obtain ⟨f1, f2, f3, f4⟩ := f
        simp only [Res.andThen, hx]
        refine ⟨t1.trans f1, (t2.trans i1.symm).trans f2, ?_, ?_⟩
        · rw [t3, f3]; simp only [headSocket, t1, t2, i1]
        · rw [t3]; exact f4

/-- C5: on a connection that does not fail, for every sequence of `write`, `flush`, `end`
and `writeCompleteResponse` calls on a response with unsent headers, when the header block
that the HEAD response ends with is shorter than 2^31 bytes (the length that
`writeToSocket` casts to `int`), the HEAD response ends with the same header (status and
header map, so the same `Content-Length` or `Transfer-Encoding` entry) and the same
headers-sent flag as the GET response driven by the same calls; the socket of the HEAD
response holds the serialised header block and nothing else, and these bytes are the first
bytes on the socket of the GET response. -/
theorem C5_head_same_header_block_no_body (env : Env) (r : HttpResponse) (cs : List Call)
    (hs : r.headersSent_ = false)
    (hsend : env.sendLimit = none)
    (hhdr : (((r.setHttpMethod HttpMethodType.Head).run env cs).st.Header.getContent).length <
      2 ^ 31) :
    ((r.setHttpMethod HttpMethodType.Head).run env cs).st.Header =
      ((r.setHttpMethod HttpMethodType.Get).run env cs).st.Header ∧
    ((r.setHttpMethod HttpMethodType.Head).run env cs).st.headersSent_ =
      ((r.setHttpMethod HttpMethodType.Get).run env cs).st.headersSent_ ∧
    ((r.setHttpMethod HttpMethodType.Head).run env cs).st.Stream.socket_ =
      r.Stream.socket_ ++
        (if ((r.setHttpMethod HttpMethodType.Head).run env cs).st.headersSent_ then
          ((r.setHttpMethod HttpMethodType.Head).run env cs).st.Header.getContent
        else []) ∧
    ((r.setHttpMethod HttpMethodType.Head).run env cs).st.Stream.socket_ <+:
      ((r.setHttpMethod HttpMethodType.Get).run env cs).st.Stream.socket_ := by
  have s : HeadGetSim r.Stream.socket_ (r.setHttpMethod HttpMethodType.Head)
      (r.setHttpMethod HttpMethodType.Get) := by
    refine ⟨rfl, rfl, rfl, rfl, rfl, rfl, rfl, rfl, rfl, fun _ => ⟨rfl, rfl⟩, ?_,
      List.prefix_refl _⟩
    simp [headSocket, HttpResponse.setHttpMethod, HttpResponseStream.setSendContent, hs]
  exact sim_run env hsend r.Stream.socket_ cs _ _ s hhdr

/-! ## The claims at concrete inputs -/

theorem C1_chunked_body_decodes_witness :
    ∃ (cs : List Str) (body : Str),
      (sampleResponse.run (sampleEnv false)
        ([lit "abcde", lit "xy"].map Call.write ++ [Call.finish])).st.Stream.socket_ =
        sampleResponse.Stream.socket_ ++
          (sampleResponse.run (sampleEnv false)
            ([lit "abcde", lit "xy"].map Call.write ++ [Call.finish])).st.Header.getContent ++
          body ∧
      body = Http11.chunkedBody cs ∧
      (∀ c ∈ cs, 1 ≤ c.length ∧ c.length ≤ sampleResponse.Stream.maxChunkSize_) ∧
      cs.flatten = [lit "abcde", lit "xy"].flatten ∧
      Http11.decodeChunked body = some [lit "abcde", lit "xy"].flatten ∧
      ((sampleEnv false).asserts = false →
        (sampleResponse.run (sampleEnv false)
          ([lit "abcde", lit "xy"].map Call.write ++ [Call.finish])).err = none ∧
        (sampleResponse.run (sampleEnv false)
          ([lit "abcde", lit "xy"].map Call.write ++ [Call.finish])).st.finished_ = true) :=
  C1_chunked_body_decodes (sampleEnv false) sampleResponse [lit "abcde", lit "xy"]
    rfl rfl rfl rfl rfl (by decide) (by decide) (by decide) rfl (by decide) (by decide)

theorem C2_fixed_length_content_length_witness :
    (sampleResponse.run (sampleEnv true)
      ([lit "a", lit "bc"].map Call.write ++ [Call.finish])).err = none ∧
    mapFind (sampleResponse.run (sampleEnv true)
      ([lit "a", lit "bc"].map Call.write ++ [Call.finish])).st.Header.Headers
        detail.HeaderContentLength = some (lit "3") :=
  have h := C2_fixed_length_content_length (sampleEnv true) sampleResponse [lit "a", lit "bc"]
    rfl rfl rfl rfl rfl (by decide) (fun _ => List.not_mem_nil _) (by decide) rfl (by decide)
    (by decide)
  ⟨h.1, h.2.2.2.1⟩

theorem C3_chunked_iff_no_content_length_witness :
    (sampleResponse.call (sampleEnv true) Call.flush).st.Stream.chunked_ = true ∧
    lit "Transfer-Encoding: chunked\r\n" <:+:
      (sampleResponse.call (sampleEnv true) Call.flush).st.Header.getContent :=
  have h := C3_chunked_iff_no_content_length (sampleEnv true) sampleResponse Call.flush
    rfl rfl rfl (by decide) (Or.inl rfl) rfl (by decide)
  ⟨h.2.1.2 (by decide), (h.2.2.2.1 (by decide)).2⟩

/-- C4: `end ()` is not rejected on a finished response.  After `writeCompleteResponse` the
response is finished, a following `write` fails with "Response already sent", but a
following `end ()` returns normally; and in a build without assertions a second `end ()`
on a finished chunked response returns normally and sends the last chunk `0 CRLF CRLF` a
second time. -/
theorem C4_end_on_finished_response_is_not_rejected :
    (sampleResponse.run (sampleEnv true) [Call.writeCompleteResponse (lit "hi")]).st.finished_
      = true ∧
    (sampleResponse.run (sampleEnv true)
      [Call.writeCompleteResponse (lit "hi"), Call.write (lit "x")]).err
      = some Err.response_already_sent ∧
    (sampleResponse.run (sampleEnv true)
      [Call.writeCompleteResponse (lit "hi"), Call.finish]).err = none ∧
    (sampleResponse.run (sampleEnv false) [Call.write (lit "abcde"), Call.finish]).st.finished_
      = true ∧
    (sampleResponse.run (sampleEnv false)
      [Call.write (lit "abcde"), Call.finish, Call.finish]).err = none ∧
    (sampleResponse.run (sampleEnv false)
      [Call.write (lit "abcde"), Call.finish, Call.finish]).st.Stream.socket_ =
      (sampleResponse.run (sampleEnv false)
        [Call.write (lit "abcde"), Call.finish]).st.Stream.socket_ ++ lit "0\r\n\r\n" := by
  decide

theorem C5_head_same_header_block_no_body_witness :
    ((sampleResponse.setHttpMethod HttpMethodType.Head).run (sampleEnv true)
      [Call.write (lit "abcde"), Call.finish]).st.Stream.socket_ <+:
    ((sampleResponse.setHttpMethod HttpMethodType.Get).run (sampleEnv true)
      [Call.write (lit "abcde"), Call.finish]).st.Stream.socket_ :=
  (C5_head_same_header_block_no_body (sampleEnv true) sampleResponse
    [Call.write (lit "abcde"), Call.finish] rfl rfl (by decide)).2.2.2

/-! ## The request side at concrete inputs -/

/-- C6: the over-read prefix is handed out without regard to the content length.  With a
content length of 1 and the over-read prefix `abc`, one `read` into a buffer of 3 bytes
returns 3 bytes and leaves `loadedContentLength_ = 3`, above `ContentLength = 1`; `isRead ()`
is false and stays false, since the next `read` asks `recv` for a negative size. -/
theorem C6_read_of_prefix_exceeds_content_length :
    (HttpRequestStream.init (lit "abc") 1 HttpRequestStream.create).ContentLength = 1 ∧
    (HttpRequestStream.read 3 none
      (HttpRequestStream.init (lit "abc") 1 HttpRequestStream.create)).1.toOption.map
        HttpRequestStream.ReadResult.returned = some 3 ∧
    (HttpRequestStream.read 3 none
      (HttpRequestStream.init (lit "abc") 1 HttpRequestStream.create)).2.loadedContentLength_
        = 3 ∧
    (HttpRequestStream.read 3 none
      (HttpRequestStream.init (lit "abc") 1 HttpRequestStream.create)).2.isRead = false := by
  decide

/-- C7: the header map is looked up by the exact spelling.  After `load` of a block with
the line `host: example.org`, the map holds the name as received, `hasHeader ("Host")` is
false and `getHeader ("Host")` is empty, although `Host` equals `host` ignoring case. -/
theorem C7_header_lookup_is_case_sensitive :
    (HttpRequestHeader.load true (lit "GET / HTTP/1.1\r\nhost: example.org")
      HttpRequestHeader.create).err = none ∧
    (HttpRequestHeader.load true (lit "GET / HTTP/1.1\r\nhost: example.org")
      HttpRequestHeader.create).st.Headers = [(lit "host", lit "example.org")] ∧
    util.equals (lit "Host") (lit "host") = true ∧
    (HttpRequestHeader.load true (lit "GET / HTTP/1.1\r\nhost: example.org")
      HttpRequestHeader.create).st.hasHeader (lit "Host") = false ∧
    (HttpRequestHeader.load true (lit "GET / HTTP/1.1\r\nhost: example.org")
      HttpRequestHeader.create).st.getHeader (lit "Host") = [] ∧
    (HttpRequestHeader.load true (lit "GET / HTTP/1.1\r\nhost: example.org")
      HttpRequestHeader.create).st.getHeader (lit "host") = lit "example.org" := by
  decide

/-- C8: the empty line left by a trailing CRLF is not ignored.  The block
`GET / HTTP/1.1 CRLF Host: x CRLF` has no non-empty line without a colon, yet `load` fails
with `request_processing_error`; without the trailing CRLF it returns normally. -/
theorem C8_trailing_crlf_fails_load :
    algo.split (fun c => decide (c = 13 ∨ c = 10)) (lit "GET / HTTP/1.1\r\nHost: x\r\n") =
      [lit "GET / HTTP/1.1", lit "Host: x", []] ∧
    (HttpRequestHeader.load true (lit "GET / HTTP/1.1\r\nHost: x\r\n")
      HttpRequestHeader.create).err = some Err.request_processing_error ∧
    (HttpRequestHeader.load true (lit "GET / HTTP/1.1\r\nHost: x")
      HttpRequestHeader.create).err = none := by
  decide

/-! ## Percent-encoding and decoding -/

theorem findIn_afterFirst (d : Nat) (s : Str) : ∀ i : Nat,
    (util.findIn s d i = none ∧ Spec.afterFirst d s = none ∧ Spec.beforeFirst d s = s) ∨
    (∃ p, util.findIn s d i = some (i + p) ∧ p < s.length ∧
      Spec.afterFirst d s = some (s.drop (p + 1)) ∧ Spec.beforeFirst d s = s.take p) := by
  induction s with
  | nil => intro i; exact Or.inl ⟨rfl, rfl, rfl⟩
  | cons c cs ih =>
    intro i
    by_cases h : c = d
    · refine Or.inr ⟨0, ?_, by simp, ?_, ?_⟩ <;>
        simp [util.findIn, Spec.afterFirst, Spec.beforeFirst, h]
    · rcases ih (i + 1) with ⟨h1, h2, h3⟩ | ⟨p, h1, h2, h3, h4⟩
      · exact Or.inl ⟨by simp [util.findIn, h, h1], by simp [Spec.afterFirst, h, h2],
          by simp [Spec.beforeFirst, h, h3]⟩
      · refine Or.inr ⟨p + 1, ?_, by simp; omega, ?_, ?_⟩
        · simp only [util.findIn, h, if_false, h1]
          congr 1; omega
        · simp [Spec.afterFirst, h, h3]
        · simp [Spec.beforeFirst, h, h4]

theorem find_afterFirst (d : Nat) (s : Str) :
    (util.find s d 0 = none ∧ Spec.afterFirst d s = none ∧ Spec.beforeFirst d s = s) ∨
    (∃ p, util.find s d 0 = some p ∧ p < s.length ∧
      Spec.afterFirst d s = some (s.drop (p + 1)) ∧ Spec.beforeFirst d s = s.take p) := by
  have := findIn_afterFirst d s 0
  simpa [util.find] using this

theorem splitAll_ne_nil (d : Nat) (s : Str) : Spec.splitAll d s ≠ [] := by
  induction s with
  | nil => simp [Spec.splitAll]
  | cons c cs ih =>
    simp only [Spec.splitAll]
    split
    · simp
    · split <;> simp

theorem splitGo_inRun (d : Nat) (s cur : Str) (h : s.head? ≠ some d) :
    algo.splitGo (fun c => decide (c = d)) s cur true =
      algo.splitGo (fun c => decide (c = d)) s cur false := by
  cases s with
  | nil => rfl
  | cons c cs =>
    have hc : ¬ c = d := by simpa using h
    simp [algo.splitGo, hc]

theorem splitGo_splitAll (d : Nat) (s : Str) : ∀ cur : Str, Spec.noAdjacent d s = true →
    algo.splitGo (fun c => decide (c = d)) s cur false =
      match Spec.splitAll d s with
      | [] => []
      | p :: ps => (cur.reverse ++ p) :: ps := by
  induction s with
  | nil => intro cur _; simp [algo.splitGo, Spec.splitAll]
  | cons c cs ih =>
    intro cur hna
    have hna2 : Spec.noAdjacent d cs = true := by
      cases cs with
      | nil => rfl
      | cons b rest =>
        simp only [Spec.noAdjacent, Bool.and_eq_true] at hna
        exact hna.2
    by_cases hc : c = d
    · have hhead : cs.head? ≠ some d := by
        cases cs with
        | nil => simp
        | cons b rest =>
          simp only [Spec.noAdjacent, Bool.and_eq_true, Bool.not_eq_true', Bool.and_eq_false_imp,
            decide_eq_true_eq, decide_eq_false_iff_not] at hna
          simpa using hna.1 hc
      have e1 := ih [] hna2
      simp only [algo.splitGo, hc, decide_True, if_true, Bool.false_eq_true, if_false,
        Spec.splitAll, List.append_nil]
      rw [splitGo_inRun d cs [] hhead, e1]
      cases hsp : Spec.splitAll d cs with
      | nil => exact absurd hsp (splitAll_ne_nil d cs)
      | cons p ps => simp
    · have e1 := ih (c :: cur) hna2
      simp only [algo.splitGo, hc, decide_False, Bool.false_eq_true, if_false, Spec.splitAll]
      rw [e1]
      cases hsp : Spec.splitAll d cs with
      | nil => exact absurd hsp (splitAll_ne_nil d cs)
      | cons p ps => simp

theorem split_eq_splitAll (d : Nat) (s : Str) (h : Spec.noAdjacent d s = true) :
    algo.split (fun c => decide (c = d)) s = Spec.splitAll d s := by
  rw [algo.split, splitGo_splitAll d s [] h]
  cases hsp : Spec.splitAll d s with
  | nil => exact absurd hsp (splitAll_ne_nil d s)
  | cons p ps => simp

theorem setQueryParam_queryPair (piece : Str) (m : str2str_map) :
    (HttpContext.setQueryParam piece m).toExcept =
      match Spec.queryPair piece with
      | .error e => .error e
      | .ok kv => .ok (mapSet m kv.1 kv.2) := by
  rcases find_afterFirst 61 piece with ⟨h1, h2, h3⟩ | ⟨p, h1, h2, h3, h4⟩
  · simp only [HttpContext.setQueryParam, h1, Spec.queryPair, h2]
    cases util.decodeUrl piece <;> rfl
  · simp only [HttpContext.setQueryParam, h1, Spec.queryPair, h3, h4]
    cases util.decodeUrl (piece.take p) with
    | error e => rfl
    | ok k => cases util.decodeUrl (piece.drop (p + 1)) <;> rfl

theorem setQueryParams_queryFold (pieces : List Str) : ∀ m : str2str_map,
    (HttpContext.setQueryParams pieces m).toExcept = Spec.queryFold pieces m := by
  induction pieces with
  | nil => intro m; rfl
  | cons piece rest ih =>
    intro m
    have h := setQueryParam_queryPair piece m
    simp only [HttpContext.setQueryParams, Spec.queryFold]
    cases hq : Spec.queryPair piece with
    | error e =>
      rw [hq] at h
      cases he : (HttpContext.setQueryParam piece m).err with
      | none => simp [Res.toExcept, he] at h
      | some e2 =>
        simp only [Res.toExcept, he] at h
        simp only [Res.andThen, he, Res.toExcept]
        exact h
    | ok kv =>
      rw [hq] at h
      cases he : (HttpContext.setQueryParam piece m).err with
      | some e2 => simp [Res.toExcept, he] at h
      | none =>
        simp only [Res.toExcept, he, Except.ok.injEq] at h
        simp only [Res.andThen, he, h]
        exact ih _

/-- C10 (as amended): when no two `&` are adjacent in the substring after the first `?`,
`parseQueryStringParams` on an empty `GetParameters` gives what the specification says:
the empty map when the path has no `?` or nothing after it, else the map built from the
pieces between the `&`, each split at its first `=` and percent-decoded on both sides, a
later key overwriting an earlier one; it throws where a piece does not decode. -/
theorem C10_query_map_without_adjacent_amp (path : Str)
    (h : Spec.noAdjacent 38 (Spec.queryString path) = true) :
    (HttpContext.parseQueryStringParams path []).toExcept = Spec.queryMap path := by
  rcases find_afterFirst 63 path with ⟨h1, h2, -⟩ | ⟨p, h1, h2, h3, -⟩
  · simp [HttpContext.parseQueryStringParams, h1, Spec.queryMap, h2, Res.toExcept]
  · simp only [Spec.queryString, h3, Option.getD_some] at h
    simp only [HttpContext.parseQueryStringParams, h1, Spec.queryMap, h3]
    cases hq : path.drop (p + 1) with
    | nil =>
      have : p + 1 = path.length := by
        have := congrArg List.length hq
        simp only [List.length_drop, List.length_nil] at this
        omega
      simp [this, Res.toExcept]
    | cons c q =>
      have : ¬ p + 1 = path.length := by
        intro he
        have := congrArg List.length hq
        simp only [List.length_drop, List.length_cons] at this
        omega
      simp only [this, if_false]
      rw [← hq, setQueryParams_queryFold, split_eq_splitAll 38 _ h]

theorem C10_query_map_without_adjacent_amp_witness :
    (HttpContext.parseQueryStringParams (lit "/find?q=a+b%21&lang=en&exact") []).toExcept =
      Spec.queryMap (lit "/find?q=a+b%21&lang=en&exact") :=
  C10_query_map_without_adjacent_amp (lit "/find?q=a+b%21&lang=en&exact") (by decide)

/-- C10 fails as stated at the path `/?a&&b`: splitting the query string at each `&` leaves
an empty piece between the two `&`, which the specification maps to the empty value under
the empty key, while `parseQueryStringParams` merges adjacent `&` and enters only `a` and
`b`.  At the path `/?a=%zz` the call throws `std::out_of_range` and sets no map. -/
theorem C10_adjacent_amp_counterexample :
    (HttpContext.parseQueryStringParams (lit "/?a&&b") []).toExcept ≠
      Spec.queryMap (lit "/?a&&b") ∧
    (HttpContext.parseQueryStringParams (lit "/?a&&b") []).toExcept.toOption =
      some [(lit "a", []), (lit "b", [])] ∧
    (Spec.queryMap (lit "/?a&&b")).toOption = some [([], []), (lit "a", []), (lit "b", [])] ∧
    (HttpContext.parseQueryStringParams (lit "/?a=%zz") []).err = some Err.out_of_range := by
  have h1 : (HttpContext.parseQueryStringParams (lit "/?a&&b") []).toExcept.toOption =
      some [(lit "a", []), (lit "b", [])] := by decide
  have h2 : (Spec.queryMap (lit "/?a&&b")).toOption =
      some [([], []), (lit "a", []), (lit "b", [])] := by decide
  refine ⟨fun h => ?_, h1, h2, by decide⟩
  rw [h, h2] at h1
  exact absurd h1 (by decide)

/-! ## C11: cookies -/

/-- C11, at a failing input: for the request header `Cookie: a=1; b=2`, `parseCookies`
returns normally with the keys `a` and ` b`: the second key keeps the space that follows
the `;`, and `Cookies` has no key `b`. -/
theorem C11_parseCookies_keeps_leading_space :
    (HttpRequestHeader.load false (lit "GET / HTTP/1.1\r\nCookie: a=1; b=2")
        HttpRequestHeader.create).err = none ∧
      (HttpContext.parseCookies
        (HttpRequestHeader.load false (lit "GET / HTTP/1.1\r\nCookie: a=1; b=2")
          HttpRequestHeader.create).st []).err = none ∧
      (HttpContext.parseCookies
        (HttpRequestHeader.load false (lit "GET / HTTP/1.1\r\nCookie: a=1; b=2")
          HttpRequestHeader.create).st []).st = [(lit " b", lit "2"), (lit "a", lit "1")] ∧
      mapFind (HttpContext.parseCookies
        (HttpRequestHeader.load false (lit "GET / HTTP/1.1\r\nCookie: a=1; b=2")
          HttpRequestHeader.create).st []).st (lit "b") = none := by
  decide

/-! ## C12: form parameters -/

/-- C12, at a failing input: the body `a=1&b=2` of a request with `Content-Length: 7` gives
the parameters `a` and `b` when the whole of it is the over-read prefix, and the parameter
`a` alone when the prefix is `a=1&` and `recv` delivers `b=2`; both calls return normally
with the request stream read to its end. -/
theorem C12_parsePostParams_depends_on_reads :
    (HttpContext.parsePostParams true 2097152 7 []
        (HttpRequestStream.init (lit "a=1&b=2") 7 HttpRequestStream.create) []).st.1 =
        [(lit "a", lit "1"), (lit "b", lit "2")] ∧
      (HttpContext.parsePostParams true 2097152 7 [some (lit "b=2")]
        (HttpRequestStream.init (lit "a=1&") 7 HttpRequestStream.create) []).st.1 =
        [(lit "a", lit "1")] ∧
      (HttpContext.parsePostParams true 2097152 7 []
        (HttpRequestStream.init (lit "a=1&b=2") 7 HttpRequestStream.create) []).err = none ∧
      (HttpContext.parsePostParams true 2097152 7 [some (lit "b=2")]
        (HttpRequestStream.init (lit "a=1&") 7 HttpRequestStream.create) []).err = none ∧
      (HttpContext.parsePostParams true 2097152 7 [some (lit "b=2")]
        (HttpRequestStream.init (lit "a=1&") 7 HttpRequestStream.create) []).st.2.isRead = true := by
  decide

/-! ## C13: key-value pairs -/

/-- C13, at failing inputs: `parseKeyValuePairs` gives `a=1; b="2"; c` the keys `a`, `b` and
the empty key (not `c`), gives `a=1; c=3` an empty value for `c`, and gives `a=1` an empty
value for `a`. -/
theorem C13_parseKeyValuePairs_last_pair :
    util.parseKeyValuePairs (lit "a=1; b=\"2\"; c") (lit ";") (lit "\"") =
        .ok [([], []), (lit "a", lit "1"), (lit "b", lit "2")] ∧
      util.parseKeyValuePairs (lit "a=1; c=3") (lit ";") (lit "\"") =
        .ok [(lit "a", lit "1"), (lit "c", [])] ∧
      util.parseKeyValuePairs (lit "a=1") (lit ";") (lit "\"") = .ok [(lit "a", [])] := by
  refine ⟨?_, ?_, ?_⟩ <;> rfl

/-! ## C15: upload names -/

/-- C15, at failing inputs: with an empty uploads directory the file `a.txt` is opened as
`$a.txt`, not under its own name; and when the directory holds `$a.txt` only, the name
opened is `$a.txt`, a file that exists. -/
theorem C15_upload_name_is_one_dollar_further :
    HttpContext.uploadFileName [] (lit "a.txt") = .ok (lit "$a.txt") ∧
      HttpContext.uploadFileName [lit "$a.txt"] (lit "a.txt") = .ok (lit "$a.txt") ∧
      lit "$a.txt" ∈ [lit "$a.txt"] := by
  refine ⟨rfl, rfl, ?_⟩
  decide

/-! ## C16: registered directories -/

/-- C16, at a failing input: with the directories `/` and `/a/b/` registered, the request
path `/a/b/x` gets the settings of `/`, although `/a/b/` is a key of the map and a prefix of
the path: the search stops at `/a/`, which is not a key. -/
theorem C16_search_stops_at_missing_prefix :
    HttpServer.findRegisteredDirectory [(lit "/", 0), (lit "/a/b/", 1)] (lit "/a/b/x") =
        .ok (some 0) ∧
      HttpServer.dirFind [(lit "/", 0), (lit "/a/b/", 1)] (lit "/a/b/") = some 1 ∧
      HttpServer.dirFind [(lit "/", 0), (lit "/a/b/", 1)] (lit "/a/") = none ∧
      lit "/a/b/" <+: lit "/a/b/x" := by
  refine ⟨rfl, ?_, ?_, ?_⟩ <;> decide

/-! ## C17: mappings -/

theorem applyMapping_of_match {ρ : Type} (regex_match : ρ → Str → Option (List (Option Str)))
    (p vp : Str) (st st1 : HttpServer.MappedPath) (rule : ρ × Str)
    (h : (regex_match rule.1 vp).isSome = true) :
    HttpServer.applyMapping regex_match p vp st rule =
      HttpServer.applyMapping regex_match p vp st1 rule := by
  unfold HttpServer.applyMapping
  cases hm : regex_match rule.1 vp with
  | none => rw [hm] at h; exact absurd h (by simp)
  | some subs => rfl

theorem applyMapping_of_no_match {ρ : Type}
    (regex_match : ρ → Str → Option (List (Option Str)))
    (p vp : Str) (st : HttpServer.MappedPath) (rule : ρ × Str)
    (h : (regex_match rule.1 vp).isSome = false) :
    HttpServer.applyMapping regex_match p vp st rule = st := by
  unfold HttpServer.applyMapping
  cases hm : regex_match rule.1 vp with
  | none => rfl
  | some subs => rw [hm] at h; exact absurd h (by simp)

theorem foldl_applyMapping {ρ : Type} (regex_match : ρ → Str → Option (List (Option Str)))
    (p vp : Str) (mappings : List (ρ × Str)) (st : HttpServer.MappedPath) :
    mappings.foldl (HttpServer.applyMapping regex_match p vp) st =
      match (mappings.filter fun rule => (regex_match rule.1 vp).isSome).getLast? with
      | none => st
      | some rule => HttpServer.applyMapping regex_match p vp st rule := by
  induction mappings using List.reverseRecOn with
  | nil => rfl
  | append_singleton init rule ih =>
    rw [List.foldl_append, List.foldl_cons, List.foldl_nil, List.filter_append]
    cases hm : (regex_match rule.1 vp).isSome with
    | true =>
      have h1 : List.filter (fun rule => (regex_match rule.1 vp).isSome) [rule] = [rule] := by
        simp [List.filter, hm]
      rw [h1, List.getLast?_append, List.getLast?_singleton]
      exact applyMapping_of_match regex_match p vp _ st rule hm
    | false =>
      have h1 : List.filter (fun rule => (regex_match rule.1 vp).isSome) [rule] = [] := by
        simp [List.filter, hm]
      rw [h1, List.append_nil, applyMapping_of_no_match regex_match p vp _ rule hm]
      exact ih

/-- C17 (amended): when the parent directory has mappings, every rule is matched against the
same relative path, the request path without the virtual path of the parent directory, and
the rewritten path is the one the last matching rule gives (the path is left as it is when
no rule matches). -/
theorem C17_mappings_match_the_original_path {ρ : Type}
    (regex_match : ρ → Str → Option (List (Option Str))) (parentVirtualPath : Str)
    (mappings : List (ρ × Str)) (VirtualPath : Str) (st : HttpServer.MappedPath)
    (h : parentVirtualPath.length ≤ VirtualPath.length) :
    HttpServer.applyMappings regex_match parentVirtualPath mappings VirtualPath st =
      .ok (match (mappings.filter fun rule =>
          (regex_match rule.1 (VirtualPath.drop parentVirtualPath.length)).isSome).getLast? with
        | none => st
        | some rule =>
          HttpServer.applyMapping regex_match parentVirtualPath
            (VirtualPath.drop parentVirtualPath.length) st rule) := by
  unfold HttpServer.applyMappings
  cases mappings with
  | nil => rfl
  | cons rule rules =>
    rw [if_neg (by simp), if_neg (by omega), foldl_applyMapping]

theorem C17_mappings_match_the_original_path_witness :
    (lit "/").length ≤ (lit "/a").length ∧
    HttpServer.applyMappings plainRegexMatch (lit "/") [(lit "a", lit "b"), (lit "b", lit "c")]
        (lit "/a") ⟨lit "/a", lit "/a"⟩ =
      .ok (match ([(lit "a", lit "b"), (lit "b", lit "c")].filter fun rule =>
          (plainRegexMatch rule.1 ((lit "/a").drop (lit "/").length)).isSome).getLast? with
        | none => ⟨lit "/a", lit "/a"⟩
        | some rule =>
          HttpServer.applyMapping plainRegexMatch (lit "/")
            ((lit "/a").drop (lit "/").length) ⟨lit "/a", lit "/a"⟩ rule) :=
  ⟨by decide, C17_mappings_match_the_original_path plainRegexMatch (lit "/")
    [(lit "a", lit "b"), (lit "b", lit "c")] (lit "/a") ⟨lit "/a", lit "/a"⟩ (by decide)⟩

/-- C17, counterexample to the claim as worded: with the rules `a` to `b` and `b` to `c` on
the directory `/`, the request path `/a` is rewritten to `/b`, since the second rule is
matched against `a` and not against `b`; applied cumulatively, the rules give `/c`. -/
theorem C17_mappings_are_not_cumulative :
    HttpServer.applyMappings plainRegexMatch (lit "/") [(lit "a", lit "b"), (lit "b", lit "c")]
        (lit "/a") ⟨lit "/a", lit "/a"⟩ = .ok ⟨lit "/b", lit "/b"⟩ ∧
      Spec.applyMappingsCumulative plainRegexMatch (lit "/")
        [(lit "a", lit "b"), (lit "b", lit "c")] (lit "a") ⟨lit "/a", lit "/a"⟩ =
        ⟨lit "/c", lit "/c"⟩ := by
  refine ⟨rfl, ?_⟩
  decide

/-! ## C18: handlers -/

theorem strLt_irrefl : ∀ a : Str, strLt a a = false
  | [] => rfl
  | x :: xs => by simp [strLt, strLt_irrefl xs]

theorem strLt_asymm : ∀ a b : Str, strLt a b = true → strLt b a = false
  | [], [], _ => rfl
  | [], _ :: _, _ => rfl
  | _ :: _, [], h => by simp [strLt] at h
  | x :: xs, y :: ys, h => by
    simp only [strLt] at h ⊢
    by_cases h1 : x < y
    · have h2 : ¬ y < x := by omega
      simp [h1, h2]
    · by_cases h2 : y < x
      · simp [h1, h2] at h
      · simp only [h1, h2, if_false] at h ⊢
        exact strLt_asymm xs ys h

theorem strLt_trans : ∀ a b c : Str, strLt a b = true → strLt b c = true → strLt a c = true
  | [], _, [], _, h2 => by cases ‹Str› <;> simp [strLt] at h2
  | [], _, _ :: _, _, _ => rfl
  | _ :: _, [], _, h1, _ => by simp [strLt] at h1
  | _ :: _, _ :: _, [], _, h2 => by simp [strLt] at h2
  | x :: xs, y :: ys, z :: zs, h1, h2 => by
    simp only [strLt] at h1 h2 ⊢
    by_cases a1 : x < y
    · by_cases b1 : y < z
      · have : x < z := by omega
        simp [this]
      · by_cases b2 : z < y
        · simp [b1, b2] at h2
        · have : x < z := by omega
          simp [this]
    · by_cases a2 : y < x
      · simp [a1, a2] at h1
      · simp only [a1, a2, if_false] at h1
        by_cases b1 : y < z
        · have : x < z := by omega
          simp [this]
        · by_cases b2 : z < y
          · simp [b1, b2] at h2
          · simp only [b1, b2, if_false] at h2
            have c1 : ¬ x < z := by omega
            have c2 : ¬ z < x := by omega
            simp only [c1, c2, if_false]
            exact strLt_trans xs ys zs h1 h2

theorem multimapInsert_perm {η : Type} (x : Str × η) :
    ∀ m : List (Str × η), (HttpServer.multimapInsert m x).Perm (x :: m)
  | [] => List.Perm.refl _
  | y :: rest => by
    unfold HttpServer.multimapInsert
    by_cases h : strLt x.1 y.1 = true
    · rw [if_pos h]
    · rw [if_neg h]
      exact ((multimapInsert_perm x rest).cons y).trans (List.Perm.swap x y rest)

theorem multimapInsert_sorted {η : Type} (x : Str × η) :
    ∀ m : List (Str × η), m.Pairwise (fun a b => strLt b.1 a.1 = false) →
      (HttpServer.multimapInsert m x).Pairwise (fun a b => strLt b.1 a.1 = false)
  | [], _ => List.pairwise_singleton _ _
  | y :: rest, hm => by
    unfold HttpServer.multimapInsert
    rw [List.pairwise_cons] at hm
    by_cases h : strLt x.1 y.1 = true
    · rw [if_pos h, List.pairwise_cons]
      refine ⟨?_, List.pairwise_cons.2 hm⟩
      intro z hz
      rcases List.mem_cons.1 hz with rfl | hz
      · exact strLt_asymm _ _ h
      · cases hzx : strLt z.1 x.1 with
        | false => rfl
        | true =>
          have := strLt_trans _ _ _ hzx h
          rw [hm.1 z hz] at this
          exact absurd this (by simp)
    · rw [if_neg h, List.pairwise_cons]
      refine ⟨?_, multimapInsert_sorted x rest hm.2⟩
      intro z hz
      rcases List.mem_cons.1 ((multimapInsert_perm x rest).subset hz) with rfl | hz
      · simpa using h
      · exact hm.1 z hz

theorem multimapInsert_filter {η : Type} (x : Str × η) (key : Str) :
    ∀ m : List (Str × η), m.Pairwise (fun a b => strLt b.1 a.1 = false) →
      (HttpServer.multimapInsert m x).filter (fun e => decide (e.1 = key)) =
        m.filter (fun e => decide (e.1 = key)) ++ [x].filter (fun e => decide (e.1 = key))
  | [], _ => rfl
  | y :: rest, hm => by
    unfold HttpServer.multimapInsert
    rw [List.pairwise_cons] at hm
    by_cases h : strLt x.1 y.1 = true
    · rw [if_pos h]
      by_cases hx : x.1 = key
      · have hnone : (y :: rest).filter (fun e => decide (e.1 = key)) = [] := by
          rw [List.filter_eq_nil_iff]
          intro z hz
          rcases List.mem_cons.1 hz with rfl | hz
          · intro hk
            have hzk : z.1 = x.1 := (of_decide_eq_true hk).trans hx.symm
            rw [hzk, strLt_irrefl] at h
            exact absurd h (by simp)
          · intro hk
            have hzk : z.1 = x.1 := (of_decide_eq_true hk).trans hx.symm
            have hyz := hm.1 z hz
            rw [hzk, h] at hyz
            exact absurd hyz (by simp)
        rw [List.filter_cons_of_pos (by simpa using hx), hnone]
        simp [List.filter, hx]
      · rw [List.filter_cons_of_neg (by simpa using hx)]
        simp [List.filter, hx]
    · rw [if_neg h]
      by_cases hy : y.1 = key
      · rw [List.filter_cons_of_pos (by simpa using hy), List.filter_cons_of_pos (by simpa using hy),
          multimapInsert_filter x key rest hm.2, List.cons_append]
      · rw [List.filter_cons_of_neg (by simpa using hy), List.filter_cons_of_neg (by simpa using hy),
          multimapInsert_filter x key rest hm.2]

theorem loadDirectoryHandlers_spec {η : Type} (key : Str) :
    ∀ (registered handlers : List (Str × η)),
      handlers.Pairwise (fun a b => strLt b.1 a.1 = false) →
      (HttpServer.loadDirectoryHandlers registered handlers).Perm (handlers ++ registered) ∧
      (HttpServer.loadDirectoryHandlers registered handlers).Pairwise
        (fun a b => strLt b.1 a.1 = false) ∧
      (HttpServer.loadDirectoryHandlers registered handlers).filter (fun e => decide (e.1 = key)) =
        handlers.filter (fun e => decide (e.1 = key)) ++
          registered.filter (fun e => decide (e.1 = key))
  | [], handlers, hs => by
    simp [HttpServer.loadDirectoryHandlers, hs]
  | x :: rest, handlers, hs => by
    have ih := loadDirectoryHandlers_spec key rest (HttpServer.multimapInsert handlers x)
      (multimapInsert_sorted x handlers hs)
    unfold HttpServer.loadDirectoryHandlers at ih ⊢
    rw [List.foldl_cons]
    refine ⟨?_, ih.2.1, ?_⟩
    · refine ih.1.trans ?_
      refine ((multimapInsert_perm x handlers).append_right rest).trans ?_
      have hp : (handlers ++ x :: rest).Perm (x :: (handlers ++ rest)) := List.perm_middle
      simpa using hp.symm
    · rw [ih.2.2, multimapInsert_filter x key handlers hs, List.append_assoc,
        ← List.filter_append, List.singleton_append]

theorem runHandlers_runInOrder {σ : Type} (extension : Str) :
    ∀ (handlers : List (Str × (σ → Bool × σ))) (context : σ),
      HttpServer.runHandlers extension handlers context =
        Spec.runInOrder
          ((handlers.filter fun e => HttpServer.handlerApplies extension e.1).map Prod.snd) context
  | [], _ => rfl
  | (key, handler) :: rest, context => by
    unfold HttpServer.runHandlers
    by_cases h : HttpServer.handlerApplies extension key = true
    · have hf : List.filter (fun e : Str × (σ → Bool × σ) =>
          HttpServer.handlerApplies extension e.1) ((key, handler) :: rest) =
          (key, handler) :: List.filter (fun e => HttpServer.handlerApplies extension e.1) rest :=
        List.filter_cons_of_pos (by exact h)
      rw [if_pos h, hf, List.map_cons]
      unfold Spec.runInOrder
      show (match handler context with
        | (true, context1) => (true, context1)
        | (false, context1) => HttpServer.runHandlers extension rest context1) =
        match handler context with
        | (true, context1) => (true, context1)
        | (false, context1) => Spec.runInOrder _ context1
      rcases handler context with ⟨ret, context1⟩
      cases ret with
      | true => rfl
      | false => exact runHandlers_runInOrder extension rest context1
    · have hf : List.filter (fun e : Str × (σ → Bool × σ) =>
          HttpServer.handlerApplies extension e.1) ((key, handler) :: rest) =
          List.filter (fun e => HttpServer.handlerApplies extension e.1) rest :=
        List.filter_cons_of_neg (by exact h)
      rw [if_neg h, hf]
      exact runHandlers_runInOrder extension rest context

/-- C18 (amended): the handlers registered on a directory are kept in a multimap, and
`runHandlers` goes through it in the order of the keys (`std::string` order), which is the
order of registration only among handlers with the same key: the multimap is a permutation of
the registrations, sorted by key, with the registrations of every key in their order.  The
handlers whose key equals the extension of the target or `*`, ignoring case, are invoked in
that order up to the first that returns `true`; the call returns `true` then, and `false`
when none does. -/
theorem C18_handlers_run_in_key_order {σ : Type} (registered : List (Str × (σ → Bool × σ)))
    (extension : Str) (context : σ) :
    (HttpServer.loadDirectoryHandlers registered []).Perm registered ∧
      (HttpServer.loadDirectoryHandlers registered []).Pairwise
        (fun a b => strLt b.1 a.1 = false) ∧
      (∀ key : Str,
        (HttpServer.loadDirectoryHandlers registered []).filter (fun e => decide (e.1 = key)) =
          registered.filter (fun e => decide (e.1 = key))) ∧
      HttpServer.runHandlers extension (HttpServer.loadDirectoryHandlers registered []) context =
        Spec.runInOrder
          (((HttpServer.loadDirectoryHandlers registered []).filter fun e =>
            HttpServer.handlerApplies extension e.1).map Prod.snd) context := by
  refine ⟨?_, ?_, ?_, runHandlers_runInOrder extension _ context⟩
  · simpa using (loadDirectoryHandlers_spec [] registered [] List.Pairwise.nil).1
  · exact (loadDirectoryHandlers_spec [] registered [] List.Pairwise.nil).2.1
  · intro key
    simpa using (loadDirectoryHandlers_spec key registered [] List.Pairwise.nil).2.2

/-- C18, counterexample to the claim as worded: the handler 1 is registered for `.py` and
then the handler 2 for `*`, and both return `true`.  For a target with the extension `.py`,
`runHandlers` invokes the handler 2 alone, since `*` comes before `.py` in the multimap; in
the order of registration the handler 1 would be the one invoked. -/
theorem C18_handlers_do_not_run_in_registration_order :
    HttpServer.runHandlers (lit ".py")
        (HttpServer.loadDirectoryHandlers
          [(lit ".py", loggingHandler 1 true), (lit "*", loggingHandler 2 true)] []) [] =
        (true, [2]) ∧
      Spec.runInOrder
        (([(lit ".py", loggingHandler 1 true), (lit "*", loggingHandler 2 true)].filter fun e =>
          HttpServer.handlerApplies (lit ".py") e.1).map Prod.snd) [] = (true, [1]) := by
  decide

/-! ## C19: methods that are not implemented -/

set_option maxRecDepth 100000 in
/-- C19, at a failing input: for the method `PUT`, `isMethodImplemented` returns `false`
after a response with the status 501 whose header block has no `Allow` entry (neither the
header map nor the bytes sent hold the name); and when assertions are compiled in, the call
is aborted by the assertion of `sentHeaders` on the method of the response, before any
byte is sent. -/
theorem C19_not_implemented_has_no_allow_header :
    (HttpServer.isMethodImplemented (sampleEnv false) (sampleContext (lit "PUT"))).err = none ∧
      (HttpServer.isMethodImplemented (sampleEnv false)
        (sampleContext (lit "PUT"))).st.returned = false ∧
      (HttpServer.isMethodImplemented (sampleEnv false)
        (sampleContext (lit "PUT"))).st.context.Response.Header.Status = 501 ∧
      (HttpServer.isMethodImplemented (sampleEnv false)
        (sampleContext (lit "PUT"))).st.context.Response.isFinished = true ∧
      mapFind (HttpServer.isMethodImplemented (sampleEnv false)
        (sampleContext (lit "PUT"))).st.context.Response.Header.Headers detail.HeaderAllow = none ∧
      util.findStr (HttpServer.isMethodImplemented (sampleEnv false)
        (sampleContext (lit "PUT"))).st.context.Response.Stream.socket_ detail.HeaderAllow = none ∧
      (HttpServer.isMethodImplemented (sampleEnv true) (sampleContext (lit "PUT"))).err =
        some Err.assert_failed ∧
      (HttpServer.isMethodImplemented (sampleEnv true)
        (sampleContext (lit "PUT"))).st.context.Response.Stream.socket_ = [] := by
  decide

/-! ## C20: error pages -/

set_option maxRecDepth 100000 in
/-- C20, at a failing input: the page that `getErrorResponse` builds for the status 404 and
the path `/<b>&` holds the path as it is, and `processError404` sends that page: the body
has the characters `<b>&` of the message and not the escaped form that `escapeHtml` would
give.  The page of `processServerError` for the message `a<b` holds `a<b` likewise. -/
theorem C20_error_page_is_not_escaped :
    HttpResponse.getErrorResponse 404 (some messages.Error404) [lit "/<b>&"] =
        .ok (messages.MessageFormat (lit "Not Found") (lit "Not Found")
          (lit "The requested page cannot be found: \"/<b>&\"")) ∧
      (HttpServer.processError404 (sampleEnv false)
        { sampleContext (lit "GET") with VirtualPath := lit "/<b>&" }).err = none ∧
      (util.findStr (HttpServer.processError404 (sampleEnv false)
        { sampleContext (lit "GET") with VirtualPath := lit "/<b>&" }).st.Response.Stream.socket_
        (lit "found: \"/<b>&\"</body>")).isSome = true ∧
      util.escapeHtml (lit "/<b>&") = lit "/&lt;b&gt;&amp;" ∧
      util.findStr (HttpServer.processError404 (sampleEnv false)
        { sampleContext (lit "GET") with VirtualPath := lit "/<b>&" }).st.Response.Stream.socket_
        (util.escapeHtml (lit "/<b>&")) = none ∧
      (util.findStr (HttpServer.processServerError (sampleEnv false) 500 (lit "a<b")
        (sampleContext (lit "GET"))).st.Response.Stream.socket_
        (lit "Internal server error.<hr />a<b</body>")).isSome = true := by
  refine ⟨rfl, ?_, ?_, ?_, ?_, ?_⟩ <;> decide

/-! ## C14: multipart form data -/

theorem endMark_eq : detail.HeadersEndMark = [13, 10, 13, 10] := rfl

section MultipartLoops

open HttpContext

/-! ### The reads of the body -/

end MultipartLoops

/-- A body with one part is the body of a list of one field. -/
theorem singlePartBody_formBody (B n v : Str) :
    Spec.singlePartBody B n v = Spec.formBody B [(n, v)] := by
  have h : lit "\r\n--" = lit "\r\n" ++ lit "--" := by decide
  rw [Spec.singlePartBody, Spec.formBody, Spec.formBody, Spec.formPart, h]
  simp only [List.append_assoc]

set_option maxRecDepth 100000 in
/-- The map of the fields for two parts of the same name and one of another name: the values
of the parts of the same name are joined. -/
theorem formFields_same_name :
    Spec.formFields [(lit "a", lit "1"), (lit "b", lit "x"), (lit "a", lit "2")] [] =
      [(lit "a", lit "12"), (lit "b", lit "x")] := by
  decide

set_option maxRecDepth 100000 in
/-- A value that holds `--` and the boundary is not stored whole when a read ends inside it:
the field `a` with the value `hello--XXworld`, of which `he` arrives with the request header
and the rest in one delivery, is stored as `hel`. -/
theorem loadMultipartFormData_boundary_in_value :
    (lit "--XX\r\nContent-Disposition: form-data; name=\"a\"\r\n\r\nhe" ++
        lit "llo--XXworld\r\n--XX--\r\n" =
      Spec.formBody (lit "XX") [(lit "a", lit "hello--XXworld")]) ∧
    (HttpContext.loadMultipartFormData true (lit "XX") 4096
        (Spec.formBody (lit "XX") [(lit "a", lit "hello--XXworld")]).length
        [some (lit "llo--XXworld\r\n--XX--\r\n")] []
        (HttpRequestStream.init (lit "--XX\r\nContent-Disposition: form-data; name=\"a\"\r\n\r\nhe")
          (Spec.formBody (lit "XX") [(lit "a", lit "hello--XXworld")]).length
          HttpRequestStream.create) [] []).st.PostParameters = [(lit "a", lit "hel")] := by
  refine ⟨?_, ?_⟩ <;> decide

set_option maxRecDepth 100000 in
/-- The value of a field whose name is empty is lost when a read ends with the header of the
part: the field with the empty name and the value `v`, whose header arrives with the request
header and whose value in one delivery, is stored with an empty value. -/
theorem loadMultipartFormData_empty_name :
    (lit "--XX\r\nContent-Disposition: form-data; name=\"\"\r\n\r\n" ++ lit "v\r\n--XX--\r\n" =
      Spec.formBody (lit "XX") [([], lit "v")]) ∧
    (HttpContext.loadMultipartFormData true (lit "XX") 4096
        (Spec.formBody (lit "XX") [([], lit "v")]).length
        [some (lit "v\r\n--XX--\r\n")] []
        (HttpRequestStream.init (lit "--XX\r\nContent-Disposition: form-data; name=\"\"\r\n\r\n")
          (Spec.formBody (lit "XX") [([], lit "v")]).length
          HttpRequestStream.create) [] []).st.PostParameters = [([], [])] := by
  refine ⟨?_, ?_⟩ <;> decide

/-- C21, at failing inputs: for the request paths `/a%zz`, `/a%2` and `/a%`, with the root
directory registered, `processRequest` ends with the exception `std::out_of_range` that
`decodeUrl` throws in `findTarget`: the handler of its `try` block catches
`request_processing_error` only.  No byte has been sent and the headers are not sent,
whatever the rest of `findTarget` and `processDirectFileRequest` would do. -/
theorem C21_malformed_escape_leaves_processRequest (asserts : Bool)
    (serve : DirectorySettings Str → Option Str → HttpContext → Res HttpServer.Outcome)
    (processDirectFileRequest : HttpContext → Res HttpContext) (what : Str) :
    EscapesUnanswered asserts serve processDirectFileRequest what (lit "/a%zz") ∧
      EscapesUnanswered asserts serve processDirectFileRequest what (lit "/a%2") ∧
      EscapesUnanswered asserts serve processDirectFileRequest what (lit "/a%") := by
  cases asserts <;> exact ⟨⟨rfl, rfl, rfl⟩, ⟨rfl, rfl, rfl⟩, ⟨rfl, rfl, rfl⟩⟩

/-! ## C22: the idle wait of a worker -/

/-- C22, at a failing input: `waitRequest` returns what `timed_wait` returned, also when the
queue is empty.  A worker woken while the queue is empty (one idle worker, no request) gets
`true` and keeps the `client` it had. -/
theorem C22_waitRequest_returns_waitResult (waitResult : Bool) (client : ClientInfo)
    (s : Server) :
    (Server.waitRequestLeave false waitResult client s).st.returned = waitResult ∧
      Server.waitRequestLeave true true ⟨80, [127, 0, 0, 1], 7⟩
        { Server.create ServerSettings.create with workersCount_ := 1, pendingWorkersCount_ := 1 } =
        ⟨⟨true, { Server.create ServerSettings.create with workersCount_ := 1 },
          ⟨80, [127, 0, 0, 1], 7⟩⟩, none⟩ := by
  refine ⟨?_, rfl⟩
  unfold Server.waitRequestLeave
  simp only [Bool.false_and, Bool.false_eq_true, if_false]
  cases s.requests_ with
  | nil => rfl
  | cons front rest => cases waitResult <;> rfl

/-! ## C23: the counters of the server -/

/-- C23, at a failing run: with `settings.workersCount = 1`, the first connection starts a
worker, the second one finds no idle worker and `workersCount_ = 1`, so the acceptor waits
on `finishCondition ()`; when that wait returns while the worker is still running, the
acceptor counts a second worker: `workersCount_ = 2 > 1`.  The state before was within the
bound. -/
theorem C23_workers_exceed_bound_after_wait :
    Server.dispatch ⟨1025, [127, 0, 0, 1], 7⟩
        (Server.create { ServerSettings.create with workersCount := 1 }) =
        (Server.Dispatch.started,
          { Server.create { ServerSettings.create with workersCount := 1 } with
            workersCount_ := 1 }) ∧
      Server.dispatch ⟨1026, [127, 0, 0, 1], 8⟩
        { Server.create { ServerSettings.create with workersCount := 1 } with workersCount_ := 1 } =
        (Server.Dispatch.waiting,
          { Server.create { ServerSettings.create with workersCount := 1 } with
            workersCount_ := 1 }) ∧
      (Server.afterFinishWait
        { Server.create { ServerSettings.create with workersCount := 1 } with
          workersCount_ := 1 }).workersCount_ = 2 ∧
      (Server.afterFinishWait
        { Server.create { ServerSettings.create with workersCount := 1 } with
          workersCount_ := 1 }).settings_.workersCount = 1 := by
  decide

/-! ## C24: the assertion of `writeDirectly` -/

/-- C24, at a failing input: on a response with a buffer of 4 bytes, `write ("abcde")`
sends the headers and puts the stream in chunked mode; `Stream.end ()` never leaves that
mode, so the call `Stream.writeDirectly ("")` of `end ()` fails the assertion
`!chunked_`. -/
theorem C24_end_calls_writeDirectly_in_chunked_mode :
    (sampleResponse.run (sampleEnv true) [Call.write (lit "abcde")]).err = none ∧
      (sampleResponse.run (sampleEnv true)
        [Call.write (lit "abcde")]).st.Stream.chunked_ = true ∧
      (sampleResponse.run (sampleEnv true) [Call.write (lit "abcde"), Call.finish]).err =
        some Err.assert_failed ∧
      (sampleResponse.run (sampleEnv true)
        [Call.write (lit "abcde"), Call.finish]).st.finished_ = false ∧
      (sampleResponse.run (sampleEnv false)
        [Call.write (lit "abcde"), Call.finish]).st.Stream.chunked_ = true := by
  decide

/-! ## C25: the assertions of `sentHeaders` -/

/-- C25, at a failing input: for the method `PUT`, `processRequest` calls
`isMethodImplemented` before `Response.setHttpMethod`, so the 501 response is written while
the method of the response is `Unknown`: with assertions compiled in, the call ends in
the assertion of `sentHeaders` on the method, and nothing is sent. -/
theorem C25_sentHeaders_assertion_fails_on_501
    (findTarget : HttpContext → Res HttpServer.Outcome)
    (processDirectFileRequest : HttpContext → Res HttpContext) (what : Str) :
    (requestContext (lit "PUT") (lit "/")).Response.httpMethod_ = HttpMethodType.Unknown ∧
      (HttpServer.processRequest (sampleEnv true) findTarget processDirectFileRequest what
        (requestContext (lit "PUT") (lit "/"))).err = some Err.assert_failed ∧
      (HttpServer.processRequest (sampleEnv true) findTarget processDirectFileRequest what
        (requestContext (lit "PUT") (lit "/"))).st.context.Response.httpMethod_ =
        HttpMethodType.Unknown ∧
      (HttpServer.processRequest (sampleEnv true) findTarget processDirectFileRequest what
        (requestContext (lit "PUT") (lit "/"))).st.context.Response.Stream.socket_ = [] ∧
      ((requestContext (lit "PUT") (lit "/")).Response.sentHeaders (sampleEnv true)).err =
        some Err.assert_failed := by
  refine ⟨rfl, rfl, rfl, rfl, rfl⟩

/-! ## C26: the request line -/

/-- C26, at failing inputs: for the header block `GET /`, `load` reads `reqLineParts [2]`
past the end of a vector of two parts; for `GET / HTTP/x.1` and for a header
`Content-Length: abc` it ends with `boost::bad_lexical_cast`, and for `GET / HTTP` with
`std::out_of_range`: none of these is `request_processing_error`. -/
theorem C26_load_fails_with_other_errors :
    (HttpRequestHeader.load true (lit "GET /") HttpRequestHeader.create).err =
        some Err.out_of_bounds ∧
      (HttpRequestHeader.load true (lit "GET / HTTP/x.1") HttpRequestHeader.create).err =
        some Err.bad_lexical_cast ∧
      (HttpRequestHeader.load true (lit "GET / HTTP/1.1\r\nContent-Length: abc")
        HttpRequestHeader.create).err = some Err.bad_lexical_cast ∧
      (HttpRequestHeader.load true (lit "GET / HTTP") HttpRequestHeader.create).err =
        some Err.out_of_range := by
  decide

/-! ## C27: the table of `isSafeForUrlPart` -/

set_option maxRecDepth 100000 in
/-- C27, at a failing input: the table `validChars` has 255 entries, for the indices 0 to
254, and they are what the comment gives as safe; for the byte 255 (the `char` -1) the
lookup reads past the end of the table, in `isSafeForUrlPart` and so in `encodeUrlPart`. -/
theorem C27_table_has_no_entry_for_255 :
    util.validChars.length = 255 ∧
      util.validChars = (List.range 255).map safeByComment ∧
      util.isSafeForUrlPart 255 = .error Err.out_of_bounds ∧
      util.isSafeForUrlPart 254 = .ok false ∧
      safeByComment 255 = false ∧
      util.encodeUrlPart [255] = .error Err.out_of_bounds ∧
      util.encodeUrlPart (lit "a~") = .ok (lit "a%7E") := by
  refine ⟨by decide, by decide, rfl, rfl, by decide, rfl, rfl⟩

/-! ## C28: sending a file -/

theorem write_nothing (env : Env) :
    sampleResponse.write env [] = ⟨sampleResponse, none⟩ := by
  cases env with
  | mk asserts date => cases asserts <;> rfl

theorem sendFileLoop_empty (env : Env) : ∀ fuel : Nat,
    HttpServer.sendFileLoop env 0 fuel (ifstream.open []) sampleResponse =
      ⟨sampleResponse, some Err.no_return⟩
  | 0 => rfl
  | fuel + 1 => by
    have hread : (ifstream.open []).read 0 = ([], ifstream.open []) := rfl
    rw [HttpServer.sendFileLoop, hread]
    simp only [write_nothing, Res.andThen]
    have hgood : (ifstream.open []).good = true := rfl
    rw [hgood, if_pos rfl]
    exact sendFileLoop_empty env fuel

/-- C28, at a failing input: for an empty file `buffSize` is 0, `file.read (buff, 0)` reads
nothing and sets no state bit, so `file.good ()` stays true: the loop has not ended after
any number of rounds.  (A file of 8 bytes sent through a buffer of 4 bytes ends after three
rounds with the 8 bytes written.) -/
theorem C28_empty_file_loop_never_ends (env : Env) (fuel : Nat) :
    HttpServer.sendFile env fuel [] sampleResponse = ⟨sampleResponse, some Err.no_return⟩ ∧
      (HttpServer.sendFile (sampleEnv true) 3 (lit "abcdefgh")
        { sampleResponse with Header := sampleResponse.Header.setContentLength 8 }).err = none ∧
      (HttpServer.sendFile (sampleEnv true) 3 (lit "abcdefgh")
        { sampleResponse with
          Header := sampleResponse.Header.setContentLength 8 }).st.Stream.socket_ =
        lit "HTTP/1.1 -1 Undefined\r\nContent-Length: 8\r\nDate: Sun, 06 Nov 1994 08:49:37 GMT\r\n\r\nabcdefgh" := by
  refine ⟨?_, ?_, ?_⟩
  · exact sendFileLoop_empty env fuel
  · decide
  · decide

/-! ## C29: the settings of the worker pool -/

/-- C29, at a failing input: `loadServerSettings` stores the attribute `workers-count` in
`workerLifeTime`; no statement of it assigns `workersCount`, which keeps the value it had
for every element.  A configuration that gives `workers-count="8"` alone leaves
`workersCount` at its default 500 and sets `workerLifeTime` to 8. -/
theorem C29_workers_count_goes_to_workerLifeTime (serverElem : TiXmlElement)
    (settings : ServerSettings) :
    (HttpServerSettings.loadWorkerSettings serverElem settings).workersCount =
        settings.workersCount ∧
      (HttpServerSettings.loadWorkerSettings workersCountOnly ServerSettings.create).workersCount =
        500 ∧
      (HttpServerSettings.loadWorkerSettings workersCountOnly
        ServerSettings.create).workerLifeTime = 8 := by
  refine ⟨rfl, ?_, ?_⟩ <;> decide

/-! ## C30: the octets of an address -/

/-- C30, at a failing input: for the address word `0xC0A8FF01`, whose octets are 192, 168,
255 and 1, `readIpAddress` stores 192, 168, 0, 1: the octets after the first are reduced
modulo 255, so the octet 255 becomes 0 and `formatIpAddr` prints `192.168.0.1`. -/
theorem C30_octet_255_becomes_0 :
    util.readIpAddress 0xC0A8FF01 = [192, 168, 0, 1] ∧
      0xC0A8FF01 / 2 ^ 8 % 256 = 255 ∧
      util.formatIpAddr (util.readIpAddress 0xC0A8FF01) = lit "192.168.0.1" ∧
      util.readIpAddress 0xFFFFFFFF = [255, 0, 0, 0] := by
  decide

end ahttp
